import Mathlib

/-!
Verification of the Totoro set-arrangement engine and timeline scheduler.

This file shallowly embeds the relevant parts of the repository:

* `Totoro/dbclasses/plate_utils.py` — `getOptimalSet`, `rearrangeSets`,
  `selectOpticalArrangement`, `applyArrangement`, `calculatePermutations`,
  `getNumberPermutations`, `fixBadSets`, `getConsecutiveSets`, `updatePlate`;
* `logic/mangaLogicTimeline.py` — `simulatePlates`, `cleanupPlates`;
* `scheduler/timeline.py` — `Timeline.schedule`, `Timeline.remainingTime`,
  `Timeline.allocateJDs`.

Floating point values (SN² per band, JDs, LSTs) are idealized as rationals,
with NaN entries treated as zero (`nansum`/`nanmean` semantics).  The set and
plate classes (`Totoro/dbclasses/set.py`, `plate.py`) and the interval helpers
(`Totoro/utils`) are not part of the sources; the functions taken from them
are modelled from the specification and are marked `Modelled from the spec:`
in their doc comments.  Database state is modelled as the list of set pks in
use; fallible code returns `Except String`.
-/

set_option maxRecDepth 20000

namespace Totoro

/-- Decidable equality of `Except` results, used by concrete witnesses. -/
instance {ε α : Type} [DecidableEq ε] [DecidableEq α] :
    DecidableEq (Except ε α) := fun x y =>
  match x, y with
  | .error a, .error b =>
    if h : a = b then isTrue (by rw [h])
    else isFalse (by intro hc; cases hc; exact h rfl)
  | .error _, .ok _ => isFalse (by intro hc; cases hc)
  | .ok _, .error _ => isFalse (by intro hc; cases hc)
  | .ok a, .ok b =>
    if h : a = b then isTrue (by rw [h])
    else isFalse (by intro hc; cases hc; exact h rfl)

/-- A dither position (`ditherPosition ∈ {N, S, E}`); `none` on an exposure
means the dither is still unknown. -/
inductive Dither
  | N
  | S
  | E
deriving DecidableEq, Repr

/-- Per-band SN² vector `(blue1, blue2, red1, red2)`. -/
abbrev SN4 : Type := ℚ × ℚ × ℚ × ℚ

/-- An exposure, as seen by the arrangement engine.  `no` is `exposure_no`
(the identity), `quality` stands for the pre-computed ensemble scalar
(seeing-like) the quality evaluator compares across the exposures of a set,
and `lst` is the midpoint of the exposure's LST window (used only by the
tie-break in `selectOpticalArrangement`).  `tmp` is the transient `_tmp`
attribute used by the simulator. -/
structure Exposure where
  no : Nat
  dither : Option Dither
  b1 : ℚ
  b2 : ℚ
  r1 : ℚ
  r2 : ℚ
  valid : Bool
  isMock : Bool
  tmp : Bool
  quality : ℚ
  lst : ℚ
deriving DecidableEq, Repr

/-- A set of exposures.  `pk` is the database identity (`none` for mock sets
that were never persisted).  `override` models the stored status label:
`some true` = `Override Good`, `some false` = `Override Bad`, `none` = no
override label. -/
structure SetT where
  pk : Option Nat
  override : Option Bool
  exposures : List Exposure
deriving DecidableEq, Repr

/-- `Set.fromExposures`: a fresh in-memory (mock) set holding `exps`. -/
def fromExposures (exps : List Exposure) : SetT :=
  { pk := none, override := none, exposures := exps }

/-- The configuration surface used by the arrangement engine
(`SN2thresholds`, `set`, `setArrangement` sections of the config). -/
structure Config where
  plateBlue : ℚ
  plateRed : ℚ
  goodB1 : ℚ
  goodB2 : ℚ
  goodR1 : ℚ
  goodR2 : ℚ
  excB1 : ℚ
  excB2 : ℚ
  excR1 : ℚ
  excR2 : ℚ
  qualityWindow : ℚ
  setRearrangementFactor : ℚ
  permutationLimitPlate : Nat
  permutationLimitIncomplete : Nat
deriving DecidableEq, Repr

/-- The derived status of a set. -/
inductive SetStatus
  | Excellent
  | Good
  | Incomplete
  | Unplugged
  | Bad
  | OverrideGood
  | OverrideBad
deriving DecidableEq, Repr

/-- The SN² vector of one exposure. -/
def sn2Exp (e : Exposure) : SN4 := (e.b1, e.b2, e.r1, e.r2)

/-- `Set.getSN2Array`: per-band SN² summed across the exposures of a set. -/
def getSN2Array (ss : SetT) : SN4 := (ss.exposures.map sn2Exp).sum

/-- The dither positions already present in a set (known ones). -/
def knownDithers (ss : SetT) : List Dither := ss.exposures.filterMap (·.dither)

/-- Modelled from the spec: the ensemble-metric check of the quality
evaluator (`Totoro/dbclasses/set.py` is not in the sources).  A group of
exposures is rejected when the pre-computed quality scalars of two of its
members differ by more than the configured acceptance window; a single
exposure is never rejected (cf. `fixBadSets`, which treats a Bad set with
one exposure as a bug). -/
def ensembleBad (cfg : Config) (exps : List Exposure) : Bool :=
  exps.any fun a => exps.any fun b => cfg.qualityWindow < a.quality - b.quality

/-- Modelled from the spec: `Set.getStatus` (`Totoro/dbclasses/set.py` is not
in the sources).  An override label freezes the status.  Otherwise the set is
`Bad` if an exposure is invalid, if two known dithers collide, or if the
ensemble metrics fall outside the acceptance window; a set of three exposures
with three distinct known dithers is `Excellent` or `Good` when the per-band
sums reach the configured thresholds (and `Bad` otherwise); a smaller set is
`Incomplete`, or `Unplugged` when the host plate is not plugged. -/
def getStatus (cfg : Config) (plugged : Bool) (ss : SetT) : SetStatus :=
  match ss.override with
  | some true => .OverrideGood
  | some false => .OverrideBad
  | none =>
    if ss.exposures.any (fun e => !e.valid) then .Bad
    else if ¬ (knownDithers ss).Nodup then .Bad
    else if ensembleBad cfg ss.exposures then .Bad
    else if ss.exposures.length == 3 then
      if (knownDithers ss).length == 3 then
        let v := getSN2Array ss
        if cfg.excB1 ≤ v.1 ∧ cfg.excB2 ≤ v.2.1 ∧ cfg.excR1 ≤ v.2.2.1 ∧
            cfg.excR2 ≤ v.2.2.2 then .Excellent
        else if cfg.goodB1 ≤ v.1 ∧ cfg.goodB2 ≤ v.2.1 ∧ cfg.goodR1 ≤ v.2.2.1 ∧
            cfg.goodR2 ≤ v.2.2.2 then .Good
        else .Bad
      else .Bad
    else if ss.exposures.length < 3 then
      if plugged then .Incomplete else .Unplugged
    else .Bad

/-- Status test used throughout `plate_utils`: `in ['Incomplete', 'Unplugged']`. -/
def isIncompleteStatus (st : SetStatus) : Bool :=
  st == .Incomplete || st == .Unplugged

/-- Status test `in ['Good', 'Excellent']`. -/
def isCompletingStatus (st : SetStatus) : Bool :=
  st == .Good || st == .Excellent

/-- `config['set']['ditherPositions']`. -/
def ditherPositions : List Dither := [.N, .S, .E]

/-- `getValidDither`: an unused dither in a set, or `none` when all are
taken.  (The source draws an arbitrary element of a Python set difference;
the embedding fixes the `N, S, E` order.) -/
def getValidDither (ss : SetT) : Option Dither :=
  (ditherPositions.filter fun d => !((knownDithers ss).contains d)).head?

/-- Mean of the two blue (resp. red) bands divided by the plate threshold,
and the minimum of the two: the per-band completion contribution used by
`getOptimalSet` to rank candidate sets. -/
def completionScore (cfg : Config) (v : SN4) : ℚ :=
  min ((v.1 + v.2.1) / 2 / cfg.plateBlue) ((v.2.2.1 + v.2.2.2) / 2 / cfg.plateRed)

/-- `+ 100` on every band (`mockSet.getSN2Array() + 100`). -/
def plus100 (v : SN4) : SN4 :=
  (v.1 + 100, v.2.1 + 100, v.2.2.1 + 100, v.2.2.2 + 100)

/-- The candidate sets `getOptimalSet` considers for an exposure, paired with
the SN² vector used for ranking: sets of status `Incomplete`/`Unplugged`
whose dithers do not already contain the exposure's dither; a completing
hypothetical (`Good`/`Excellent`) is ranked on its SN² plus 100 per band, a
still-incomplete hypothetical on its raw SN², and a `Bad` hypothetical is
dropped.  An exposure without a dither is scored with an imputed unused
dither (`getValidDither`). -/
def optimalCandidates (cfg : Config) (plugged : Bool) (sets : List SetT)
    (exposure : Exposure) : List (SetT × SN4) :=
  (sets.filter fun ss => isIncompleteStatus (getStatus cfg plugged ss)).filterMap
    fun ss =>
      let setDithers := ss.exposures.map (·.dither)
      if setDithers.contains exposure.dither then none
      else
        let exp' := match exposure.dither with
          | none => { exposure with dither := some ((getValidDither ss).getD .N) }
          | some _ => exposure
        let mockSet := fromExposures (ss.exposures ++ [exp'])
        let st := getStatus cfg plugged mockSet
        if isCompletingStatus st then some (ss, plus100 (getSN2Array mockSet))
        else if isIncompleteStatus st then some (ss, getSN2Array mockSet)
        else none

/-- Maximum of a list of rationals (`0` for an empty list). -/
def listMax : List ℚ → ℚ
  | [] => 0
  | [x] => x
  | x :: y :: t => max x (listMax (y :: t))

/-- `np.argmax`: the first index attaining the maximum. -/
def argmaxIdx (l : List ℚ) : Nat :=
  ((List.range l.length).filter fun i => l.getD i 0 == listMax l).headD 0

/-- `getOptimalSet`: the best set in `plate` for an `exposure`, or `none` if
no valid set is available. -/
def getOptimalSet (cfg : Config) (plugged : Bool) (sets : List SetT)
    (exposure : Exposure) : Option SetT :=
  let cands := optimalCandidates cfg plugged sets exposure
  if cands.isEmpty then none
  else some (cands.getD (argmaxIdx (cands.map fun c => completionScore cfg c.2))
    (fromExposures [], 0)).1

/-! ### Concrete instances used by counterexamples and witnesses -/

/-- A configuration with unit plate thresholds, zero `Good` thresholds and
out-of-reach `Excellent` thresholds. -/
def cfg1 : Config :=
  { plateBlue := 1, plateRed := 1
    goodB1 := 0, goodB2 := 0, goodR1 := 0, goodR2 := 0
    excB1 := 1000000, excB2 := 1000000, excR1 := 1000000, excR2 := 1000000
    qualityWindow := 10, setRearrangementFactor := 9/10
    permutationLimitPlate := 100, permutationLimitIncomplete := 100 }

/-- A valid real exposure with the given identity, dither and flat per-band
SN². -/
def mkExp (no : Nat) (d : Option Dither) (sn : ℚ) : Exposure :=
  { no := no, dither := d, b1 := sn, b2 := sn, r1 := sn, r2 := sn
    valid := true, isMock := false, tmp := false, quality := 0, lst := 0 }

def expA : Exposure := mkExp 1 (some .N) 1000

def expB1 : Exposure := mkExp 2 (some .N) 1

def expB2 : Exposure := mkExp 3 (some .S) 1

def expE : Exposure := mkExp 4 (some .E) 1

def setA : SetT := { pk := some 1, override := none, exposures := [expA] }

def setB : SetT := { pk := some 2, override := none, exposures := [expB1, expB2] }

/-! ### `getConsecutiveSets` -/

/-- `np.split(candidatePKs, np.where(np.diff(candidatePKs) != 1)[0] + 1)`:
cuts a list into chunks wherever two adjacent elements do not differ by
exactly 1.  On an empty list numpy produces one empty chunk. -/
def splitRuns : List Nat → List (List Nat)
  | [] => [[]]
  | [x] => [[x]]
  | x :: y :: t =>
    match splitRuns (y :: t) with
    | [] => [[x]]
    | r :: rs => if y = x + 1 then (x :: r) :: rs else [x] :: r :: rs

/-- The largest set pk in use (`setPKs[-1]` after sorting), 0 if none. -/
def maxUsedPK (db : List Nat) : Nat :=
  (List.insertionSort (· ≤ ·) db).getLastD 0

/-- The run-selection step of `getConsecutiveSets`: the first `nSets` pks of
the first run of length at least `nSets`, falling back to
`range(maxPK + 1, maxPK + 1 + nSets)` when no such run exists. -/
def consecutiveRunChoice (runs : List (List Nat)) (maxPK nSets : Nat) : List Nat :=
  match runs.find? (fun g => nSets ≤ g.length) with
  | some g => g.take nSets
  | none => List.range' (maxPK + 1) nSets

/-- The body of `getConsecutiveSets` once the pk list is sorted: compute the
unused pks below the maximum, split them into consecutive runs, and select
with `consecutiveRunChoice`. -/
def getConsecutiveSetsSorted (sorted : List Nat) (nSets : Nat) : List Nat :=
  consecutiveRunChoice
    (splitRuns ((List.range' 1 (sorted.getLastD 0)).filter
      (fun i => !(sorted.contains i))))
    (sorted.getLastD 0) nSets

/-- `getConsecutiveSets`: a list of `nSets` consecutive set pks that are not
assigned.  The database state is the list of set pks in use.  Mirrors the
source, including its crashes: with no existing pk, `setPKs[-1]` raises
`IndexError`; with exactly one existing pk, `np.array(setPKs).squeeze()
.tolist()` produces a bare scalar and `sorted()` raises `TypeError`. -/
def getConsecutiveSets (db : List Nat) (nSets : Nat) : Except String (List Nat) :=
  match List.insertionSort (· ≤ ·) db with
  | [] => .error "IndexError: no set pks exist"
  | [_] => .error "TypeError: np.squeeze collapsed a single pk to a scalar"
  | a :: b :: t => .ok (getConsecutiveSetsSorted (a :: b :: t) nSets)

/-! ### `calculatePermutations` and `getNumberPermutations` -/

/-- Sort key used when grouping exposure indices by dither
(`sorted(pairs, key=value)`); mirrors Python's `None < 'E' < 'N' < 'S'`
string order. -/
def ditherKey : Option Dither → Nat
  | none => 0
  | some .E => 1
  | some .N => 2
  | some .S => 3

/-- The distinct dither values of `ds`, in sort-key order. -/
def distinctDithers (ds : List (Option Dither)) : List (Option Dither) :=
  List.insertionSort (fun a b => ditherKey a ≤ ditherKey b) ds.dedup

/-- `itertools.groupby` over the stably sorted `(index, dither)` pairs: for
each distinct dither, the exposure indices carrying it, in index order. -/
def ditherGroups (ds : List (Option Dither)) : List (List Nat) :=
  (distinctDithers ds).map fun d =>
    (List.range ds.length).filter fun i => ds.getD i none = d

/-- `sorted(splitPairs, key=len)[::-1]`: the groups ordered by decreasing
size.  (Ties among equal-sized groups may be ordered differently from
CPython's stable sort; no verified property depends on the enumeration
order.) -/
def groupsBySize (ds : List (Option Dither)) : List (List Nat) :=
  (List.insertionSort (fun a b : List Nat => a.length ≤ b.length)
    (ditherGroups ds)).reverse

/-- `np.max(nExpPerDither)`: the size of the largest dither group. -/
def maxGroupSize (ds : List (Option Dither)) : Nat :=
  ((ditherGroups ds).map List.length).foldr max 0

/-- Pad a group of indices with `None` up to length `m`
(`ii += [None] * (max - len(ii))`). -/
def padGroup (m : Nat) (g : List Nat) : List (Option Nat) :=
  g.map some ++ List.replicate (m - g.length) none

/-- `indices`: the first (largest) group frozen as a single tuple, together
with all orderings of every other padded group. -/
def permIndexChoices (ds : List (Option Dither)) : List (List (List (Option Nat))) :=
  match (groupsBySize ds).map (padGroup (maxGroupSize ds)) with
  | [] => []
  | g0 :: rest => [g0] :: rest.map List.permutations

/-- `izip_longest(*prod)` for columns of equal length `m`: the `m` rows of
the transpose. -/
def zipRows (m : Nat) (cols : List (List (Option Nat))) : List (List (Option Nat)) :=
  (List.range m).map fun i => cols.map fun c => c.getD i none

/-- `calculatePermutations`: every candidate arrangement (a list of rows of
optional exposure indices) generated for a list of dither positions. -/
def calculatePermutations (ds : List (Option Dither)) :
    List (List (List (Option Nat))) :=
  (List.sections (permIndexChoices ds)).map (zipRows (maxGroupSize ds))

/-- `getNumberPermutations`: `0` for no exposures, else
`factorial(max dither multiplicity) ^ (number of distinct dithers - 1)`.
(`scipy.misc.factorial` returns a float; the embedding computes the value
exactly.) -/
def getNumberPermutations (ds : List (Option Dither)) : Nat :=
  if ds.length = 0 then 0
  else (Nat.factorial (maxGroupSize ds)) ^ ((distinctDithers ds).length - 1)

/-! ### `fixBadSets` -/

/-- Minimum of a list of rationals (`0` for an empty list). -/
def listMin : List ℚ → ℚ
  | [] => 0
  | [x] => x
  | x :: y :: t => min x (listMin (y :: t))

/-- `np.argmin`: the first index attaining the minimum. -/
def argminIdx (l : List ℚ) : Nat :=
  ((List.range l.length).filter fun i => l.getD i 0 == listMin l).headD 0

/-- `np.nansum(xx.getSN2Array())`: the total SN² of a set over all bands. -/
def sn2Total (ss : SetT) : ℚ :=
  (getSN2Array ss).1 + (getSN2Array ss).2.1 + (getSN2Array ss).2.2.1 +
    (getSN2Array ss).2.2.2

/-- The replacement sets for one `Bad` set (the per-set body of
`fixBadSets`).  A single-exposure Bad set raises; two exposures are split
into singletons; otherwise the index pairs `(0,1), (0,2), (1,2)` are tested,
the non-Bad pair of maximum total SN² is kept together with a set of the
remaining exposures, and when no pair is non-Bad every exposure goes to its
own set.  (A Bad set with no exposures would raise `IndexError`.) -/
def repairOne (cfg : Config) (plugged : Bool) (ss : SetT) :
    Except String (List SetT) :=
  match ss.exposures with
  | [] => .error "IndexError: bad set with no exposures"
  | [_] => .error "found bad set with one exposure. This is probably a bug."
  | [e1, e2] => .ok [fromExposures [e1], fromExposures [e2]]
  | e1 :: e2 :: e3 :: rest =>
    let exps := e1 :: e2 :: e3 :: rest
    let testSets := [fromExposures [e1, e2], fromExposures [e1, e3],
      fromExposures [e2, e3]]
    let validSets := testSets.filter fun ts => getStatus cfg plugged ts ≠ .Bad
    if validSets.isEmpty then
      .ok (exps.map fun e => fromExposures [e])
    else
      let maxSet := validSets.getD (argmaxIdx (validSets.map sn2Total))
        (fromExposures [])
      let missing := exps.filter fun e =>
        !(maxSet.exposures.contains e)
      .ok [maxSet, fromExposures missing]

/-- The concatenated replacements of a list of (Bad) sets, failing on the
first set `repairOne` rejects. -/
def repairAll (cfg : Config) (plugged : Bool) :
    List SetT → Except String (List SetT)
  | [] => .ok []
  | ss :: rest => do
    let pieces ← repairOne cfg plugged ss
    let more ← repairAll cfg plugged rest
    .ok (pieces ++ more)

/-- `fixBadSets`: splits the Bad sets of a candidate arrangement into valid
sets.  The source collects the Bad sets, removes them in place
(`sets.remove`, first occurrence) and appends the replacement sets at the
end. -/
def fixBadSets (cfg : Config) (plugged : Bool) (sets : List SetT) :
    Except String (List SetT) := do
  let badSets := sets.filter fun ss => getStatus cfg plugged ss == .Bad
  let toAdd ← repairAll cfg plugged badSets
  .ok ((badSets.foldl (fun acc s => acc.erase s) sets) ++ toAdd)

/-! ### Plates, `applyArrangement`, `selectOpticalArrangement` -/

/-- A plate as the arrangement engine sees it: its plugged state, its sets,
and the science exposures not assigned to any set (`set_pk` null). -/
structure Plate where
  plugged : Bool
  sets : List SetT
  unassigned : List Exposure
deriving DecidableEq, Repr

/-- `plate.getScienceExposures()`: every science exposure of the plate. -/
def scienceExposures (p : Plate) : List Exposure :=
  p.sets.flatMap (·.exposures) ++ p.unassigned

/-- `'Override' in _getSetStatusLabel(exp)`: the exposure belongs to an
override-labelled set of the plate. -/
def inOverrideSet (p : Plate) (e : Exposure) : Bool :=
  p.sets.any fun ss => ss.override.isSome && ss.exposures.contains e

/-- The database state: the list of set pks in use. -/
abbrev DB : Type := List Nat

/-- `applyArrangement`: write an arrangement onto a plate.  Override sets
are filtered out of the arrangement first.  If any remaining exposure is
mock, only the in-memory plate is updated (`plate.sets = arrangement`, which
drops the plate's override sets); otherwise the plate's non-override sets
are deleted from the database, `len(arrangement)` consecutive pks are
allocated, and the plate's sets are reloaded from the database (its override
sets plus the newly created sets). -/
def applyArrangement (db : DB) (p : Plate) (arrangement : List SetT) :
    Except String (Plate × DB) :=
  let arr := arrangement.filter fun ss => ss.override.isNone
  if arr.any (fun ss => ss.exposures.any (·.isMock)) then
    .ok ({ p with sets := arr }, db)
  else do
    let oldPKs := (p.sets.filter fun ss => ss.override.isNone).filterMap (·.pk)
    let db1 := db.filter fun pk => !(oldPKs.contains pk)
    let pks ← getConsecutiveSets db1 arr.length
    let newSets := (arr.zip pks).map fun c => { c.1 with pk := some c.2 }
    .ok ({ p with sets :=
      (p.sets.filter fun ss => ss.override.isSome) ++ newSets }, db1 ++ pks)

/-- Wrap a rational into `[0, 24)` (`% 24.`). -/
def mod24 (x : ℚ) : ℚ := x - 24 * ⌊x / 24⌋

/-- Modelled from the spec: the mean LST of a set
(`intervals.calculateMean(ss.getLST(), wrapAt=24.)`; `Totoro/utils` and
`Totoro/dbclasses/set.py` are not in the sources).  The embedding stores
each exposure's LST midpoint and averages them, wrapped into `[0, 24)`. -/
def setMeanLST (ss : SetT) : ℚ :=
  match ss.exposures with
  | [] => 0
  | es => mod24 ((es.map (·.lst)).sum / (es.length : ℚ))

/-- `selectOpticalArrangement` [sic]: select the best arrangement among the
kept candidates (`completions` is parallel to `arrangements`).  If some
completion exceeds 1, take the arrangements of maximum completion and among
them the one with fewest sets; otherwise normalize each completion by its
number of sets, keep the top tier (`≥ factor · max`), and break remaining
ties by the smallest summed `(meanLST − LST) mod 24` over the sets. -/
def selectOpticalArrangement (cfg : Config) (arrangements : List (List SetT))
    (completions : List ℚ) (LST : ℚ) : Option (List SetT) :=
  if arrangements.isEmpty then none
  else if completions.any (fun c => 1 < c) then
    let maxC := listMax completions
    let completeArr := ((arrangements.zip completions).filter
      (fun ac => ac.2 == maxC)).map Prod.fst
    if completeArr.length == 1 then completeArr.head?
    else
      some (completeArr.getD (argminIdx
        (completeArr.map fun a => (a.length : ℚ))) [])
  else
    let normalized := (completions.zip arrangements).map
      fun ca => ca.1 / (ca.2.length : ℚ)
    let minCompletion := listMax normalized * cfg.setRearrangementFactor
    let top := ((arrangements.zip normalized).filter
      (fun an => minCompletion ≤ an.2)).map Prod.fst
    if top.length == 1 then top.head?
    else
      let lstDiffs := top.map fun arrangement =>
        (arrangement.map fun ss => mod24 (setMeanLST ss - LST)).sum
      some (top.getD (argminIdx lstDiffs) [])

/-! ### `rearrangeSets` and `updatePlate` -/

/-- The rearrangement mode (`mode='sequential'` or the brute-force default). -/
inductive RearrangeMode
  | sequentialMode
  | optimalMode
deriving DecidableEq, Repr

/-- The rearrangement scope (`scope='all'` or `scope='incomplete'`). -/
inductive RearrangeScope
  | all
  | incomplete
deriving DecidableEq, Repr

/-- The exposures `rearrangeSets` starts from for a scope: every science
exposure, or the exposures of the `Incomplete`/`Unplugged` sets. -/
def scopeExposures (cfg : Config) (p : Plate) : RearrangeScope → List Exposure
  | .all => scienceExposures p
  | .incomplete =>
    (p.sets.filter fun ss =>
      isIncompleteStatus (getStatus cfg p.plugged ss)).flatMap (·.exposures)

/-- The exposure filter of `rearrangeSets`: members of override-labelled
sets and invalid exposures are dropped (mock exposures are kept). -/
def validRearrangeExposures (cfg : Config) (p : Plate)
    (scope : RearrangeScope) : List Exposure :=
  (scopeExposures cfg p scope).filter fun e => !(inOverrideSet p e) && e.valid

/-- The SN² counted for one set when scoring an arrangement: its array when
its status is `Excellent`, `Good` or `Override Good`, zero otherwise
(the source memoizes this per set; the cache is semantically transparent). -/
def scoredSN2 (cfg : Config) (plugged : Bool) (ss : SetT) : SN4 :=
  if getStatus cfg plugged ss = .Excellent ∨ getStatus cfg plugged ss = .Good ∨
      getStatus cfg plugged ss = .OverrideGood then getSN2Array ss
  else (0, 0, 0, 0)

/-- The plate completion computed inside `rearrangeSets`' scoring loop:
blue/red means of the summed scored SN² over the plate thresholds, minimum
of the two. -/
def scoredCompletion (cfg : Config) (plugged : Bool) (sets : List SetT) : ℚ :=
  completionScore cfg ((sets.map (scoredSN2 cfg plugged)).sum)

/-- Modelled from the spec: the plate completion of spec §4.2 — per-band SN²
summed over the non-Bad sets of the plate, blue/red means over the plate
thresholds, minimum of the two (`Plate.getPlateCompletion` is not in the
sources). -/
def plateCompletionSpec (cfg : Config) (p : Plate) : ℚ :=
  completionScore cfg (((p.sets.filter fun ss =>
    getStatus cfg p.plugged ss ≠ .Bad ∧
    getStatus cfg p.plugged ss ≠ .OverrideBad).map getSN2Array).sum)

/-- `plate.getPlateCompletion(includeIncompleteSets=False)`: only complete
(`Excellent`/`Good`/`Override Good`) sets count.  Modelled from the spec. -/
def plateCompletionComplete (cfg : Config) (p : Plate) : ℚ :=
  scoredCompletion cfg p.plugged p.sets

/-- `[validExposures[ii] for ii in setIndices if ii is not None]`. -/
def rowExposures (validExps : List Exposure) (row : List (Option Nat)) :
    List Exposure :=
  row.filterMap fun oi => oi.bind fun i => validExps[i]?

/-- The mock sets built for one permutation (`TotoroSet.fromExposures`). -/
def permutationSets (validExps : List Exposure)
    (perm : List (List (Option Nat))) : List SetT :=
  perm.map fun row => fromExposures (rowExposures validExps row)

/-- One iteration of the scoring loop: score the arrangement and keep it
when it is within the trailing window (`completion ≥ factor · max-so-far`,
or nothing kept yet), repairing its bad sets on the way in. -/
def keepStep (cfg : Config) (plugged : Bool)
    (acc : List ℚ × List (List SetT)) (sets : List SetT) :
    Except String (List ℚ × List (List SetT)) := do
  let completion := scoredCompletion cfg plugged sets
  if acc.1.isEmpty ∨ cfg.setRearrangementFactor * listMax acc.1 ≤ completion then
    let fixed ← fixBadSets cfg plugged sets
    .ok (acc.1 ++ [completion], acc.2 ++ [fixed])
  else
    .ok acc

/-- The scoring loop of `rearrangeSets` over all enumerated arrangements. -/
def keepLoop (cfg : Config) (plugged : Bool) :
    List (List SetT) → (List ℚ × List (List SetT)) →
    Except String (List ℚ × List (List SetT))
  | [], acc => .ok acc
  | sets :: rest, acc => do
    let acc' ← keepStep cfg plugged acc sets
    keepLoop cfg plugged rest acc'

/-- `rearrangeSets` in the optimal (brute-force) mode.  Returns the success
flag, the updated plate, the updated database and the number of
permutations actually enumerated (the source's `permutationCounter`). -/
def rearrangeOptimal (cfg : Config) (db : DB) (p : Plate)
    (scope : RearrangeScope) (force : Bool) (LST : ℚ) :
    Except String (Bool × Plate × DB × Nat) :=
  let permutationLimit := match scope with
    | .all => cfg.permutationLimitPlate
    | .incomplete => cfg.permutationLimitIncomplete
  let validExposures := validRearrangeExposures cfg p scope
  let overridenSets := p.sets.filter fun ss => ss.override.isSome
  if validExposures.isEmpty then
    .ok (true, p, db, 0)
  else
    let ds := validExposures.map (·.dither)
    let nPermutations := getNumberPermutations ds
    if permutationLimit < nPermutations ∧ force = false then
      .ok (false, p, db, 0)
    else do
      let perms := calculatePermutations ds
      let arrangements := perms.map fun perm =>
        permutationSets validExposures perm ++ overridenSets
      let acc ← keepLoop cfg p.plugged arrangements ([], [])
      let completions := if scope = .incomplete then
          acc.1.map (· + plateCompletionComplete cfg p)
        else acc.1
      match selectOpticalArrangement cfg acc.2 completions LST with
      | none => .error "selectOpticalArrangement received no arrangements"
      | some chosen =>
        let chosen := if scope = .incomplete then
            chosen ++ p.sets.filter fun ss =>
              isCompletingStatus (getStatus cfg p.plugged ss)
          else chosen
        do
          let pdb ← applyArrangement db p chosen
          .ok (true, pdb.1, pdb.2, perms.length)

/-- `assignExposureToOptimalSet`: put `exposure` into the optimal set of the
plate, or create a new set for it under a freshly allocated pk.  When the
fresh pk is unexpectedly already present, the source logs and returns
without assigning. -/
def assignExposureToOptimalSet (cfg : Config) (db : DB) (p : Plate)
    (exposure : Exposure) : Except String (Plate × DB) :=
  match getOptimalSet cfg p.plugged p.sets exposure with
  | none => do
    let pks ← getConsecutiveSets db 1
    match pks with
    | [] => .error "getConsecutiveSets returned no pk"
    | pk :: _ =>
      if db.contains pk then
        .ok (p, db)
      else
        .ok ({ p with
          sets := p.sets ++
            [{ pk := some pk, override := none, exposures := [exposure] }],
          unassigned := p.unassigned.erase exposure }, db ++ [pk])
  | some oset =>
    .ok ({ p with
      sets := p.sets.map fun ss =>
        if ss.pk = oset.pk then
          { ss with exposures := ss.exposures ++ [exposure] }
        else ss,
      unassigned := p.unassigned.erase exposure }, db)

/-- The unassigned exposures sorted by `exposure_no`
(`getUnassignedExposures`). -/
def sortByNo (exps : List Exposure) : List Exposure :=
  List.insertionSort (fun a b => a.no ≤ b.no) exps

/-- The assignment loop of `updatePlate`: with `rearrangeIncomplete` each
assignment is followed by an optimal rearrangement of the incomplete sets,
whose failure is returned immediately. -/
def updatePlateLoop (cfg : Config) (rearrangeIncomplete : Bool) (LST : ℚ) :
    List Exposure → DB → Plate → Except String (Bool × Plate × DB)
  | [], db, p => .ok (true, p, db)
  | e :: rest, db, p => do
    let pdb ← assignExposureToOptimalSet cfg db p e
    if rearrangeIncomplete then do
      let r ← rearrangeOptimal cfg pdb.2 pdb.1 .incomplete false LST
      if r.1 then updatePlateLoop cfg rearrangeIncomplete LST rest r.2.2.1 r.2.1
      else .ok (false, r.2.1, r.2.2.1)
    else
      updatePlateLoop cfg rearrangeIncomplete LST rest pdb.2 pdb.1

/-- `updatePlate`: find the valid unassigned exposures (in `exposure_no`
order) and assign each to a set; returns `false` when there are none, and
propagates the failure of an interleaved incomplete rearrangement. -/
def updatePlate (cfg : Config) (db : DB) (p : Plate)
    (rearrangeIncomplete : Bool) (LST : ℚ) :
    Except String (Bool × Plate × DB) :=
  let newExposures := (sortByNo p.unassigned).filter (·.valid)
  if newExposures.isEmpty then .ok (false, p, db)
  else updatePlateLoop cfg rearrangeIncomplete LST newExposures db p

/-- `rearrangeSets`: with no valid in-scope exposures return `true`
untouched; mode `'sequential'` deletes the sets of the in-scope valid
exposures, empties `plate.sets` and re-runs `updatePlate` without further
rearrangement (always returning `true`); any other mode is the brute-force
optimal rearrangement. -/
def rearrangeSets (cfg : Config) (db : DB) (p : Plate) (mode : RearrangeMode)
    (scope : RearrangeScope) (force : Bool) (LST : ℚ) :
    Except String (Bool × Plate × DB × Nat) :=
  let validExposures := validRearrangeExposures cfg p scope
  if validExposures.isEmpty then .ok (true, p, db, 0)
  else match mode with
  | .sequentialMode => do
    let deletedPKs := (p.sets.filter fun ss =>
      ss.exposures.any fun e => validExposures.contains e).filterMap (·.pk)
    let db1 := db.filter fun pk => !(deletedPKs.contains pk)
    let newUnassigned := p.unassigned ++
      (validExposures.filter fun e => !(p.unassigned.contains e))
    let p1 : Plate := { p with sets := [], unassigned := newUnassigned }
    let r ← updatePlate cfg db1 p1 false LST
    .ok (true, r.2.1, r.2.2, 0)
  | .optimalMode => rearrangeOptimal cfg db p scope force LST

/-! ### Non-negativity and component lemmas for SN² sums -/

/-- All four bands of an exposure are non-negative. -/
def expNonneg (e : Exposure) : Prop :=
  0 ≤ e.b1 ∧ 0 ≤ e.b2 ∧ 0 ≤ e.r1 ∧ 0 ≤ e.r2

/-- All four components of an SN² vector are non-negative. -/
def sn4Nonneg (v : SN4) : Prop :=
  0 ≤ v.1 ∧ 0 ≤ v.2.1 ∧ 0 ≤ v.2.2.1 ∧ 0 ≤ v.2.2.2

/-! ### `fixBadSets`: exposure conservation and output statuses -/

/-- All exposures contained in a list of sets, in order. -/
def setsExposures (sets : List SetT) : List Exposure :=
  sets.flatMap (·.exposures)

/-- A real exposure pinned inside an override-good set. -/
def C2oExp : Exposure := mkExp 10 (some .N) 10

/-- A mock exposure with zero SN², member of an ordinary set. -/
def C2mExp : Exposure := { mkExp 11 (some .N) 0 with isMock := true }

/-- An `Override Good` set holding `C2oExp`. -/
def C2oSet : SetT := { pk := some 1, override := some true, exposures := [C2oExp] }

/-- An ordinary set holding the mock exposure. -/
def C2mSet : SetT := { pk := some 2, override := none, exposures := [C2mExp] }

/-- A plate with one override set and one mock-exposure set. -/
def C2plate : Plate :=
  { plugged := true, sets := [C2oSet, C2mSet], unassigned := [] }

/-- An ordinary valid exposure used by the monotone witness. -/
def C2wExp : Exposure := mkExp 1 (some .N) 1

/-- An override-free plate with a single unassigned valid exposure. -/
def C2wPlate : Plate := { plugged := true, sets := [], unassigned := [C2wExp] }

/-- The plate written by the optimal rearrangement of `C2wPlate`. -/
def C2wRes : Plate :=
  { plugged := true,
    sets := [{ pk := some 3, override := none, exposures := [C2wExp] }],
    unassigned := [C2wExp] }

/-- The plate left behind by the mock-path rearrangement of `C2plate`. -/
def C2res : Plate :=
  { plugged := true, sets := [fromExposures [C2mExp]], unassigned := [] }

/-- `cfg1` with a plate permutation limit of 1. -/
def cfgC3 : Config := { cfg1 with permutationLimitPlate := 1 }

/-- A plate whose three valid exposures (dithers `N`, `N`, `S`) give
`m! ^ (k − 1) = 2! ^ 1 = 2` candidate permutations. -/
def C3plate : Plate :=
  { plugged := true, sets := [],
    unassigned := [mkExp 1 (some .N) 1, mkExp 2 (some .N) 1,
      mkExp 3 (some .S) 1] }

/-- A dither list with largest group size 2 and 2 distinct dithers. -/
def C4ds : List (Option Dither) := [some .N, some .N, some .S, some .S]

/-- A real exposure in an ordinary (non-override) set. -/
def C6rExp : Exposure := mkExp 12 (some .S) 5

/-- The ordinary set holding `C6rExp`. -/
def C6rSet : SetT := { pk := some 2, override := none, exposures := [C6rExp] }

/-- A plate with the override set `C2oSet` and the ordinary set `C6rSet`. -/
def C6plate : Plate :=
  { plugged := true, sets := [C2oSet, C6rSet], unassigned := [] }

/-- The plate left by the sequential rearrangement of `C6plate`. -/
def C6seqRes : Plate :=
  { plugged := true, sets := [C6rSet], unassigned := [] }

/-- `cfg1` with 10× plate thresholds and incomplete-scope permutation
limit 1. -/
def cfgC7 : Config :=
  { cfg1 with permutationLimitIncomplete := 1, plateBlue := 10, plateRed := 10 }

/-- A plate with three valid unassigned exposures (dithers `N`, `N`, `S`). -/
def C7plate : Plate :=
  { plugged := true, sets := [],
    unassigned := [mkExp 1 (some .N) 1, mkExp 2 (some .N) 1,
      mkExp 3 (some .S) 1] }

/-- The first set `updatePlate` builds on `C7plate`. -/
def C7setA : SetT :=
  { pk := some 3, override := none,
    exposures := [mkExp 1 (some .N) 1, mkExp 3 (some .S) 1] }

/-- The second set `updatePlate` builds on `C7plate`. -/
def C7setB : SetT :=
  { pk := some 4, override := none, exposures := [mkExp 2 (some .N) 1] }

/-- The plate state `updatePlate` leaves after assigning all three
exposures of `C7plate` and failing the interleaved rearrangement. -/
def C7res : Plate :=
  { plugged := true, sets := [C7setA, C7setB], unassigned := [] }

/-- An exposure at dither `N` and another at the same dither: together a
`Bad` two-exposure set. -/
def C5e1 : Exposure := mkExp 21 (some .N) 1

/-- The second colliding exposure. -/
def C5e2 : Exposure := mkExp 22 (some .N) 2

/-- A `Bad` set of two exposures with colliding dithers. -/
def C5bad2 : SetT := { pk := some 1, override := none, exposures := [C5e1, C5e2] }

/-! ### `simulatePlates` and `cleanupPlates` (`logic/mangaLogicTimeline.py`) -/

/-- Modelled from the spec: `plate.addMockExposure` (`plate.py` is not in the
sources) places a new mock exposure into the plate's optimal set
(`getOptimalSet`), or into a fresh mock set when no set accepts it. -/
def addMockExposure (cfg : Config) (p : Plate) (e : Exposure) : Plate :=
  match getOptimalSet cfg p.plugged p.sets e with
  | none => { p with sets := p.sets ++ [fromExposures [e]] }
  | some oset =>
    { p with sets := p.sets.map (fun ss =>
        if ss = oset then { ss with exposures := ss.exposures ++ [e] }
        else ss) }

/-- The per-plate while-loop of `simulatePlates`: step the JD forward,
adding `_tmp`-tagged mock exposures while the plate is visible
(`observable`), not complete, and not too low (`tooLow`).  `mkMock jd` is
`plate.addMockExposure(...)`: `none` models the `False` result.  The fuel
counts the remaining JD steps (`⌈(jd1−jd)/step⌉` in the source). -/
def simulateOne (cfg : Config) (observable tooLow : ℚ → Plate → Bool)
    (mkMock : ℚ → Option Exposure) (step : ℚ) :
    Nat → ℚ → ℚ → Plate → Plate × Bool
  | 0, _, _, p => (p, false)
  | n + 1, jd, jd1, p =>
    if ¬ (jd < jd1) then (p, false)
    else if 1 ≤ plateCompletionSpec cfg p then (p, false)
    else if observable jd p = false then
      simulateOne cfg observable tooLow mkMock step n (jd + step) jd1 p
    else if tooLow jd p = true then (p, false)
    else match mkMock jd with
      | none => simulateOne cfg observable tooLow mkMock step n (jd + step) jd1 p
      | some e =>
        let r := simulateOne cfg observable tooLow mkMock step n (jd + step)
          jd1 (addMockExposure cfg p { e with tmp := true, isMock := true })
        (r.1, true)

/-- `simulatePlates`: simulate each plate over the JD range, reporting
whether any mock exposure was added. -/
def simulatePlates (cfg : Config) (observable tooLow : ℚ → Plate → Bool)
    (mkMock : ℚ → Option Exposure) (step : ℚ) (fuel : Nat) (jd0 jd1 : ℚ)
    (plates : List Plate) : List Plate × Bool :=
  (plates.map fun p =>
      (simulateOne cfg observable tooLow mkMock step fuel jd0 jd1 p).1,
    plates.any fun p =>
      (simulateOne cfg observable tooLow mkMock step fuel jd0 jd1 p).2)

/-- Drop the `_tmp` exposures of a set. -/
def scrubSet (ss : SetT) : SetT :=
  { ss with exposures := ss.exposures.filter (fun e => !e.tmp) }

/-- Clear the `_tmp` tag of a valid exposure. -/
def clearTmpExp (e : Exposure) : Exposure :=
  if e.valid = true then { e with tmp := false } else e

/-- Clear the `_tmp` tags of the valid exposures of a set. -/
def clearTmpSet (ss : SetT) : SetT :=
  { ss with exposures := ss.exposures.map clearTmpExp }

/-- The loser branch of `cleanupPlates`: drop `_tmp` exposures from every
set, then drop the sets left empty. -/
def cleanupLoser (p : Plate) : Plate :=
  { p with
    sets := (p.sets.map scrubSet).filter (fun ss => 0 < ss.exposures.length) }

/-- CPython's `for set in plate.sets: if len(...) == 0: plate.sets.remove(set)`:
an index walk that does not advance after a removal, so the element sliding
into a removed slot is skipped. -/
def pyRemoveEmptiesLoop : Nat → Nat → List SetT → List SetT
  | 0, _, l => l
  | fuel + 1, i, l =>
    match l[i]? with
    | none => l
    | some x =>
      if x.exposures.isEmpty then pyRemoveEmptiesLoop fuel i (l.erase x)
      else pyRemoveEmptiesLoop fuel (i + 1) l

/-- The winner's empty-set sweep with Python's in-place removal quirk. -/
def pyRemoveEmpties (sets : List SetT) : List SetT :=
  pyRemoveEmptiesLoop (2 * sets.length) 0 sets

/-- The winner branch of `cleanupPlates`: clear the `_tmp` tag of every
valid exposure, then sweep empty sets in place. -/
def cleanupWinner (p : Plate) : Plate :=
  { p with sets := pyRemoveEmpties (p.sets.map clearTmpSet) }

/-- `cleanupPlates`: losers are scrubbed of `_tmp` exposures, the winner
keeps them with the tag cleared (`plate is optimumPlate` modelled as
equality). -/
def cleanupPlates (plates : List Plate) (winner : Plate) : List Plate :=
  plates.map fun p => if p = winner then cleanupWinner p else cleanupLoser p

/-- A plate is pre-simulation clean: no empty set and no `_tmp` tag. -/
def cleanPlate (p : Plate) : Prop :=
  ∀ ss ∈ p.sets, ss.exposures ≠ [] ∧ ∀ e ∈ ss.exposures, e.tmp = false

/-- A clean set for the first `C8` witness plate. -/
def C8setA : SetT :=
  { pk := some 1, override := none, exposures := [mkExp 31 (some .N) 1] }

/-- A clean set for the second `C8` witness plate. -/
def C8setB : SetT :=
  { pk := some 2, override := none, exposures := [mkExp 32 (some .N) 1] }

/-- The first (winning) `C8` witness plate, incomplete under `cfgC7`. -/
def C8plateA : Plate :=
  { plugged := true, sets := [C8setA], unassigned := [] }

/-- The second (losing) `C8` witness plate, incomplete under `cfgC7`. -/
def C8plateB : Plate :=
  { plugged := true, sets := [C8setB], unassigned := [] }

/-- The `C8` witness pool. -/
def C8plates : List Plate := [C8plateA, C8plateB]

/-- The `C8` witness sky: always observable. -/
def C8obs : ℚ → Plate → Bool := fun _ _ => true

/-- The `C8` witness altitude check: never too low. -/
def C8low : ℚ → Plate → Bool := fun _ _ => false

/-- The `C8` witness mock generator: a valid `S`-dither exposure. -/
def C8mk : ℚ → Option Exposure := fun _ => some (mkExp 100 (some .S) 1)

/-- One simulated JD step over the `C8` witness pool. -/
def C8sims : List Plate × Bool :=
  simulatePlates cfgC7 C8obs C8low C8mk 1 1 0 1 C8plates

/-- The winner of the `C8` witness run: the simulated first plate. -/
def C8winner : Plate := C8sims.1.getD 0 C8plateA

/-! ### `Timeline` (`scheduler/timeline.py`) -/

/-- An exposure as the timeline sees it: validity and its JD window. -/
structure TExp where
  valid : Bool
  jd0 : ℚ
  jd1 : ℚ
deriving DecidableEq, Repr

/-- A plate as the timeline sees it: completion flag, exposures, and its UT
observing window (as JDs). -/
structure TPlate where
  isComplete : Bool
  exps : List TExp
  ut0 : ℚ
  ut1 : ℚ
deriving DecidableEq, Repr

/-- Modelled from the spec: `utils.removeInterval(ivs, rem, wrapAt=None)`
(`Totoro/utils` is not in the sources): subtract an interval from each
unallocated interval, keeping the non-degenerate remainders. -/
def removeInterval (ivs : List (ℚ × ℚ)) (rem : ℚ × ℚ) : List (ℚ × ℚ) :=
  ivs.flatMap (fun iv =>
    (if iv.1 < max iv.1 (min iv.2 rem.1) then
      [(iv.1, max iv.1 (min iv.2 rem.1))] else []) ++
    (if min iv.2 (max iv.1 rem.2) < iv.2 then
      [(min iv.2 (max iv.1 rem.2), iv.2)] else []))

/-- The timeline state: the night window, the unallocated intervals, and
the plates scheduled so far (`self._plates`). -/
structure Timeline where
  startTime : ℚ
  endTime : ℚ
  unallocatedExps : List (ℚ × ℚ)
  unallocatedPlateWindow : List (ℚ × ℚ)
  scheduled : List TPlate
deriving DecidableEq, Repr

/-- `Timeline.allocateJDs`: subtract every valid exposure overlapping the
night from the unallocated intervals, and each plate's UT window from the
plate window. -/
def allocateJDs (tl : Timeline) (plates : List TPlate) : Timeline :=
  plates.foldl (fun t pl =>
    let t1 := pl.exps.foldl (fun t2 e =>
      if e.valid = true ∧ t2.startTime ≤ e.jd1 ∧ e.jd0 ≤ t2.endTime then
        { t2 with
          unallocatedExps := removeInterval t2.unallocatedExps (e.jd0, e.jd1) }
      else t2) t
    { t1 with
      unallocatedPlateWindow :=
        removeInterval t1.unallocatedPlateWindow (pl.ut0, pl.ut1) }) tl

/-- `Timeline.remainingTime`: the unallocated exposure time, in hours. -/
def remainingTime (tl : Timeline) : ℚ :=
  ((tl.unallocatedExps.map (fun iv => iv.2 - iv.1)).sum) * 24

/-- The while-loop of `Timeline.schedule`: pick an optimal plate from the
pool, schedule it, allocate its JDs and drop it from the pool.  `chooser`
abstracts `logic.getOptimalPlate`; `plates` is the loop-condition list
(never mutated by the source's loop).  The fuel counts the pool; the
source's `platesCopy.remove` raises `ValueError` when the chosen plate is
absent. -/
def scheduleLoop (chooser : List TPlate → List (ℚ × ℚ) → Option TPlate)
    (plates : List TPlate) :
    Nat → List TPlate → Timeline → Except String (Timeline × List TPlate)
  | 0, platesCopy, tl =>
    if 0 < remainingTime tl ∧ plates ≠ [] then
      match chooser platesCopy tl.unallocatedExps with
      | none => .ok (tl, platesCopy)
      | some pl =>
        if pl ∈ platesCopy then .error "fuel exhausted"
        else .error "ValueError: list.remove(x): x not in list"
    else .ok (tl, platesCopy)
  | fuel + 1, platesCopy, tl =>
    if 0 < remainingTime tl ∧ plates ≠ [] then
      match chooser platesCopy tl.unallocatedExps with
      | none => .ok (tl, platesCopy)
      | some pl =>
        if pl ∈ platesCopy then
          scheduleLoop chooser plates fuel (platesCopy.erase pl)
            (allocateJDs { tl with scheduled := tl.scheduled ++ [pl] } [pl])
        else .error "ValueError: list.remove(x): x not in list"
    else .ok (tl, platesCopy)

/-- `Timeline.schedule`: reset the scheduled list, filter out complete
plates unless forced, run the loop, allocate the leftovers when forced, and
return `true` exactly when the remaining time is zero. -/
def schedule (chooser : List TPlate → List (ℚ × ℚ) → Option TPlate)
    (tl : Timeline) (plates : List TPlate) (force : Bool) :
    Except String (Bool × Timeline) := do
  let plates1 := if force then plates
    else plates.filter (fun pl => !pl.isComplete)
  let r ← scheduleLoop chooser plates1 plates.length plates
    { tl with scheduled := [] }
  let tl2 := if 0 < r.2.length ∧ force = true then
      { allocateJDs r.1 plates1 with scheduled := r.1.scheduled ++ plates1 }
    else r.1
  .ok (decide (remainingTime tl2 = 0), tl2)

/-- The chooser of the `C10` witness: the head of the pool. -/
def C10chooser : List TPlate → List (ℚ × ℚ) → Option TPlate :=
  fun ps _ => ps.head?

/-- A one-exposure plate covering the whole night. -/
def C10plate : TPlate :=
  { isComplete := false, exps := [{ valid := true, jd0 := 0, jd1 := 1 }],
    ut0 := 0, ut1 := 1 }

/-- A one-night timeline, fully unallocated. -/
def C10tl : Timeline :=
  { startTime := 0, endTime := 1, unallocatedExps := [(0, 1)],
    unallocatedPlateWindow := [(0, 1)], scheduled := [] }

/-- The timeline after scheduling `C10plate`. -/
def C10res : Timeline :=
  { startTime := 0, endTime := 1, unallocatedExps := [],
    unallocatedPlateWindow := [], scheduled := [C10plate] }

/-! ## Theorems -/

/-- **C1, counterexample.**  On a plate with incomplete sets
`A = [e(N), SN²=1000 per band]` and `B = [e(N), e(S)], SN²=1 per band`, the
exposure `e(E)` (SN²=1) completes `B` (hypothetical status `Good`, ranked on
its SN²+100) while `A+e` stays `Incomplete`; yet `getOptimalSet` returns `A`,
because `A`'s raw SN² (≈1001 per band) beats `B`'s bonused SN² (≈103).  The
completion bonus therefore does not dominate "regardless of the absolute SN²
values involved". -/
theorem C1_counterexample :
    getStatus cfg1 true (fromExposures (setB.exposures ++ [expE])) = .Good ∧
    getStatus cfg1 true (fromExposures (setA.exposures ++ [expE])) = .Incomplete ∧
    getOptimalSet cfg1 true [setA, setB] expE = some setA := by
  refine ⟨by with_unfolding_all decide, by with_unfolding_all decide,
    by with_unfolding_all decide⟩

/-- **C1 (amended).**  In `getOptimalSet`, a candidate whose hypothetical
status is `Good`/`Excellent` has 100 added to each band of its hypothetical
SN² vector before ranking (definition `optimalCandidates`), and such a
set-completing candidate is ranked strictly above any candidate whose
hypothetical status remains `Incomplete`/`Unplugged` *provided* the
non-completing candidate's summed blue and red bands exceed the completing
candidate's by less than 200 (i.e. each band mean by less than 100); without
that bound a non-completing candidate with sufficiently large SN² wins
(`C1_counterexample`). -/
theorem C1_amended (cfg : Config) (hb : 0 < cfg.plateBlue) (hr : 0 < cfg.plateRed)
    (c d : SN4)
    (hB : d.1 + d.2.1 < c.1 + c.2.1 + 200)
    (hR : d.2.2.1 + d.2.2.2 < c.2.2.1 + c.2.2.2 + 200) :
    completionScore cfg d < completionScore cfg (plus100 c) := by
  obtain ⟨c1, c2, c3, c4⟩ := c
  obtain ⟨d1, d2, d3, d4⟩ := d
  simp only [completionScore, plus100] at *
  have hB' : (d1 + d2) / 2 / cfg.plateBlue < (c1 + 100 + (c2 + 100)) / 2 / cfg.plateBlue := by
    rw [div_lt_div_iff_of_pos_right hb, div_lt_div_iff_of_pos_right (by norm_num : (0:ℚ) < 2)]
    linarith
  have hR' : (d3 + d4) / 2 / cfg.plateRed < (c3 + 100 + (c4 + 100)) / 2 / cfg.plateRed := by
    rw [div_lt_div_iff_of_pos_right hr, div_lt_div_iff_of_pos_right (by norm_num : (0:ℚ) < 2)]
    linarith
  exact lt_min (lt_of_le_of_lt (min_le_left _ _) hB')
    (lt_of_le_of_lt (min_le_right _ _) hR')

/-- Witness for `C1_amended` at a concrete input. -/
theorem C1_amended_witness :
    0 < cfg1.plateBlue ∧ 0 < cfg1.plateRed ∧
    ((2 : ℚ), (2 : ℚ), (2 : ℚ), (2 : ℚ)).1 + (2, 2, 2, (2 : ℚ)).2.1 <
      ((1 : ℚ), (1 : ℚ), (1 : ℚ), (1 : ℚ)).1 + (1, 1, 1, (1 : ℚ)).2.1 + 200 ∧
    completionScore cfg1 (2, 2, 2, 2) < completionScore cfg1 (plus100 (1, 1, 1, 1)) :=
  ⟨by with_unfolding_all decide, by with_unfolding_all decide, by norm_num,
    C1_amended cfg1 (by with_unfolding_all decide) (by with_unfolding_all decide)
      (1, 1, 1, 1) (2, 2, 2, 2) (by norm_num) (by norm_num)⟩

theorem splitRuns_ne_nil (l : List Nat) : splitRuns l ≠ [] := by
  match l with
  | [] => simp [splitRuns]
  | [x] => simp [splitRuns]
  | x :: y :: t =>
    simp only [splitRuns]
    rcases h : splitRuns (y :: t) with _ | ⟨r, rs⟩
    · simp
    · dsimp only
      split <;> simp

theorem splitRuns_flatten (l : List Nat) : (splitRuns l).flatten = l := by
  match l with
  | [] => simp [splitRuns]
  | [x] => simp [splitRuns]
  | x :: y :: t =>
    have ih := splitRuns_flatten (y :: t)
    rcases h : splitRuns (y :: t) with _ | ⟨r, rs⟩
    · exact absurd h (splitRuns_ne_nil _)
    · rw [h] at ih
      simp only [splitRuns, h]
      split <;> simp_all

theorem splitRuns_cons_head (y : Nat) (t : List Nat) :
    ∃ r rs, splitRuns (y :: t) = r :: rs ∧ r.head? = some y := by
  match t with
  | [] => exact ⟨[y], [], rfl, rfl⟩
  | z :: t' =>
    obtain ⟨r, rs, heq, hhead⟩ := splitRuns_cons_head z t'
    simp only [splitRuns, heq]
    split
    · exact ⟨y :: r, rs, rfl, rfl⟩
    · exact ⟨[y], r :: rs, rfl, rfl⟩

theorem splitRuns_chain (l : List Nat) :
    ∀ g ∈ splitRuns l, g.Chain' (fun a b => b = a + 1) := by
  match l with
  | [] => intro g hg; simp [splitRuns] at hg; simp [hg]
  | [x] => intro g hg; simp [splitRuns] at hg; simp [hg]
  | x :: y :: t =>
    intro g hg
    have ih := splitRuns_chain (y :: t)
    obtain ⟨r, rs, heq, hhead⟩ := splitRuns_cons_head y t
    simp only [splitRuns, heq] at hg
    by_cases hxy : y = x + 1
    · rw [if_pos hxy, List.mem_cons] at hg
      rcases hg with hg | hg
      · subst hg
        refine List.chain'_cons'.2
          ⟨?_, ih r (by rw [heq]; exact List.mem_cons_self r rs)⟩
        intro z hz
        rw [hhead] at hz
        simp only [Option.mem_def, Option.some.injEq] at hz
        omega
      · exact ih g (by rw [heq]; exact List.mem_cons_of_mem r hg)
    · rw [if_neg hxy] at hg
      simp only [List.mem_cons] at hg
      rcases hg with hg | hg | hg
      · simp [hg]
      · subst hg; exact ih g (by rw [heq]; exact List.mem_cons_self g rs)
      · exact ih g (by rw [heq]; exact List.mem_cons_of_mem r hg)

theorem chain_succ_getElem (g : List Nat) (hg : g.Chain' (fun a b => b = a + 1)) :
    ∀ j, (h : j < g.length) → g.get ⟨j, h⟩ = g.headD 0 + j := by
  match g with
  | [] => intro j h; simp at h
  | [a] =>
    intro j h
    simp only [List.length_singleton] at h
    have hj : j = 0 := by omega
    subst hj
    simp
  | a :: b :: t =>
    intro j h
    have hb : b = a + 1 := (List.chain'_cons.1 hg).1
    have ih := chain_succ_getElem (b :: t) (List.chain'_cons.1 hg).2
    match j with
    | 0 => simp
    | j + 1 =>
      have h' : j < (b :: t).length := by simpa using h
      have := ih j h'
      simp only [List.get_cons_succ]
      simp only [this, List.headD_cons]
      omega

theorem range'_chain_succ (s n : Nat) :
    (List.range' s n).Chain' (fun a b => b = a + 1) := by
  induction n generalizing s with
  | zero => simp
  | succ m ih =>
    rw [List.range'_succ]
    refine List.chain'_cons'.2 ⟨?_, ih (s + 1)⟩
    intro z hz
    cases m with
    | zero => simp at hz
    | succ m' =>
      rw [List.range'_succ] at hz
      simp only [List.head?_cons, Option.mem_def, Option.some.injEq] at hz
      omega

theorem sorted_le_getLastD (l : List Nat) (hl : l.Sorted (· ≤ ·)) :
    ∀ x ∈ l, x ≤ l.getLastD 0 := by
  match l with
  | [] => intro x hx; simp at hx
  | [a] => intro x hx; simp at hx; simp [hx]
  | a :: b :: t =>
    intro x hx
    have htail : (b :: t).Sorted (· ≤ ·) := (List.pairwise_cons.1 hl).2
    have ih := sorted_le_getLastD (b :: t) htail
    have hlast : (a :: b :: t).getLastD 0 = (b :: t).getLastD 0 := by simp
    rw [hlast]
    rw [List.mem_cons] at hx
    rcases hx with hx | hx
    · subst hx
      have hab : ∀ y ∈ b :: t, x ≤ y := (List.pairwise_cons.1 hl).1
      have hmem : (b :: t).getLastD 0 ∈ b :: t := by
        have h1 := List.getLast_mem (l := b :: t) (by simp)
        have h2 : (b :: t).getLastD 0 = (b :: t).getLast (by simp) := by
          rw [List.getLastD_eq_getLast?, List.getLast?_eq_getLast (b :: t) (by simp)]
          rfl
        rw [h2]
        exact h1
      exact hab _ hmem
    · exact ih x hx

/-- `consecutiveRunChoice` either takes a prefix of a found run, or falls
back to the range after `maxPK`. -/
theorem consecutiveRunChoice_cases (runs : List (List Nat)) (maxPK n : Nat) :
    (∃ g, runs.find? (fun g => n ≤ g.length) = some g ∧
      consecutiveRunChoice runs maxPK n = g.take n) ∨
    (runs.find? (fun g => n ≤ g.length) = none ∧
      consecutiveRunChoice runs maxPK n = List.range' (maxPK + 1) n) := by
  unfold consecutiveRunChoice
  rcases hfind : runs.find? (fun g => n ≤ g.length) with _ | g
  · rw [hfind]
    exact Or.inr ⟨rfl, rfl⟩
  · rw [hfind]
    exact Or.inl ⟨g, rfl, rfl⟩

/-- All the guarantees of the sorted-list body of `getConsecutiveSets`. -/
theorem getConsecutiveSetsSorted_spec (sorted : List Nat) (n : Nat)
    (hs : sorted.Sorted (· ≤ ·)) (hn : 1 ≤ n) :
    (getConsecutiveSetsSorted sorted n).length = n ∧
    (getConsecutiveSetsSorted sorted n).Chain' (fun a b => b = a + 1) ∧
    (∀ x ∈ getConsecutiveSetsSorted sorted n, x ∉ sorted) ∧
    ((¬ ∃ a, 1 ≤ a ∧ a + n ≤ sorted.getLastD 0 + 1 ∧ ∀ j < n, a + j ∉ sorted) →
      (getConsecutiveSetsSorted sorted n).head? = some (sorted.getLastD 0 + 1)) := by
  have hcand_mem : ∀ x ∈ (List.range' 1 (sorted.getLastD 0)).filter
      (fun i => !(sorted.contains i)),
      (1 ≤ x ∧ x ≤ sorted.getLastD 0) ∧ x ∉ sorted := by
    intro x hx
    rw [List.mem_filter] at hx
    obtain ⟨hx1, hx2⟩ := hx
    have hrange := List.mem_range'_1.1 hx1
    refine ⟨⟨hrange.1, by omega⟩, ?_⟩
    simpa using hx2
  have hbody : getConsecutiveSetsSorted sorted n =
      consecutiveRunChoice
        (splitRuns ((List.range' 1 (sorted.getLastD 0)).filter
          (fun i => !(sorted.contains i))))
        (sorted.getLastD 0) n := rfl
  rcases consecutiveRunChoice_cases
      (splitRuns ((List.range' 1 (sorted.getLastD 0)).filter
        (fun i => !(sorted.contains i))))
      (sorted.getLastD 0) n with ⟨g, hfind, heq⟩ | ⟨hfind, heq⟩
  · rw [hbody, heq]
    have hg_mem := List.mem_of_find?_eq_some hfind
    have hg_len : n ≤ g.length := by
      have := List.find?_some hfind
      simpa using this
    have hg_chain := splitRuns_chain _ g hg_mem
    have hg_sub : ∀ x ∈ g, x ∈ (List.range' 1 (sorted.getLastD 0)).filter
        (fun i => !(sorted.contains i)) := by
      intro x hx
      rw [← splitRuns_flatten ((List.range' 1 (sorted.getLastD 0)).filter
        (fun i => !(sorted.contains i)))]
      exact List.mem_flatten.2 ⟨g, hg_mem, hx⟩
    refine ⟨by simp [List.length_take]; omega, hg_chain.take n, ?_, ?_⟩
    · intro x hx
      exact (hcand_mem x (hg_sub x (List.mem_of_mem_take hx))).2
    · intro hnogap
      exfalso
      apply hnogap
      have hg_ne : g ≠ [] := by
        intro hnil; rw [hnil] at hg_len; simp at hg_len; omega
      refine ⟨g.headD 0, ?_, ?_, ?_⟩
      · have hmem : g.headD 0 ∈ g := by
          cases g with
          | nil => exact absurd rfl hg_ne
          | cons h t => simp
        exact ((hcand_mem _ (hg_sub _ hmem)).1).1
      · have hlt : n - 1 < g.length := by omega
        have hidx := chain_succ_getElem g hg_chain (n - 1) hlt
        have hmem : g.get ⟨n - 1, hlt⟩ ∈ g := List.get_mem g _ _
        have hle := ((hcand_mem _ (hg_sub _ hmem)).1).2
        rw [hidx] at hle
        omega
      · intro j hj
        have hlt : j < g.length := by omega
        have hidx := chain_succ_getElem g hg_chain j hlt
        have hmem : g.get ⟨j, hlt⟩ ∈ g := List.get_mem g _ _
        rw [hidx] at hmem
        exact (hcand_mem _ (hg_sub _ hmem)).2
  · rw [hbody, heq]
    refine ⟨by simp, range'_chain_succ _ _, ?_, ?_⟩
    · intro x hx
      have hm := List.mem_range'_1.1 hx
      intro hxdb
      have := sorted_le_getLastD _ hs x hxdb
      omega
    · intro _
      cases n with
      | zero => omega
      | succ m => simp [List.range'_succ]

/-- **C9, counterexample.**  With exactly one existing set identifier the
source crashes (`np.squeeze` collapses the one-element pk list into a scalar
and `sorted()` raises `TypeError`), so `getConsecutiveSets` does not return
identifiers for every non-empty collection of existing ids. -/
theorem C9_counterexample :
    getConsecutiveSets [5] 1 =
      .error "TypeError: np.squeeze collapsed a single pk to a scalar" := by
  rfl

/-- **C9 (amended).**  For every `n ≥ 1` and every collection of **at least
two** existing set identifiers, `getConsecutiveSets` returns exactly `n`
strictly increasing integers with consecutive gaps of 1, none of which
collides with an existing identifier; and when no gap of at least `n` unused
consecutive identifiers exists below the maximum existing identifier, the
returned identifiers start at `maxUsedPK + 1`.  (With exactly one existing
identifier the source raises `TypeError`: `C9_counterexample`; with none it
raises `IndexError`.) -/
theorem C9_amended (db : List Nat) (n : Nat) (hdb : 2 ≤ db.length) (hn : 1 ≤ n) :
    ∃ l, getConsecutiveSets db n = .ok l ∧ l.length = n ∧
      l.Chain' (fun a b => b = a + 1) ∧ (∀ x ∈ l, x ∉ db) ∧
      ((¬ ∃ a, 1 ≤ a ∧ a + n ≤ maxUsedPK db + 1 ∧ ∀ j < n, a + j ∉ db) →
        l.head? = some (maxUsedPK db + 1)) := by
  have hperm : (List.insertionSort (· ≤ ·) db).Perm db :=
    List.perm_insertionSort (· ≤ ·) db
  have hsorted : (List.insertionSort (· ≤ ·) db).Sorted (· ≤ ·) :=
    List.sorted_insertionSort (· ≤ ·) db
  have hlen : (List.insertionSort (· ≤ ·) db).length = db.length :=
    hperm.length_eq
  rcases hms : List.insertionSort (· ≤ ·) db with _ | ⟨a, t⟩
  · rw [hms] at hlen; simp at hlen; omega
  · rcases t with _ | ⟨b, t'⟩
    · rw [hms] at hlen; simp at hlen; omega
    · rw [hms] at hperm hsorted
      have hspec := getConsecutiveSetsSorted_spec (a :: b :: t') n hsorted hn
      obtain ⟨h1, h2, h3, h4⟩ := hspec
      have hmaxeq : maxUsedPK db = (a :: b :: t').getLastD 0 := by
        rw [maxUsedPK, hms]
      refine ⟨getConsecutiveSetsSorted (a :: b :: t') n, ?_, h1, h2, ?_, ?_⟩
      · simp only [getConsecutiveSets, hms]
      · intro x hx hxdb
        exact h3 x hx (hperm.mem_iff.2 hxdb)
      · intro hnogap
        rw [hmaxeq]
        apply h4
        intro ⟨c, hc1, hc2, hc3⟩
        exact hnogap ⟨c, hc1, by rw [hmaxeq]; exact hc2,
          fun j hj hmem => hc3 j hj (hperm.mem_iff.2 hmem)⟩

/-- Witness for `C9_amended` at a concrete input. -/
theorem C9_amended_witness :
    2 ≤ ([3, 1] : List Nat).length ∧ 1 ≤ 2 ∧
    (∃ l, getConsecutiveSets [3, 1] 2 = .ok l ∧ l.length = 2 ∧
      l.Chain' (fun a b => b = a + 1) ∧ (∀ x ∈ l, x ∉ ([3, 1] : List Nat)) ∧
      ((¬ ∃ a, 1 ≤ a ∧ a + 2 ≤ maxUsedPK [3, 1] + 1 ∧ ∀ j < 2, a + j ∉ ([3, 1] : List Nat)) →
        l.head? = some (maxUsedPK [3, 1] + 1))) :=
  ⟨by decide, by decide, C9_amended [3, 1] 2 (by decide) (by decide)⟩

theorem le_foldr_max (l : List Nat) : ∀ x ∈ l, x ≤ l.foldr max 0 := by
  induction l with
  | nil => intro x hx; simp at hx
  | cons a t ih =>
    intro x hx
    rw [List.mem_cons] at hx
    rcases hx with hx | hx
    · subst hx
      simp only [List.foldr_cons]
      exact le_max_left _ _
    · have := ih x hx
      simp only [List.foldr_cons]
      omega

theorem sections_length {α : Type} (L : List (List α)) :
    (List.sections L).length = (L.map List.length).prod := by
  induction L with
  | nil => simp
  | cons l L ih =>
    simp only [List.sections, List.map_cons, List.prod_cons]
    rw [List.length_flatMap]
    have hmap : (List.map (List.length ∘ fun s => List.map (fun a => a :: s) l)
        L.sections) = List.map (fun _ => l.length) L.sections := by
      apply List.map_congr_left
      intro s _
      simp
    rw [hmap, List.map_const', List.sum_replicate, smul_eq_mul, ih]
    ring

theorem groupsBySize_perm (ds : List (Option Dither)) :
    (groupsBySize ds).Perm (ditherGroups ds) := by
  unfold groupsBySize
  exact (List.reverse_perm _).trans (List.perm_insertionSort _ _)

theorem groupsBySize_length_le (ds : List (Option Dither)) :
    ∀ g ∈ groupsBySize ds, g.length ≤ maxGroupSize ds := by
  intro g hg
  have : g ∈ ditherGroups ds := (groupsBySize_perm ds).mem_iff.1 hg
  exact le_foldr_max _ _ (List.mem_map_of_mem List.length this)

theorem groupsBySize_length (ds : List (Option Dither)) :
    (groupsBySize ds).length = (distinctDithers ds).length := by
  unfold groupsBySize
  rw [List.length_reverse, List.length_insertionSort, ditherGroups,
    List.length_map]

theorem padGroup_length (m : Nat) (g : List Nat) (h : g.length ≤ m) :
    (padGroup m g).length = m := by
  simp [padGroup]
  omega

theorem distinctDithers_ne_nil (ds : List (Option Dither)) (h : ds ≠ []) :
    distinctDithers ds ≠ [] := by
  unfold distinctDithers
  intro hnil
  have hperm := List.perm_insertionSort
    (fun a b => ditherKey a ≤ ditherKey b) ds.dedup
  rw [hnil] at hperm
  have hded : ds.dedup = [] := hperm.symm.eq_nil
  rcases hd : ds with _ | ⟨a, t⟩
  · exact h hd
  · have ha : a ∈ ds.dedup := by
      rw [List.mem_dedup, hd]
      simp
    rw [hded] at ha
    simp at ha

/-- The generator yields exactly `m!^(k-1)` arrangements: `m` the largest
dither-group size, `k` the number of distinct dithers. -/
theorem calculatePermutations_length (ds : List (Option Dither)) (hds : ds ≠ []) :
    (calculatePermutations ds).length = getNumberPermutations ds := by
  have hk : 1 ≤ (distinctDithers ds).length := by
    have := distinctDithers_ne_nil ds hds
    cases h : distinctDithers ds with
    | nil => exact absurd h this
    | cons a t => simp
  have hgs_len : (groupsBySize ds).length = (distinctDithers ds).length :=
    groupsBySize_length ds
  rcases hgs : groupsBySize ds with _ | ⟨G, GS⟩
  · exfalso
    rw [hgs] at hgs_len
    simp at hgs_len
    omega
  · have hchoices : permIndexChoices ds =
        [padGroup (maxGroupSize ds) G] ::
          (GS.map (padGroup (maxGroupSize ds))).map List.permutations := by
      unfold permIndexChoices
      rw [hgs]
      simp
    unfold calculatePermutations
    rw [List.length_map, sections_length, hchoices]
    simp only [List.map_cons, List.map_map, List.prod_cons,
      List.length_singleton, one_mul]
    have hlens : List.map (List.length ∘ List.permutations ∘
        padGroup (maxGroupSize ds)) GS =
        List.map (fun _ => Nat.factorial (maxGroupSize ds)) GS := by
      apply List.map_congr_left
      intro g hgmem
      have hle : g.length ≤ maxGroupSize ds :=
        groupsBySize_length_le ds g (by rw [hgs]; exact List.mem_cons_of_mem G hgmem)
      simp only [Function.comp_apply, List.length_permutations]
      rw [padGroup_length _ _ hle]
    rw [hlens, List.map_const', List.prod_replicate]
    have hGS : GS.length = (distinctDithers ds).length - 1 := by
      rw [hgs] at hgs_len
      simp at hgs_len
      omega
    rw [hGS]
    unfold getNumberPermutations
    rw [if_neg (by simpa using hds)]

/-! ### Coverage: every enumerated arrangement uses every exposure exactly once -/

theorem forall₂_perm_flatten {α : Type} {l₁ l₂ : List (List α)}
    (h : List.Forall₂ List.Perm l₁ l₂) : l₁.flatten.Perm l₂.flatten := by
  induction h with
  | nil => simp
  | cons h₁ _ ih => simpa using h₁.append ih

theorem forall₂_rel_mem {α β : Type} {R : α → β → Prop} {l₁ : List α}
    {l₂ : List β} (h : List.Forall₂ R l₁ l₂) :
    ∀ a ∈ l₁, ∃ b ∈ l₂, R a b := by
  induction h with
  | nil => intro a ha; simp at ha
  | cons h₁ _ ih =>
    intro a ha
    rw [List.mem_cons] at ha
    rcases ha with ha | ha
    · subst ha; exact ⟨_, by simp, h₁⟩
    · obtain ⟨b, hb, hab⟩ := ih a ha
      exact ⟨b, List.mem_cons_of_mem _ hb, hab⟩

theorem forall₂_mem_permutations {cs : List (List (Option Nat))}
    {Ls : List (List (Option Nat))}
    (h : List.Forall₂ (· ∈ ·) cs (Ls.map List.permutations)) :
    List.Forall₂ List.Perm cs Ls := by
  induction Ls generalizing cs with
  | nil =>
    cases h
    exact List.Forall₂.nil
  | cons L Ls ih =>
    rcases cs with _ | ⟨c, cs⟩
    · cases h
    · rw [List.map_cons, List.forall₂_cons] at h
      exact List.Forall₂.cons (List.mem_permutations.1 h.1) (ih h.2)

theorem map_getD_range {α : Type} (l : List α) (d : α) :
    (List.range l.length).map (fun i => l.getD i d) = l := by
  apply List.ext_getElem
  · simp
  · intro i h1 h2
    simp only [List.getElem_map, List.getElem_range]
    rw [List.getD_eq_getElem _ _ h2]

theorem flatten_map_cons_perm {α : Type} (f : Nat → α) (g : Nat → List α)
    (is : List Nat) :
    ((is.map fun i => f i :: g i).flatten).Perm
      ((is.map f) ++ (is.map g).flatten) := by
  induction is with
  | nil => simp
  | cons i is ih =>
    simp only [List.map_cons, List.flatten_cons, List.cons_append]
    refine List.Perm.cons (f i) ?_
    exact (ih.append_left (g i)).trans (List.perm_append_comm_assoc _ _ _)

theorem zipRows_nil_flatten (m : Nat) : (zipRows m []).flatten = [] := by
  unfold zipRows
  induction List.range m with
  | nil => simp
  | cons i is ih => simpa using ih

theorem zipRows_flatten_perm (m : Nat) (cols : List (List (Option Nat)))
    (h : ∀ c ∈ cols, c.length = m) :
    (zipRows m cols).flatten.Perm cols.flatten := by
  induction cols with
  | nil => simp [zipRows_nil_flatten]
  | cons c cs ih =>
    have hc : c.length = m := h c (by simp)
    have hrest : ∀ x ∈ cs, x.length = m := fun x hx => h x (by simp [hx])
    unfold zipRows
    simp only [List.map_cons]
    have step1 : (((List.range m).map fun i => c.getD i none ::
          cs.map fun col => col.getD i none).flatten).Perm
          (((List.range m).map fun i => c.getD i none) ++
            ((List.range m).map fun i =>
              cs.map fun col => col.getD i none).flatten) :=
      flatten_map_cons_perm _ _ _
    have hcmap : ((List.range m).map fun i => c.getD i none) = c := by
      rw [← hc]
      exact map_getD_range c none
    have step2 : ((((List.range m).map fun i =>
        cs.map fun col => col.getD i none)).flatten).Perm cs.flatten := ih hrest
    refine step1.trans ?_
    rw [hcmap]
    exact (step2.append_left c).trans (by simp)

theorem filter_value_comm {α : Type} [DecidableEq α] (f : Nat → α) (v w : α)
    (hvw : w ≠ v) (l : List Nat) :
    l.filter (fun x => f x = w) =
      (l.filter fun x => ¬ (f x = v)).filter (fun x => f x = w) := by
  induction l with
  | nil => simp
  | cons x t ih =>
    by_cases hxv : f x = v
    · have hxw : ¬ (f x = w) := fun h => hvw (h.symm.trans hxv)
      simp [List.filter_cons, hxv, hxw, hvw, Ne.symm hvw, ih]
    · by_cases hxw : f x = w
      · simp [List.filter_cons, hxv, hxw, hvw, Ne.symm hvw, ih]
      · simp [List.filter_cons, hxv, hxw, hvw, Ne.symm hvw, ih]

theorem flatten_filter_partition {α : Type} [DecidableEq α] (f : Nat → α) :
    ∀ (vs : List α) (l : List Nat), vs.Nodup → (∀ x ∈ l, f x ∈ vs) →
      ((vs.map fun v => l.filter fun x => f x = v).flatten).Perm l := by
  intro vs
  induction vs with
  | nil =>
    intro l _ hcov
    cases l with
    | nil => simp
    | cons x t =>
      exact absurd (hcov x (by simp)) (by simp)
  | cons v vs ih =>
    intro l hnd hcov
    have hvnotin : v ∉ vs := (List.nodup_cons.1 hnd).1
    have hndvs : vs.Nodup := (List.nodup_cons.1 hnd).2
    simp only [List.map_cons, List.flatten_cons]
    have hcongr : (vs.map fun w => l.filter fun x => f x = w) =
        vs.map fun w => (l.filter fun x => ¬ (f x = v)).filter
          fun x => f x = w := by
      apply List.map_congr_left
      intro w hw
      exact filter_value_comm f v w (fun h => hvnotin (h ▸ hw)) l
    rw [hcongr]
    have hcov' : ∀ x ∈ l.filter fun x => ¬ (f x = v), f x ∈ vs := by
      intro x hx
      rw [List.mem_filter] at hx
      have hvx := hcov x hx.1
      rw [List.mem_cons] at hvx
      rcases hvx with h | h
      · exact absurd h (by simpa using hx.2)
      · exact h
    have hmain : ((vs.map fun w => (l.filter fun x => ¬ (f x = v)).filter
        fun x => f x = w).flatten).Perm (l.filter fun x => ¬ (f x = v)) :=
      ih _ hndvs hcov'
    refine (hmain.append_left (l.filter fun x => f x = v)).trans ?_
    have := List.filter_append_perm (fun x => decide (f x = v)) l
    simpa using this

theorem distinctDithers_nodup (ds : List (Option Dither)) :
    (distinctDithers ds).Nodup :=
  ((List.perm_insertionSort _ _).nodup_iff).2 (List.nodup_dedup ds)

theorem mem_distinctDithers (ds : List (Option Dither)) {d : Option Dither}
    (h : d ∈ ds) : d ∈ distinctDithers ds :=
  (List.perm_insertionSort _ _).mem_iff.2 (List.mem_dedup.2 h)

theorem ditherGroups_flatten_perm (ds : List (Option Dither)) :
    (ditherGroups ds).flatten.Perm (List.range ds.length) := by
  unfold ditherGroups
  apply flatten_filter_partition
  · exact distinctDithers_nodup ds
  · intro i hi
    rw [List.mem_range] at hi
    apply mem_distinctDithers
    rw [List.getD_eq_getElem _ _ hi]
    exact List.getElem_mem hi

theorem padGroup_filterMap (m : Nat) (g : List Nat) :
    (padGroup m g).filterMap id = g := by
  unfold padGroup
  rw [List.filterMap_append]
  have h1 : (g.map some).filterMap id = g := by
    rw [List.filterMap_map]
    simp
  have h2 : (List.replicate (m - g.length) (none : Option Nat)).filterMap id
      = [] := by
    induction (m - g.length) with
    | zero => simp
    | succ k ih => simpa [List.replicate_succ] using ih
  rw [h1, h2, List.append_nil]

/-- Every arrangement produced by `calculatePermutations ds` mentions every
exposure index `0, …, ds.length - 1` exactly once (as a multiset). -/
theorem calculatePermutations_coverage (ds : List (Option Dither)) :
    ∀ arr ∈ calculatePermutations ds,
      (arr.flatten.filterMap id).Perm (List.range ds.length) := by
  intro arr harr
  unfold calculatePermutations at harr
  rw [List.mem_map] at harr
  obtain ⟨cols, hcols, rfl⟩ := harr
  have hsec := List.mem_sections.1 hcols
  have hgflat : (groupsBySize ds).flatten.Perm (List.range ds.length) :=
    ((groupsBySize_perm ds).flatten).trans (ditherGroups_flatten_perm ds)
  rcases hgs : groupsBySize ds with _ | ⟨G, GS⟩
  · have hchoices : permIndexChoices ds = [] := by
      unfold permIndexChoices
      rw [hgs]
      simp
    rw [hchoices] at hsec
    cases hsec
    have hrange : (List.range ds.length) = [] := by
      rw [hgs] at hgflat
      have := hgflat.symm
      simpa using this.eq_nil
    rw [hrange, zipRows_nil_flatten]
    simp
  · have hchoices : permIndexChoices ds =
        [padGroup (maxGroupSize ds) G] ::
          (GS.map (padGroup (maxGroupSize ds))).map List.permutations := by
      unfold permIndexChoices
      rw [hgs]
      simp
    rw [hchoices] at hsec
    rcases cols with _ | ⟨c0, cs⟩
    · cases hsec
    · rw [List.forall₂_cons] at hsec
      obtain ⟨hc0, hcs⟩ := hsec
      have hc0' : c0 = padGroup (maxGroupSize ds) G := by simpa using hc0
      have hperm2 : List.Forall₂ List.Perm (c0 :: cs)
          ((G :: GS).map (padGroup (maxGroupSize ds))) := by
        rw [List.map_cons]
        exact List.Forall₂.cons (hc0' ▸ List.Perm.refl _)
          (forall₂_mem_permutations hcs)
      have hlen : ∀ c ∈ c0 :: cs, c.length = maxGroupSize ds := by
        intro c hc
        obtain ⟨p, hp, hcp⟩ := forall₂_rel_mem hperm2 c hc
        rw [List.mem_map] at hp
        obtain ⟨g, hgmem, rfl⟩ := hp
        rw [hcp.length_eq]
        exact padGroup_length _ _ (groupsBySize_length_le ds g (hgs ▸ hgmem))
      have s1 : (((zipRows (maxGroupSize ds) (c0 :: cs)).flatten).filterMap
          id).Perm (((c0 :: cs).flatten).filterMap id) :=
        (zipRows_flatten_perm _ _ hlen).filterMap id
      have s2 : ((((c0 :: cs)).flatten).filterMap id).Perm
          ((((G :: GS).map (padGroup (maxGroupSize ds))).flatten).filterMap id) :=
        (forall₂_perm_flatten hperm2).filterMap id
      have s3 : ((((G :: GS).map (padGroup (maxGroupSize ds))).flatten).filterMap
          id) = (G :: GS).flatten := by
        rw [List.filterMap_flatten, List.map_map]
        have : ((G :: GS).map (List.filterMap id ∘ padGroup (maxGroupSize ds)))
            = (G :: GS).map id := by
          apply List.map_congr_left
          intro g _
          exact padGroup_filterMap _ g
        rw [this, List.map_id]
      exact s1.trans (s2.trans (s3 ▸ (hgs ▸ hgflat)))

/-! ### Supporting lemmas: maxima, argmax/argmin, selection membership -/

theorem listMax_mem : ∀ (l : List ℚ), l ≠ [] → listMax l ∈ l := by
  intro l
  match l with
  | [] => intro h; exact absurd rfl h
  | [x] => intro _; simp [listMax]
  | x :: y :: t =>
    intro _
    have ih := listMax_mem (y :: t) (by simp)
    unfold listMax
    rcases le_total x (listMax (y :: t)) with h | h
    · rw [max_eq_right h]
      exact List.mem_cons_of_mem x ih
    · rw [max_eq_left h]
      simp

theorem le_listMax : ∀ (l : List ℚ), ∀ x ∈ l, x ≤ listMax l := by
  intro l
  match l with
  | [] => intro x hx; simp at hx
  | [y] => intro x hx; simp at hx; simp [listMax, hx]
  | y :: z :: t =>
    intro x hx
    have ih := le_listMax (z :: t)
    unfold listMax
    rw [List.mem_cons] at hx
    rcases hx with hx | hx
    · subst hx; exact le_max_left _ _
    · exact le_trans (ih x hx) (le_max_right _ _)

theorem listMin_mem : ∀ (l : List ℚ), l ≠ [] → listMin l ∈ l := by
  intro l
  match l with
  | [] => intro h; exact absurd rfl h
  | [x] => intro _; simp [listMin]
  | x :: y :: t =>
    intro _
    have ih := listMin_mem (y :: t) (by simp)
    unfold listMin
    rcases le_total x (listMin (y :: t)) with h | h
    · rw [min_eq_left h]
      simp
    · rw [min_eq_right h]
      exact List.mem_cons_of_mem x ih

theorem headD_mem {α : Type} (l : List α) (d : α) (h : l ≠ []) :
    l.headD d ∈ l := by
  cases l with
  | nil => exact absurd rfl h
  | cons x t => simp

theorem getD_mem {α : Type} (l : List α) (i : Nat) (d : α)
    (h : i < l.length) : l.getD i d ∈ l := by
  rw [List.getD_eq_getElem _ _ h]
  exact List.getElem_mem h

theorem argmaxIdx_lt (l : List ℚ) (h : l ≠ []) : argmaxIdx l < l.length := by
  have hmax := listMax_mem l h
  obtain ⟨i, hi, hval⟩ := List.getElem_of_mem hmax
  have hne : (List.range l.length).filter
      (fun i => l.getD i 0 == listMax l) ≠ [] := by
    intro hnil
    have : i ∈ (List.range l.length).filter
        (fun i => l.getD i 0 == listMax l) := by
      rw [List.mem_filter]
      refine ⟨List.mem_range.2 hi, ?_⟩
      rw [List.getD_eq_getElem _ _ hi, hval]
      simp
    rw [hnil] at this
    simp at this
  have := headD_mem _ 0 hne
  rw [List.mem_filter] at this
  exact List.mem_range.1 this.1

theorem argminIdx_lt (l : List ℚ) (h : l ≠ []) : argminIdx l < l.length := by
  have hmin := listMin_mem l h
  obtain ⟨i, hi, hval⟩ := List.getElem_of_mem hmin
  have hne : (List.range l.length).filter
      (fun i => l.getD i 0 == listMin l) ≠ [] := by
    intro hnil
    have : i ∈ (List.range l.length).filter
        (fun i => l.getD i 0 == listMin l) := by
      rw [List.mem_filter]
      refine ⟨List.mem_range.2 hi, ?_⟩
      rw [List.getD_eq_getElem _ _ hi, hval]
      simp
    rw [hnil] at this
    simp at this
  have := headD_mem _ 0 hne
  rw [List.mem_filter] at this
  exact List.mem_range.1 this.1

theorem mem_of_mem_filter_zip_fst {α β : Type} {x : α} {l₁ : List α}
    {l₂ : List β} {p : α × β → Bool}
    (h : x ∈ ((l₁.zip l₂).filter p).map Prod.fst) : x ∈ l₁ := by
  rw [List.mem_map] at h
  obtain ⟨pair, hpair, rfl⟩ := h
  exact (List.mem_zip (List.mem_filter.1 hpair).1).1

/-- `selectOpticalArrangement` always answers with one of the candidate
arrangements (given parallel inputs, non-negative completions, and a
rearrangement factor at most 1). -/
theorem selectOpticalArrangement_mem (cfg : Config)
    (arrs : List (List SetT)) (comps : List ℚ) (LST : ℚ) (a : List SetT)
    (hlen : comps.length = arrs.length)
    (hnn : ∀ c ∈ comps, 0 ≤ c)
    (hfac : cfg.setRearrangementFactor ≤ 1)
    (h : selectOpticalArrangement cfg arrs comps LST = some a) :
    a ∈ arrs := by
  unfold selectOpticalArrangement at h
  by_cases hemp : arrs.isEmpty
  · rw [if_pos hemp] at h
    cases h
  · rw [if_neg hemp] at h
    have harrs_ne : arrs ≠ [] := by
      intro hnil; rw [hnil] at hemp; simp at hemp
    have hcomps_ne : comps ≠ [] := by
      intro hnil
      rw [hnil] at hlen
      simp at hlen
      exact harrs_ne (List.length_eq_zero.1 hlen.symm)
    by_cases hany : comps.any (fun c => 1 < c)
    · rw [if_pos hany] at h
      have hmaxmem := listMax_mem comps hcomps_ne
      obtain ⟨j, hj, hjval⟩ := List.getElem_of_mem hmaxmem
      have hcomplete_ne : ((arrs.zip comps).filter
          (fun ac => ac.2 == listMax comps)).map Prod.fst ≠ [] := by
        have hjlt : j < (arrs.zip comps).length := by
          rw [List.length_zip]
          omega
        have hmem : (arrs.zip comps)[j] ∈ (arrs.zip comps).filter
            (fun ac => ac.2 == listMax comps) := by
          rw [List.mem_filter]
          refine ⟨List.getElem_mem hjlt, ?_⟩
          rw [List.getElem_zip]
          have : comps[j] = listMax comps := hjval
          simp [this]
        intro hnil
        rw [List.map_eq_nil_iff] at hnil
        rw [hnil] at hmem
        simp at hmem
      by_cases hone : (((arrs.zip comps).filter
          (fun ac => ac.2 == listMax comps)).map Prod.fst).length == 1
      · rw [if_pos hone] at h
        exact mem_of_mem_filter_zip_fst (List.mem_of_mem_head? h)
      · rw [if_neg hone] at h
        rw [Option.some_inj] at h
        subst h
        refine mem_of_mem_filter_zip_fst (getD_mem _ _ _ ?_)
        have := argminIdx_lt ((((arrs.zip comps).filter
            (fun ac => ac.2 == listMax comps)).map Prod.fst).map
            fun a => ((a.length : ℚ)))
          (by
            intro hnil
            rw [List.map_eq_nil_iff] at hnil
            exact hcomplete_ne hnil)
        rw [List.length_map] at this
        exact this
    · rw [if_neg hany] at h
      have hnorm_len : ((comps.zip arrs).map
          (fun ca => ca.1 / ((ca.2.length : ℚ)))).length = arrs.length := by
        rw [List.length_map, List.length_zip]
        omega
      have hnorm_ne : (comps.zip arrs).map
          (fun ca => ca.1 / ((ca.2.length : ℚ))) ≠ [] := by
        intro hnil
        rw [hnil] at hnorm_len
        simp at hnorm_len
        exact harrs_ne (List.length_eq_zero.1 hnorm_len.symm)
      have hnorm_nn : ∀ x ∈ (comps.zip arrs).map
          (fun ca => ca.1 / ((ca.2.length : ℚ))), 0 ≤ x := by
        intro x hx
        rw [List.mem_map] at hx
        obtain ⟨ca, hca, rfl⟩ := hx
        have := (List.mem_zip hca).1
        exact div_nonneg (hnn _ this) (by positivity)
      have hmaxnn : 0 ≤ listMax ((comps.zip arrs).map
          (fun ca => ca.1 / ((ca.2.length : ℚ)))) :=
        hnorm_nn _ (listMax_mem _ hnorm_ne)
      have hminc : listMax ((comps.zip arrs).map
            (fun ca => ca.1 / ((ca.2.length : ℚ)))) *
          cfg.setRearrangementFactor ≤
          listMax ((comps.zip arrs).map
            (fun ca => ca.1 / ((ca.2.length : ℚ)))) :=
        mul_le_of_le_one_right hmaxnn hfac
      have hmaxmem := listMax_mem _ hnorm_ne
      obtain ⟨j, hj, hjval⟩ := List.getElem_of_mem hmaxmem
      have htop_ne : ((arrs.zip ((comps.zip arrs).map
          (fun ca => ca.1 / ((ca.2.length : ℚ))))).filter
          (fun an => listMax ((comps.zip arrs).map
            (fun ca => ca.1 / ((ca.2.length : ℚ)))) *
            cfg.setRearrangementFactor ≤ an.2)).map Prod.fst ≠ [] := by
        have hjlt : j < (arrs.zip ((comps.zip arrs).map
            (fun ca => ca.1 / ((ca.2.length : ℚ))))).length := by
          rw [List.length_zip]
          rw [List.length_map, List.length_zip] at hj ⊢
          omega
        have hmem : (arrs.zip ((comps.zip arrs).map
            (fun ca => ca.1 / ((ca.2.length : ℚ)))))[j] ∈
            (arrs.zip ((comps.zip arrs).map
              (fun ca => ca.1 / ((ca.2.length : ℚ))))).filter
            (fun an => listMax ((comps.zip arrs).map
              (fun ca => ca.1 / ((ca.2.length : ℚ)))) *
              cfg.setRearrangementFactor ≤ an.2) := by
          rw [List.mem_filter]
          refine ⟨List.getElem_mem hjlt, ?_⟩
          rw [List.getElem_zip]
          simp only [decide_eq_true_eq]
          rw [hjval]
          exact hminc
        intro hnil
        rw [List.map_eq_nil_iff] at hnil
        rw [hnil] at hmem
        simp at hmem
      by_cases hone : (((arrs.zip ((comps.zip arrs).map
          (fun ca => ca.1 / ((ca.2.length : ℚ))))).filter
          (fun an => listMax ((comps.zip arrs).map
            (fun ca => ca.1 / ((ca.2.length : ℚ)))) *
            cfg.setRearrangementFactor ≤ an.2)).map Prod.fst).length == 1
      · rw [if_pos hone] at h
        exact mem_of_mem_filter_zip_fst (List.mem_of_mem_head? h)
      · rw [if_neg hone] at h
        rw [Option.some_inj] at h
        subst h
        refine mem_of_mem_filter_zip_fst (getD_mem _ _ _ ?_)
        have := argminIdx_lt ((((arrs.zip ((comps.zip arrs).map
            (fun ca => ca.1 / ((ca.2.length : ℚ))))).filter
            (fun an => listMax ((comps.zip arrs).map
              (fun ca => ca.1 / ((ca.2.length : ℚ)))) *
              cfg.setRearrangementFactor ≤ an.2)).map Prod.fst).map
            fun arrangement =>
              ((arrangement.map fun ss => mod24 (setMeanLST ss - LST)).sum))
          (by
            intro hnil
            rw [List.map_eq_nil_iff] at hnil
            exact htop_ne hnil)
        rw [List.length_map] at this
        exact this

theorem sn4_sum_proj (l : List SN4) :
    l.sum.1 = (l.map (·.1)).sum ∧ l.sum.2.1 = (l.map (·.2.1)).sum ∧
    l.sum.2.2.1 = (l.map (·.2.2.1)).sum ∧
    l.sum.2.2.2 = (l.map (·.2.2.2)).sum := by
  induction l with
  | nil => refine ⟨rfl, rfl, rfl, rfl⟩
  | cons v t ih =>
    simp only [List.sum_cons, List.map_cons, Prod.fst_add, Prod.snd_add]
    exact ⟨by rw [ih.1], by rw [ih.2.1], by rw [ih.2.2.1], by rw [ih.2.2.2]⟩

theorem sn4_sum_nonneg (l : List SN4) (h : ∀ v ∈ l, sn4Nonneg v) :
    sn4Nonneg l.sum := by
  obtain ⟨h1, h2, h3, h4⟩ := sn4_sum_proj l
  refine ⟨?_, ?_, ?_, ?_⟩
  · rw [h1]
    exact List.sum_nonneg fun x hx => by
      obtain ⟨v, hv, rfl⟩ := List.mem_map.1 hx
      exact (h v hv).1
  · rw [h2]
    exact List.sum_nonneg fun x hx => by
      obtain ⟨v, hv, rfl⟩ := List.mem_map.1 hx
      exact (h v hv).2.1
  · rw [h3]
    exact List.sum_nonneg fun x hx => by
      obtain ⟨v, hv, rfl⟩ := List.mem_map.1 hx
      exact (h v hv).2.2.1
  · rw [h4]
    exact List.sum_nonneg fun x hx => by
      obtain ⟨v, hv, rfl⟩ := List.mem_map.1 hx
      exact (h v hv).2.2.2

theorem getSN2Array_nonneg (ss : SetT) (h : ∀ e ∈ ss.exposures, expNonneg e) :
    sn4Nonneg (getSN2Array ss) := by
  apply sn4_sum_nonneg
  intro v hv
  obtain ⟨e, he, rfl⟩ := List.mem_map.1 hv
  obtain ⟨h1, h2, h3, h4⟩ := h e he
  exact ⟨h1, h2, h3, h4⟩

theorem scoredSN2_nonneg (cfg : Config) (plugged : Bool) (ss : SetT)
    (h : ∀ e ∈ ss.exposures, expNonneg e) :
    sn4Nonneg (scoredSN2 cfg plugged ss) := by
  unfold scoredSN2
  split
  · exact getSN2Array_nonneg ss h
  · exact ⟨le_refl 0, le_refl 0, le_refl 0, le_refl 0⟩

theorem completionScore_nonneg (cfg : Config) (v : SN4)
    (hb : 0 < cfg.plateBlue) (hr : 0 < cfg.plateRed) (hv : sn4Nonneg v) :
    0 ≤ completionScore cfg v := by
  obtain ⟨h1, h2, h3, h4⟩ := hv
  unfold completionScore
  apply le_min
  · positivity
  · positivity

theorem scoredCompletion_nonneg (cfg : Config) (plugged : Bool)
    (sets : List SetT) (hb : 0 < cfg.plateBlue) (hr : 0 < cfg.plateRed)
    (h : ∀ ss ∈ sets, ∀ e ∈ ss.exposures, expNonneg e) :
    0 ≤ scoredCompletion cfg plugged sets := by
  apply completionScore_nonneg _ _ hb hr
  apply sn4_sum_nonneg
  intro v hv
  obtain ⟨ss, hss, rfl⟩ := List.mem_map.1 hv
  exact scoredSN2_nonneg cfg plugged ss (h ss hss)

/-- `completionScore` is monotone in every band. -/
theorem completionScore_mono (cfg : Config) (v w : SN4)
    (hb : 0 < cfg.plateBlue) (hr : 0 < cfg.plateRed)
    (h1 : v.1 ≤ w.1) (h2 : v.2.1 ≤ w.2.1) (h3 : v.2.2.1 ≤ w.2.2.1)
    (h4 : v.2.2.2 ≤ w.2.2.2) :
    completionScore cfg v ≤ completionScore cfg w := by
  unfold completionScore
  apply min_le_min
  · apply div_le_div_of_nonneg_right _ hb.le
    apply div_le_div_of_nonneg_right _ (by norm_num : (0:ℚ) ≤ 2)
    linarith
  · apply div_le_div_of_nonneg_right _ hr.le
    apply div_le_div_of_nonneg_right _ (by norm_num : (0:ℚ) ≤ 2)
    linarith

/-! ### `keepLoop` invariants -/

theorem keepStep_cases (cfg : Config) (plugged : Bool)
    (acc : List ℚ × List (List SetT)) (sets : List SetT)
    (out : List ℚ × List (List SetT))
    (h : keepStep cfg plugged acc sets = .ok out) :
    out = acc ∨ ∃ fixed, fixBadSets cfg plugged sets = .ok fixed ∧
      out = (acc.1 ++ [scoredCompletion cfg plugged sets], acc.2 ++ [fixed]) := by
  simp only [keepStep] at h
  split at h
  · cases hfix : fixBadSets cfg plugged sets with
    | error e =>
      rw [hfix] at h
      cases h
    | ok fixed =>
      rw [hfix] at h
      replace h : Except.ok (ε := String)
          (acc.1 ++ [scoredCompletion cfg plugged sets], acc.2 ++ [fixed]) =
          .ok out := h
      rw [Except.ok.injEq] at h
      exact Or.inr ⟨fixed, rfl, h.symm⟩
  · replace h : Except.ok (ε := String) acc = .ok out := h
    rw [Except.ok.injEq] at h
    exact Or.inl h.symm

theorem keepLoop_mem (cfg : Config) (plugged : Bool) :
    ∀ (arrs : List (List SetT)) (acc out : List ℚ × List (List SetT)),
    keepLoop cfg plugged arrs acc = .ok out →
    ∀ a ∈ out.2, a ∈ acc.2 ∨
      ∃ sets ∈ arrs, fixBadSets cfg plugged sets = .ok a := by
  intro arrs
  induction arrs with
  | nil =>
    intro acc out h a ha
    rw [keepLoop] at h
    rw [Except.ok.injEq] at h
    subst h
    exact Or.inl ha
  | cons sets rest ih =>
    intro acc out h a ha
    rw [keepLoop] at h
    cases hstep : keepStep cfg plugged acc sets with
    | error e =>
      rw [hstep] at h
      cases h
    | ok acc' =>
      rw [hstep] at h
      replace h : keepLoop cfg plugged rest acc' = .ok out := h
      rcases ih acc' out h a ha with h1 | ⟨s, hs, hfix⟩
      · rcases keepStep_cases _ _ _ _ _ hstep with rfl | ⟨fixed, hfix, rfl⟩
        · exact Or.inl h1
        · simp only [List.mem_append, List.mem_singleton] at h1
          rcases h1 with h1 | h1
          · exact Or.inl h1
          · exact Or.inr ⟨sets, by simp, by rw [h1]; exact hfix⟩
      · exact Or.inr ⟨s, List.mem_cons_of_mem _ hs, hfix⟩

theorem keepLoop_lengths (cfg : Config) (plugged : Bool) :
    ∀ (arrs : List (List SetT)) (acc out : List ℚ × List (List SetT)),
    keepLoop cfg plugged arrs acc = .ok out →
    acc.1.length = acc.2.length → out.1.length = out.2.length := by
  intro arrs
  induction arrs with
  | nil =>
    intro acc out h hacc
    rw [keepLoop] at h
    rw [Except.ok.injEq] at h
    subst h
    exact hacc
  | cons sets rest ih =>
    intro acc out h hacc
    rw [keepLoop] at h
    cases hstep : keepStep cfg plugged acc sets with
    | error e =>
      rw [hstep] at h
      cases h
    | ok acc' =>
      rw [hstep] at h
      replace h : keepLoop cfg plugged rest acc' = .ok out := h
      apply ih acc' out h
      rcases keepStep_cases _ _ _ _ _ hstep with rfl | ⟨fixed, _, rfl⟩
      · exact hacc
      · simp [hacc]

theorem keepLoop_nonneg (cfg : Config) (plugged : Bool) :
    ∀ (arrs : List (List SetT)) (acc out : List ℚ × List (List SetT)),
    keepLoop cfg plugged arrs acc = .ok out →
    (∀ c ∈ acc.1, 0 ≤ c) →
    (∀ sets ∈ arrs, 0 ≤ scoredCompletion cfg plugged sets) →
    ∀ c ∈ out.1, 0 ≤ c := by
  intro arrs
  induction arrs with
  | nil =>
    intro acc out h hacc _
    rw [keepLoop] at h
    rw [Except.ok.injEq] at h
    subst h
    exact hacc
  | cons sets rest ih =>
    intro acc out h hacc hsets
    rw [keepLoop] at h
    cases hstep : keepStep cfg plugged acc sets with
    | error e =>
      rw [hstep] at h
      cases h
    | ok acc' =>
      rw [hstep] at h
      replace h : keepLoop cfg plugged rest acc' = .ok out := h
      apply ih acc' out h _ (fun s hs => hsets s (List.mem_cons_of_mem _ hs))
      rcases keepStep_cases _ _ _ _ _ hstep with rfl | ⟨fixed, _, rfl⟩
      · exact hacc
      · intro c hc
        simp only [List.mem_append, List.mem_singleton] at hc
        rcases hc with hc | hc
        · exact hacc c hc
        · subst hc
          exact hsets sets (by simp)

theorem foldl_erase_cons {α : Type} [DecidableEq α] :
    ∀ (ys : List α) (l : List α) (x : α), (∀ y ∈ ys, y ≠ x) →
    ys.foldl (fun acc s => acc.erase s) (x :: l) =
      x :: ys.foldl (fun acc s => acc.erase s) l := by
  intro ys
  induction ys with
  | nil => intro l x _; rfl
  | cons y ys ih =>
    intro l x hne
    simp only [List.foldl_cons]
    rw [List.erase_cons_tail (by
      have := hne y (by simp)
      simp [this.symm])]
    exact ih _ _ fun z hz => hne z (List.mem_cons_of_mem _ hz)

theorem foldl_erase_filter_perm {α : Type} [DecidableEq α] (l : List α)
    (p : α → Bool) :
    ((l.filter p).foldl (fun acc s => acc.erase s) l).Perm
      (l.filter fun x => !p x) := by
  induction l with
  | nil => simp
  | cons x t ih =>
    by_cases hx : p x
    · rw [List.filter_cons_of_pos hx]
      simp only [List.foldl_cons, List.erase_cons_head]
      rw [List.filter_cons_of_neg (by simp [hx])]
      exact ih
    · rw [List.filter_cons_of_neg hx]
      have hxy : ∀ y ∈ t.filter p, y ≠ x := by
        intro y hy heq
        rw [List.mem_filter] at hy
        rw [heq] at hy
        exact absurd hy.2 (by simp [hx])
      rw [foldl_erase_cons _ _ _ hxy,
        List.filter_cons_of_pos (by simp [hx])]
      exact ih.cons x

theorem foldl_erase_subset {α : Type} [DecidableEq α] :
    ∀ (ys : List α) (l : List α), (ys.foldl (fun acc s => acc.erase s) l) ⊆ l := by
  intro ys
  induction ys with
  | nil => intro l; exact fun x hx => hx
  | cons y ys ih =>
    intro l
    simp only [List.foldl_cons]
    exact fun x hx => (l.erase_sublist y).subset (ih (l.erase y) hx)

/-- Without an override label, `getStatus` yields one of the five computed
statuses. -/
theorem getStatus_cases (cfg : Config) (plugged : Bool) (ss : SetT)
    (h : ss.override = none) :
    getStatus cfg plugged ss = .Bad ∨ getStatus cfg plugged ss = .Excellent ∨
    getStatus cfg plugged ss = .Good ∨ getStatus cfg plugged ss = .Incomplete ∨
    getStatus cfg plugged ss = .Unplugged := by
  unfold getStatus
  rw [h]
  dsimp only
  split
  · exact Or.inl rfl
  · split
    · exact Or.inl rfl
    · split
      · exact Or.inl rfl
      · split
        · split
          · split
            · exact Or.inr (Or.inl rfl)
            · split
              · exact Or.inr (Or.inr (Or.inl rfl))
              · exact Or.inl rfl
          · exact Or.inl rfl
        · split
          · split
            · exact Or.inr (Or.inr (Or.inr (Or.inl rfl)))
            · exact Or.inr (Or.inr (Or.inr (Or.inr rfl)))
          · exact Or.inl rfl

/-- `getStatus` of a set without an override label never yields an override
status. -/
theorem getStatus_override_none (cfg : Config) (plugged : Bool) (ss : SetT)
    (h : ss.override = none) :
    getStatus cfg plugged ss ≠ .OverrideGood ∧
    getStatus cfg plugged ss ≠ .OverrideBad := by
  rcases getStatus_cases cfg plugged ss h with h1 | h1 | h1 | h1 | h1 <;>
    rw [h1] <;> exact ⟨by simp, by simp⟩

/-- The status of a one-exposure set of a valid exposure, when the ensemble
window is non-negative. -/
theorem singleton_status (cfg : Config) (plugged : Bool) (e : Exposure)
    (hq : 0 ≤ cfg.qualityWindow) (hv : e.valid = true) :
    getStatus cfg plugged (fromExposures [e]) =
      if plugged then .Incomplete else .Unplugged := by
  unfold getStatus fromExposures knownDithers ensembleBad
  have h1 : ¬ (cfg.qualityWindow < 0) := not_lt.2 hq
  rcases hd : e.dither with _ | d <;> simp [hv, h1, hd]

/-- A one-exposure set of a valid exposure is never `Bad` (nor overridden). -/
theorem singleton_not_bad (cfg : Config) (plugged : Bool) (e : Exposure)
    (hq : 0 ≤ cfg.qualityWindow) (hv : e.valid = true) :
    getStatus cfg plugged (fromExposures [e]) ≠ .Bad ∧
    getStatus cfg plugged (fromExposures [e]) ≠ .OverrideBad := by
  rw [singleton_status cfg plugged e hq hv]
  split <;> simp

theorem repairOne_exposures_subset (cfg : Config) (plugged : Bool) (ss : SetT)
    (out : List SetT) (h : repairOne cfg plugged ss = .ok out) :
    ∀ ss' ∈ out, ∀ e ∈ ss'.exposures, e ∈ ss.exposures := by
  unfold repairOne at h
  rcases hexp : ss.exposures with _ | ⟨e1, _ | ⟨e2, _ | ⟨e3, rest⟩⟩⟩ <;>
    rw [hexp] at h <;> dsimp only at h
  · simp at h
  · simp at h
  · rw [Except.ok.injEq] at h
    subst h
    intro ss' hss' e he
    simp only [List.mem_cons, List.not_mem_nil, or_false] at hss'
    rcases hss' with rfl | rfl <;> simp_all [fromExposures]
  · split at h
    · rw [Except.ok.injEq] at h
      subst h
      intro ss' hss' e he
      rw [List.mem_map] at hss'
      obtain ⟨x, hx, rfl⟩ := hss'
      simp only [fromExposures, List.mem_singleton] at he
      subst he
      exact hx
    · rw [Except.ok.injEq] at h
      subst h
      intro ss' hss' e he
      simp only [List.mem_cons, List.not_mem_nil, or_false] at hss'
      rcases hss' with h1 | h1
      · have hmem : ss' ∈ ([fromExposures [e1, e2], fromExposures [e1, e3],
            fromExposures [e2, e3]].filter fun ts =>
              getStatus cfg plugged ts ≠ .Bad) := by
          rw [h1]
          apply getD_mem
          have hne : ([fromExposures [e1, e2], fromExposures [e1, e3],
              fromExposures [e2, e3]].filter fun ts =>
                getStatus cfg plugged ts ≠ .Bad) ≠ [] := by
            intro hnil
            simp_all [List.isEmpty_iff]
          have := argmaxIdx_lt (([fromExposures [e1, e2],
              fromExposures [e1, e3], fromExposures [e2, e3]].filter fun ts =>
                getStatus cfg plugged ts ≠ .Bad).map sn2Total) (by
            intro hnil
            rw [List.map_eq_nil_iff] at hnil
            exact hne hnil)
          rw [List.length_map] at this
          exact this
        have hmem2 := (List.mem_filter.1 hmem).1
        simp only [List.mem_cons, List.not_mem_nil, or_false] at hmem2
        rcases hmem2 with h2 | h2 | h2 <;>
          (rw [h2] at he
           simp only [fromExposures, List.mem_cons, List.not_mem_nil,
             or_false] at he
           rcases he with rfl | rfl <;> simp)
      · rw [h1] at he
        simp only [fromExposures] at he
        exact (List.mem_filter.1 he).1

theorem setsExposures_append (l₁ l₂ : List SetT) :
    setsExposures (l₁ ++ l₂) = setsExposures l₁ ++ setsExposures l₂ := by
  simp [setsExposures]

theorem setsExposures_singletons (l : List Exposure) :
    setsExposures (l.map fun e => fromExposures [e]) = l := by
  induction l with
  | nil => rfl
  | cons x xs ih =>
    simp only [setsExposures, List.map_cons, List.flatMap_cons] at ih ⊢
    rw [ih]
    rfl

theorem sublist_flatMap {α β : Type} (f : α → List β)
    {l₁ l₂ : List α} (h : l₁.Sublist l₂) :
    (l₁.flatMap f).Sublist (l₂.flatMap f) := by
  induction h with
  | slnil => exact List.Sublist.refl _
  | cons a h ih =>
    rw [List.flatMap_cons]
    exact ih.trans (List.sublist_append_right _ _)
  | cons₂ a h ih =>
    rw [List.flatMap_cons, List.flatMap_cons]
    exact ih.append_left _

theorem range_filterMap_getElem {α : Type} (l : List α) :
    (List.range l.length).filterMap (fun i => l[i]?) = l := by
  induction l with
  | nil => simp
  | cons x xs ih =>
    rw [List.length_cons, List.range_succ_eq_map, List.filterMap_cons,
      List.filterMap_map]
    have hcomp : ((fun i => (x :: xs)[i]?) ∘ Nat.succ) =
        fun i => xs[i]? := by
      funext i
      simp
    rw [hcomp, ih]
    simp

theorem mem_rowExposures {validExps : List Exposure}
    {row : List (Option Nat)} {e : Exposure}
    (h : e ∈ rowExposures validExps row) : e ∈ validExps := by
  unfold rowExposures at h
  rw [List.mem_filterMap] at h
  obtain ⟨oi, _, hoi⟩ := h
  rcases oi with _ | i
  · cases hoi
  · exact List.getElem?_mem (by simpa using hoi)

theorem permutationSets_exposures (validExps : List Exposure)
    (perm : List (List (Option Nat))) :
    setsExposures (permutationSets validExps perm) =
      (perm.flatten.filterMap id).filterMap (fun i => validExps[i]?) := by
  unfold setsExposures permutationSets rowExposures
  rw [List.filterMap_filterMap]
  rw [List.flatMap_def, List.map_map]
  have hcomp : ((fun x : SetT => x.exposures) ∘ fun row =>
      fromExposures (List.filterMap
        (fun oi : Option Nat => oi.bind fun i => validExps[i]?) row)) =
      List.filterMap (fun oi : Option Nat => oi.bind fun i => validExps[i]?) := by
    funext row
    rfl
  rw [hcomp, ← List.filterMap_flatten]
  rfl

/-- If the index coverage of an arrangement is a permutation of
`range validExps.length`, its exposure multiset is exactly `validExps`. -/
theorem permutationSets_exposures_perm (validExps : List Exposure)
    (perm : List (List (Option Nat)))
    (hcov : (perm.flatten.filterMap id).Perm
      (List.range validExps.length)) :
    (setsExposures (permutationSets validExps perm)).Perm validExps := by
  rw [permutationSets_exposures]
  have := hcov.filterMap (fun i => validExps[i]?)
  rw [range_filterMap_getElem] at this
  exact this

/-- A duplicate-free list is the two named members plus what the
`contains`-filter leaves, up to ordering. -/
theorem filter_pair_perm {α : Type} [DecidableEq α] (l : List α) (a b : α)
    (hnd : l.Nodup) (ha : a ∈ l) (hb : b ∈ l) (hab : a ≠ b) :
    ([a, b] ++ l.filter (fun e => !(([a, b] : List α).contains e))).Perm l := by
  have h1 : (l.filter (fun e => (([a, b] : List α).contains e))).Perm [a, b] := by
    rw [List.perm_ext_iff_of_nodup (hnd.filter _) (by simp [hab])]
    intro x
    simp only [List.mem_filter, List.elem_iff, List.mem_cons,
      List.not_mem_nil, or_false]
    constructor
    · rintro ⟨_, h⟩
      exact h
    · rintro (rfl | rfl)
      · exact ⟨ha, Or.inl rfl⟩
      · exact ⟨hb, Or.inr rfl⟩
  refine (h1.symm.append_right _).trans ?_
  have := List.filter_append_perm (fun e => (([a, b] : List α).contains e)) l
  simpa using this

/-- In the 3-exposure branch of `repairOne`, the retained maximal set is one
of the three 2-exposure subsets cleared as non-`Bad`. -/
theorem repairOne_maxSet_pair (cfg : Config) (plugged : Bool)
    (e1 e2 e3 : Exposure)
    (hne : ¬ ([fromExposures [e1, e2], fromExposures [e1, e3],
      fromExposures [e2, e3]].filter fun ts =>
        getStatus cfg plugged ts ≠ .Bad).isEmpty = true) :
    ∃ ea eb,
      (([fromExposures [e1, e2], fromExposures [e1, e3],
        fromExposures [e2, e3]].filter fun ts =>
          getStatus cfg plugged ts ≠ .Bad).getD
        (argmaxIdx ((([fromExposures [e1, e2], fromExposures [e1, e3],
          fromExposures [e2, e3]].filter fun ts =>
            getStatus cfg plugged ts ≠ .Bad)).map sn2Total))
        (fromExposures [])) = fromExposures [ea, eb] ∧
      ((ea = e1 ∧ eb = e2) ∨ (ea = e1 ∧ eb = e3) ∨ (ea = e2 ∧ eb = e3)) ∧
      getStatus cfg plugged (fromExposures [ea, eb]) ≠ .Bad := by
  have hnil : ([fromExposures [e1, e2], fromExposures [e1, e3],
      fromExposures [e2, e3]].filter fun ts =>
        getStatus cfg plugged ts ≠ .Bad) ≠ [] := by
    intro hnil
    rw [hnil] at hne
    simp at hne
  have hlt := argmaxIdx_lt (([fromExposures [e1, e2], fromExposures [e1, e3],
      fromExposures [e2, e3]].filter fun ts =>
        getStatus cfg plugged ts ≠ .Bad).map sn2Total) (by
    intro h
    rw [List.map_eq_nil_iff] at h
    exact hnil h)
  rw [List.length_map] at hlt
  have hmem := getD_mem _ _ (fromExposures []) hlt
  have hstat := (List.mem_filter.1 hmem).2
  have hmem2 := (List.mem_filter.1 hmem).1
  simp only [List.mem_cons, List.not_mem_nil, or_false] at hmem2
  simp only [decide_eq_true_eq] at hstat
  rcases hmem2 with heq | heq | heq
  · exact ⟨e1, e2, heq, Or.inl ⟨rfl, rfl⟩, heq ▸ hstat⟩
  · exact ⟨e1, e3, heq, Or.inr (Or.inl ⟨rfl, rfl⟩), heq ▸ hstat⟩
  · exact ⟨e2, e3, heq, Or.inr (Or.inr ⟨rfl, rfl⟩), heq ▸ hstat⟩

/-- `repairOne` conserves the exposure multiset of a duplicate-free set. -/
theorem repairOne_exposures_perm (cfg : Config) (plugged : Bool) (ss : SetT)
    (out : List SetT) (hnd : ss.exposures.Nodup)
    (h : repairOne cfg plugged ss = .ok out) :
    (setsExposures out).Perm ss.exposures := by
  unfold repairOne at h
  rcases hexp : ss.exposures with _ | ⟨e1, _ | ⟨e2, _ | ⟨e3, rest⟩⟩⟩ <;>
    rw [hexp] at h <;> dsimp only at h
  · simp at h
  · simp at h
  · rw [Except.ok.injEq] at h
    subst h
    simp [setsExposures, fromExposures]
  · rw [hexp] at hnd
    split at h
    · rw [Except.ok.injEq] at h
      subst h
      rw [setsExposures_singletons]
    · rename_i hne
      rw [Except.ok.injEq] at h
      subst h
      obtain ⟨ea, eb, hmax, hcase, _⟩ :=
        repairOne_maxSet_pair cfg plugged e1 e2 e3 hne
      rw [hmax]
      have hexps : setsExposures [fromExposures [ea, eb],
          fromExposures ((e1 :: e2 :: e3 :: rest).filter fun e =>
            !((fromExposures [ea, eb]).exposures.contains e))] =
          [ea, eb] ++ ((e1 :: e2 :: e3 :: rest).filter fun e =>
            !(([ea, eb] : List Exposure).contains e)) := by
        simp [setsExposures, fromExposures]
      rw [hexps]
      have hmem : ea ∈ e1 :: e2 :: e3 :: rest ∧ eb ∈ e1 :: e2 :: e3 :: rest ∧
          ea ≠ eb := by
        simp only [List.nodup_cons, List.mem_cons] at hnd
        rcases hcase with ⟨rfl, rfl⟩ | ⟨rfl, rfl⟩ | ⟨rfl, rfl⟩ <;>
          refine ⟨by simp, by simp, ?_⟩ <;> tauto
      exact filter_pair_perm _ ea eb hnd hmem.1 hmem.2.1 hmem.2.2

/-- Outputs of `repairOne` on a duplicate-free, valid set of at most three
exposures are never `Bad` (and carry no override label). -/
theorem repairOne_not_bad (cfg : Config) (plugged : Bool) (ss : SetT)
    (out : List SetT) (hq : 0 ≤ cfg.qualityWindow)
    (hnd : ss.exposures.Nodup) (hlen : ss.exposures.length ≤ 3)
    (hval : ∀ e ∈ ss.exposures, e.valid = true)
    (h : repairOne cfg plugged ss = .ok out) :
    ∀ s' ∈ out, getStatus cfg plugged s' ≠ .Bad ∧
      getStatus cfg plugged s' ≠ .OverrideBad ∧ s'.override = none := by
  unfold repairOne at h
  rcases hexp : ss.exposures with _ | ⟨e1, _ | ⟨e2, _ | ⟨e3, rest⟩⟩⟩ <;>
    rw [hexp] at h <;> dsimp only at h
  · simp at h
  · simp at h
  · rw [Except.ok.injEq] at h
    subst h
    intro s' hs'
    have hv1 : e1.valid = true := hval e1 (by rw [hexp]; simp)
    have hv2 : e2.valid = true := hval e2 (by rw [hexp]; simp)
    simp only [List.mem_cons, List.not_mem_nil, or_false] at hs'
    rcases hs' with rfl | rfl
    · exact ⟨(singleton_not_bad cfg plugged e1 hq hv1).1,
        (singleton_not_bad cfg plugged e1 hq hv1).2, rfl⟩
    · exact ⟨(singleton_not_bad cfg plugged e2 hq hv2).1,
        (singleton_not_bad cfg plugged e2 hq hv2).2, rfl⟩
  · have hrest : rest = [] := by
      rw [hexp] at hlen
      simp only [List.length_cons] at hlen
      have := List.length_eq_zero.1 (by omega : rest.length = 0)
      exact this
    subst hrest
    rw [hexp] at hnd
    split at h
    · rw [Except.ok.injEq] at h
      subst h
      intro s' hs'
      rw [List.mem_map] at hs'
      obtain ⟨x, hx, rfl⟩ := hs'
      have hvx : x.valid = true := hval x (by rw [hexp]; exact hx)
      exact ⟨(singleton_not_bad cfg plugged x hq hvx).1,
        (singleton_not_bad cfg plugged x hq hvx).2, rfl⟩
    · rename_i hne
      rw [Except.ok.injEq] at h
      subst h
      obtain ⟨ea, eb, hmax, hcase, hstat⟩ :=
        repairOne_maxSet_pair cfg plugged e1 e2 e3 hne
      intro s' hs'
      simp only [List.mem_cons, List.not_mem_nil, or_false] at hs'
      rcases hs' with rfl | rfl
      · rw [hmax]
        refine ⟨hstat, ?_, rfl⟩
        exact (getStatus_override_none cfg plugged _ rfl).2
      · rw [hmax]
        have hmemne : ea ∈ [e1, e2, e3] ∧ eb ∈ [e1, e2, e3] ∧ ea ≠ eb := by
          simp only [List.nodup_cons, List.mem_cons] at hnd
          rcases hcase with ⟨rfl, rfl⟩ | ⟨rfl, rfl⟩ | ⟨rfl, rfl⟩ <;>
            refine ⟨by simp, by simp, ?_⟩ <;> tauto
        have hpp := filter_pair_perm [e1, e2, e3] ea eb hnd hmemne.1
          hmemne.2.1 hmemne.2.2
        have hlen2 : (([e1, e2, e3] : List Exposure).filter fun e =>
            !(([ea, eb] : List Exposure).contains e)).length = 1 := by
          have := hpp.length_eq
          simp only [List.length_append] at this
          simp only [List.length_cons, List.length_nil] at this ⊢
          omega
        obtain ⟨x, hx⟩ := List.length_eq_one.1 hlen2
        have hxmem : x ∈ ([e1, e2, e3] : List Exposure) := by
          have : x ∈ ([e1, e2, e3] : List Exposure).filter fun e =>
              !(([ea, eb] : List Exposure).contains e) := by
            rw [hx]
            simp
          exact (List.mem_filter.1 this).1
        have hvx : x.valid = true := hval x (by rw [hexp]; exact hxmem)
        have hfm : (fromExposures ((e1 :: e2 :: e3 :: []).filter fun e =>
            !((fromExposures [ea, eb]).exposures.contains e))) =
            fromExposures [x] := by
          simp only [fromExposures]
          rw [show ((e1 :: e2 :: e3 :: []).filter fun e =>
            !(([ea, eb] : List Exposure).contains e)) = [x] from hx]
        rw [hfm]
        exact ⟨(singleton_not_bad cfg plugged x hq hvx).1,
          (singleton_not_bad cfg plugged x hq hvx).2, rfl⟩

/-- `repairAll` conserves the exposure multiset. -/
theorem repairAll_exposures_perm (cfg : Config) (plugged : Bool) :
    ∀ (sets out : List SetT), (∀ s ∈ sets, s.exposures.Nodup) →
    repairAll cfg plugged sets = .ok out →
    (setsExposures out).Perm (setsExposures sets) := by
  intro sets
  induction sets with
  | nil =>
    intro out _ h
    rw [repairAll] at h
    rw [Except.ok.injEq] at h
    subst h
    exact List.Perm.refl _
  | cons s rest ih =>
    intro out hnd h
    rw [repairAll] at h
    cases h1 : repairOne cfg plugged s with
    | error e =>
      rw [h1] at h
      cases h
    | ok pieces =>
      rw [h1] at h
      cases h2 : repairAll cfg plugged rest with
      | error e =>
        rw [h2] at h
        cases h
      | ok more =>
        rw [h2] at h
        replace h : Except.ok (ε := String) (pieces ++ more) = .ok out := h
        rw [Except.ok.injEq] at h
        subst h
        have hp := repairOne_exposures_perm cfg plugged s pieces
          (hnd s (by simp)) h1
        have hm := ih more (fun x hx => hnd x (by simp [hx])) h2
        rw [setsExposures_append]
        have hcons : setsExposures (s :: rest) =
            s.exposures ++ setsExposures rest := rfl
        rw [hcons]
        exact hp.append hm

/-- Output statuses of `repairAll` on duplicate-free, valid sets of at most
three exposures. -/
theorem repairAll_not_bad (cfg : Config) (plugged : Bool)
    (hq : 0 ≤ cfg.qualityWindow) :
    ∀ (sets out : List SetT),
    (∀ s ∈ sets, s.exposures.Nodup ∧ s.exposures.length ≤ 3 ∧
      ∀ e ∈ s.exposures, e.valid = true) →
    repairAll cfg plugged sets = .ok out →
    ∀ s' ∈ out, getStatus cfg plugged s' ≠ .Bad ∧
      getStatus cfg plugged s' ≠ .OverrideBad ∧ s'.override = none := by
  intro sets
  induction sets with
  | nil =>
    intro out _ h
    rw [repairAll] at h
    rw [Except.ok.injEq] at h
    subst h
    intro s' hs'
    simp at hs'
  | cons s rest ih =>
    intro out hnd h
    rw [repairAll] at h
    cases h1 : repairOne cfg plugged s with
    | error e =>
      rw [h1] at h
      cases h
    | ok pieces =>
      rw [h1] at h
      cases h2 : repairAll cfg plugged rest with
      | error e =>
        rw [h2] at h
        cases h
      | ok more =>
        rw [h2] at h
        replace h : Except.ok (ε := String) (pieces ++ more) = .ok out := h
        rw [Except.ok.injEq] at h
        subst h
        intro s' hs'
        rw [List.mem_append] at hs'
        rcases hs' with hs' | hs'
        · obtain ⟨hn, hl, hv⟩ := hnd s (by simp)
          exact repairOne_not_bad cfg plugged s pieces hq hn hl hv h1 s' hs'
        · exact ih more (fun x hx => hnd x (by simp [hx])) h2 s' hs'

/-- `fixBadSets` conserves the exposure multiset of a duplicate-free
arrangement. -/
theorem fixBadSets_exposures_perm (cfg : Config) (plugged : Bool)
    (sets out : List SetT) (hnd : ∀ s ∈ sets, s.exposures.Nodup)
    (h : fixBadSets cfg plugged sets = .ok out) :
    (setsExposures out).Perm (setsExposures sets) := by
  replace h : (do
      let toAdd ← repairAll cfg plugged
        (sets.filter fun ss => getStatus cfg plugged ss == SetStatus.Bad)
      Except.ok (((sets.filter fun ss =>
        getStatus cfg plugged ss == SetStatus.Bad).foldl
          (fun (acc : List SetT) s => acc.erase s) sets) ++ toAdd)) = .ok out := h
  cases h1 : repairAll cfg plugged
      (sets.filter fun ss => getStatus cfg plugged ss == .Bad) with
  | error e =>
    rw [h1] at h
    cases h
  | ok toAdd =>
    rw [h1] at h
    replace h : Except.ok (ε := String)
        (((sets.filter fun ss => getStatus cfg plugged ss == .Bad).foldl
          (fun acc s => acc.erase s) sets) ++ toAdd) = .ok out := h
    rw [Except.ok.injEq] at h
    subst h
    rw [setsExposures_append]
    have hkeep := foldl_erase_filter_perm sets
      (fun ss => getStatus cfg plugged ss == .Bad)
    have htoAdd := repairAll_exposures_perm cfg plugged _ toAdd
      (fun s hs => hnd s (List.mem_filter.1 hs).1) h1
    have hflat1 : (setsExposures ((sets.filter fun ss =>
        getStatus cfg plugged ss == .Bad).foldl
          (fun acc s => acc.erase s) sets)).Perm
        (setsExposures (sets.filter fun x =>
          !(getStatus cfg plugged x == .Bad))) :=
      List.Perm.flatMap_right _ hkeep
    refine (hflat1.append htoAdd).trans ?_
    rw [← setsExposures_append]
    apply List.Perm.flatMap_right
    refine List.Perm.trans List.perm_append_comm ?_
    exact List.filter_append_perm _ sets

/-- Every set written back by `fixBadSets` on a duplicate-free, valid,
override-free arrangement of 3-exposure-bounded sets is non-`Bad` and
carries no override label. -/
theorem fixBadSets_not_bad (cfg : Config) (plugged : Bool)
    (sets out : List SetT) (hq : 0 ≤ cfg.qualityWindow)
    (hprops : ∀ s ∈ sets, s.override = none ∧ s.exposures.Nodup ∧
      s.exposures.length ≤ 3 ∧ ∀ e ∈ s.exposures, e.valid = true)
    (h : fixBadSets cfg plugged sets = .ok out) :
    ∀ s' ∈ out, getStatus cfg plugged s' ≠ .Bad ∧
      getStatus cfg plugged s' ≠ .OverrideBad ∧ s'.override = none := by
  replace h : (do
      let toAdd ← repairAll cfg plugged
        (sets.filter fun ss => getStatus cfg plugged ss == SetStatus.Bad)
      Except.ok (((sets.filter fun ss =>
        getStatus cfg plugged ss == SetStatus.Bad).foldl
          (fun (acc : List SetT) s => acc.erase s) sets) ++ toAdd)) = .ok out := h
  cases h1 : repairAll cfg plugged
      (sets.filter fun ss => getStatus cfg plugged ss == .Bad) with
  | error e =>
    rw [h1] at h
    cases h
  | ok toAdd =>
    rw [h1] at h
    replace h : Except.ok (ε := String)
        (((sets.filter fun ss => getStatus cfg plugged ss == .Bad).foldl
          (fun acc s => acc.erase s) sets) ++ toAdd) = .ok out := h
    rw [Except.ok.injEq] at h
    subst h
    intro s' hs'
    rw [List.mem_append] at hs'
    rcases hs' with hs' | hs'
    · have hperm := foldl_erase_filter_perm sets
        (fun ss => getStatus cfg plugged ss == .Bad)
      have hmem := hperm.mem_iff.1 hs'
      rw [List.mem_filter] at hmem
      have hnotbad : getStatus cfg plugged s' ≠ .Bad := by
        have := hmem.2
        simp only [Bool.not_eq_true', beq_eq_false_iff_ne] at this
        exact this
      have hovn : s'.override = none := (hprops s' hmem.1).1
      exact ⟨hnotbad, (getStatus_override_none cfg plugged s' hovn).2, hovn⟩
    · refine repairAll_not_bad cfg plugged hq _ toAdd ?_ h1 s' hs'
      intro s hsmem
      have hsets := (List.mem_filter.1 hsmem).1
      exact (hprops s hsets).2

/-! ### Structural facts feeding the monotonicity theorem -/

/-- `getConsecutiveSets` returns exactly the requested number of pks. -/
theorem getConsecutiveSets_length (db : DB) (n : Nat) (pks : List Nat)
    (h : getConsecutiveSets db n = .ok pks) : pks.length = n := by
  unfold getConsecutiveSets at h
  rcases hs : List.insertionSort (· ≤ ·) db with _ | ⟨a, _ | ⟨b, t⟩⟩ <;>
    rw [hs] at h
  · cases h
  · cases h
  · rw [Except.ok.injEq] at h
    subst h
    unfold getConsecutiveSetsSorted
    rcases consecutiveRunChoice_cases (splitRuns ((List.range' 1
        ((a :: b :: t).getLastD 0)).filter
        (fun i => !((a :: b :: t).contains i)))) ((a :: b :: t).getLastD 0) n
      with ⟨g, hfind, heq⟩ | ⟨hfind, heq⟩
    · rw [heq]
      have := List.find?_some hfind
      simp only [decide_eq_true_eq] at this
      rw [List.length_take]
      omega
    · rw [heq, List.length_range']

/-- Each row of an enumerated arrangement has one slot per distinct dither. -/
theorem calculatePermutations_row_length (ds : List (Option Dither)) :
    ∀ arr ∈ calculatePermutations ds, ∀ row ∈ arr,
      row.length = (distinctDithers ds).length := by
  intro arr harr row hrow
  unfold calculatePermutations at harr
  rw [List.mem_map] at harr
  obtain ⟨cols, hcols, rfl⟩ := harr
  unfold zipRows at hrow
  rw [List.mem_map] at hrow
  obtain ⟨i, _, rfl⟩ := hrow
  rw [List.length_map]
  have hlen := (List.mem_sections.1 hcols).length_eq
  have h0 := groupsBySize_length ds
  rcases hgs : groupsBySize ds with _ | ⟨G, GS⟩
  · have hch : permIndexChoices ds = [] := by
      unfold permIndexChoices
      rw [hgs]
      rfl
    rw [hch] at hlen
    rw [hgs] at h0
    simp only [List.length_nil] at hlen h0
    omega
  · have hch : permIndexChoices ds =
        [padGroup (maxGroupSize ds) G] ::
          (GS.map (padGroup (maxGroupSize ds))).map List.permutations := by
      unfold permIndexChoices
      rw [hgs]
      rfl
    rw [hch] at hlen
    rw [hgs] at h0
    simp only [List.length_cons, List.length_map] at hlen h0
    omega

/-- A list of all-known dithers has at most three distinct values. -/
theorem distinctDithers_length_le (ds : List (Option Dither))
    (h : ∀ d ∈ ds, d.isSome) : (distinctDithers ds).length ≤ 3 := by
  have hnd := distinctDithers_nodup ds
  have hsub : distinctDithers ds ⊆
      [some Dither.N, some Dither.S, some Dither.E] := by
    intro d hd
    have hmem : d ∈ ds := by
      unfold distinctDithers at hd
      have := (List.perm_insertionSort
        (fun a b => ditherKey a ≤ ditherKey b) ds.dedup).mem_iff.1 hd
      exact List.mem_dedup.1 this
    have hds := h d hmem
    rcases d with _ | d
    · simp at hds
    · rcases d <;> simp
  have := (List.subperm_of_subset hnd hsub).length_le
  simpa using this

/-- The per-band SN² of an arrangement, summed set-wise or exposure-wise. -/
theorem setsExposures_sn2_sum (sets : List SetT) :
    ((setsExposures sets).map sn2Exp).sum = (sets.map getSN2Array).sum := by
  induction sets with
  | nil => rfl
  | cons s rest ih =>
    simp only [setsExposures, List.flatMap_cons, List.map_append,
      List.sum_append, List.map_cons, List.sum_cons] at ih ⊢
    rw [show getSN2Array s = (s.exposures.map sn2Exp).sum from rfl, ih]

/-- Duplicate-freeness of an arrangement's exposures passes to each set. -/
theorem exposures_nodup_of_mem (sets : List SetT) (s : SetT)
    (hnd : (setsExposures sets).Nodup) (hs : s ∈ sets) :
    s.exposures.Nodup := by
  have hmem : s.exposures ∈ sets.map (·.exposures) :=
    List.mem_map_of_mem _ hs
  have hsub := List.sublist_flatten_of_mem hmem
  rw [← List.flatMap_def] at hsub
  exact hnd.sublist hsub

/-- `getStatus` ignores the pk of a set. -/
theorem getStatus_pk (cfg : Config) (plugged : Bool) (ss : SetT)
    (x : Option Nat) :
    getStatus cfg plugged { ss with pk := x } = getStatus cfg plugged ss := rfl

/-- `getSN2Array` ignores the pk of a set. -/
theorem getSN2Array_pk (ss : SetT) (x : Option Nat) :
    getSN2Array { ss with pk := x } = getSN2Array ss := rfl

/-- The componentwise SN²-sum inequality along a sublist of exposures. -/
theorem sn2_sum_comp_le (l₁ l₂ : List Exposure) (h : l₁.Sublist l₂)
    (hnn : ∀ e ∈ l₂, expNonneg e) :
    (l₁.map sn2Exp).sum.1 ≤ (l₂.map sn2Exp).sum.1 ∧
    (l₁.map sn2Exp).sum.2.1 ≤ (l₂.map sn2Exp).sum.2.1 ∧
    (l₁.map sn2Exp).sum.2.2.1 ≤ (l₂.map sn2Exp).sum.2.2.1 ∧
    (l₁.map sn2Exp).sum.2.2.2 ≤ (l₂.map sn2Exp).sum.2.2.2 := by
  obtain ⟨a1, a2, a3, a4⟩ := sn4_sum_proj (l₁.map sn2Exp)
  obtain ⟨b1, b2, b3, b4⟩ := sn4_sum_proj (l₂.map sn2Exp)
  refine ⟨?_, ?_, ?_, ?_⟩
  · rw [a1, b1, List.map_map, List.map_map]
    refine List.Sublist.sum_le_sum (h.map _) ?_
    intro x hx
    obtain ⟨e, he, rfl⟩ := List.mem_map.1 hx
    exact (hnn e he).1
  · rw [a2, b2, List.map_map, List.map_map]
    refine List.Sublist.sum_le_sum (h.map _) ?_
    intro x hx
    obtain ⟨e, he, rfl⟩ := List.mem_map.1 hx
    exact (hnn e he).2.1
  · rw [a3, b3, List.map_map, List.map_map]
    refine List.Sublist.sum_le_sum (h.map _) ?_
    intro x hx
    obtain ⟨e, he, rfl⟩ := List.mem_map.1 hx
    exact (hnn e he).2.2.1
  · rw [a4, b4, List.map_map, List.map_map]
    refine List.Sublist.sum_le_sum (h.map _) ?_
    intro x hx
    obtain ⟨e, he, rfl⟩ := List.mem_map.1 hx
    exact (hnn e he).2.2.2

/-- `applyArrangement` on an override-free plate and arrangement: the plate
keeps its plugged state and unassigned exposures, and its new sets are the
chosen arrangement, possibly re-keyed under fresh consecutive pks. -/
theorem applyArrangement_sets (db : DB) (p : Plate) (chosen : List SetT)
    (p' : Plate) (db' : DB)
    (hov : ∀ s ∈ chosen, s.override = none)
    (hovP : ∀ s ∈ p.sets, s.override = none)
    (h : applyArrangement db p chosen = .ok (p', db')) :
    p'.plugged = p.plugged ∧ p'.unassigned = p.unassigned ∧
    (p'.sets = chosen ∨ ∃ pks : List Nat, pks.length = chosen.length ∧
      p'.sets = (chosen.zip pks).map fun c => { c.1 with pk := some c.2 }) := by
  have harr : chosen.filter (fun ss => ss.override.isNone) = chosen := by
    rw [List.filter_eq_self]
    intro s hs
    rw [hov s hs]
    rfl
  have hovf : p.sets.filter (fun ss => ss.override.isSome) = [] := by
    rw [List.filter_eq_nil_iff]
    intro s hs
    rw [hovP s hs]
    simp
  replace h : (if (chosen.filter fun ss => ss.override.isNone).any
        (fun ss => ss.exposures.any (·.isMock)) then
      Except.ok (ε := String)
        ({ p with sets := chosen.filter fun ss => ss.override.isNone }, db)
    else do
      let pks ← getConsecutiveSets
        (db.filter fun pk =>
          !(((p.sets.filter fun ss => ss.override.isNone).filterMap
            (·.pk)).contains pk))
        (chosen.filter fun ss => ss.override.isNone).length
      Except.ok ({ p with sets :=
        (p.sets.filter fun ss => ss.override.isSome) ++
          (((chosen.filter fun ss => ss.override.isNone).zip pks).map
            fun c => { c.1 with pk := some c.2 }) },
        (db.filter fun pk =>
          !(((p.sets.filter fun ss => ss.override.isNone).filterMap
            (·.pk)).contains pk)) ++ pks)) = .ok (p', db') := h
  rw [harr, hovf] at h
  split at h
  · rw [Except.ok.injEq, Prod.mk.injEq] at h
    obtain ⟨hp, _⟩ := h
    rw [← hp]
    exact ⟨rfl, rfl, Or.inl rfl⟩
  · cases hpk : getConsecutiveSets
        (db.filter fun pk =>
          !(((p.sets.filter fun ss => ss.override.isNone).filterMap
            (·.pk)).contains pk)) chosen.length with
    | error e =>
      rw [hpk] at h
      cases h
    | ok pks =>
      rw [hpk] at h
      replace h : Except.ok (ε := String) (({ p with sets :=
          [] ++ ((chosen.zip pks).map fun c => { c.1 with pk := some c.2 }) } :
            Plate),
          (db.filter fun pk =>
            !(((p.sets.filter fun ss => ss.override.isNone).filterMap
              (·.pk)).contains pk)) ++ pks) = .ok (p', db') := h
      rw [Except.ok.injEq, Prod.mk.injEq] at h
      obtain ⟨hp, _⟩ := h
      rw [← hp]
      refine ⟨rfl, rfl, Or.inr ⟨pks, getConsecutiveSets_length _ _ _ hpk, ?_⟩⟩
      simp

/-- The optimal rearrangement of an override-free plate of valid, known-dither,
duplicate-free, non-negative science exposures never decreases the spec-§4.2
plate completion. -/
theorem rearrangeOptimal_monotone (cfg : Config) (db : DB) (p : Plate)
    (force : Bool) (LST : ℚ) (flag : Bool) (p' : Plate) (db' : DB) (n : Nat)
    (hb : 0 < cfg.plateBlue) (hr : 0 < cfg.plateRed)
    (hq : 0 ≤ cfg.qualityWindow)
    (hfac : cfg.setRearrangementFactor ≤ 1)
    (hov : ∀ s ∈ p.sets, s.override = none)
    (hval : ∀ e ∈ scienceExposures p, e.valid = true)
    (hdith : ∀ e ∈ scienceExposures p, (e.dither).isSome = true)
    (hnn : ∀ e ∈ scienceExposures p, expNonneg e)
    (hnd : (scienceExposures p).Nodup)
    (h : rearrangeOptimal cfg db p .all force LST = .ok (flag, p', db', n)) :
    plateCompletionSpec cfg p ≤ plateCompletionSpec cfg p' := by
  have hovf : (p.sets.filter fun ss => ss.override.isSome) = [] := by
    rw [List.filter_eq_nil_iff]
    intro s hs
    rw [hov s hs]
    simp
  have hve : validRearrangeExposures cfg p .all = scienceExposures p := by
    unfold validRearrangeExposures scopeExposures
    rw [List.filter_eq_self]
    intro e he
    have hio : inOverrideSet p e = false := by
      unfold inOverrideSet
      rw [List.any_eq_false]
      intro s hs
      rw [hov s hs]
      simp
    rw [hio, hval e he]
    rfl
  replace h : (if (validRearrangeExposures cfg p .all).isEmpty then
        Except.ok (ε := String) (true, p, db, 0)
      else if cfg.permutationLimitPlate < getNumberPermutations
            ((validRearrangeExposures cfg p .all).map (·.dither)) ∧
          force = false then
        Except.ok (false, p, db, 0)
      else do
        let acc ← keepLoop cfg p.plugged
          ((calculatePermutations
              ((validRearrangeExposures cfg p .all).map (·.dither))).map
            fun perm =>
              permutationSets (validRearrangeExposures cfg p .all) perm ++
                (p.sets.filter fun ss => ss.override.isSome))
          ([], [])
        match selectOpticalArrangement cfg acc.2 acc.1 LST with
        | none => Except.error "selectOpticalArrangement received no arrangements"
        | some chosen => do
          let pdb ← applyArrangement db p chosen
          Except.ok (true, pdb.1, pdb.2,
            (calculatePermutations
              ((validRearrangeExposures cfg p .all).map (·.dither))).length)) =
      .ok (flag, p', db', n) := h
  rw [hve, hovf] at h
  simp only [List.append_nil] at h
  split at h
  · rw [Except.ok.injEq, Prod.mk.injEq, Prod.mk.injEq, Prod.mk.injEq] at h
    obtain ⟨-, hp2, -, -⟩ := h
    rw [← hp2]
  · split at h
    · rw [Except.ok.injEq, Prod.mk.injEq, Prod.mk.injEq, Prod.mk.injEq] at h
      obtain ⟨-, hp2, -, -⟩ := h
      rw [← hp2]
    · cases hkl : keepLoop cfg p.plugged
          ((calculatePermutations
              ((scienceExposures p).map (·.dither))).map
            fun perm => permutationSets (scienceExposures p) perm)
          ([], []) with
      | error e =>
        rw [hkl] at h
        cases h
      | ok acc =>
        rw [hkl] at h
        replace h : (match selectOpticalArrangement cfg acc.2 acc.1 LST with
          | none =>
            Except.error "selectOpticalArrangement received no arrangements"
          | some chosen => do
            let pdb ← applyArrangement db p chosen
            Except.ok (true, pdb.1, pdb.2,
              (calculatePermutations
                ((scienceExposures p).map
                  (fun e : Exposure => e.dither))).length)) =
            .ok (flag, p', db', n) := h
        cases hsel : selectOpticalArrangement cfg acc.2 acc.1 LST with
        | none =>
          rw [hsel] at h
          cases h
        | some chosen =>
          rw [hsel] at h
          replace h : (do
            let pdb ← applyArrangement db p chosen
            Except.ok (ε := String) (true, pdb.1, pdb.2,
              (calculatePermutations
                ((scienceExposures p).map
                  (fun e : Exposure => e.dither))).length)) =
              .ok (flag, p', db', n) := h
          cases happ : applyArrangement db p chosen with
          | error e =>
            rw [happ] at h
            cases h
          | ok pdb =>
            rw [happ] at h
            replace h : Except.ok (ε := String) (true, pdb.1, pdb.2,
                (calculatePermutations
                  ((scienceExposures p).map
                    (fun e : Exposure => e.dither))).length) =
                .ok (flag, p', db', n) := h
            rw [Except.ok.injEq, Prod.mk.injEq, Prod.mk.injEq,
              Prod.mk.injEq] at h
            obtain ⟨-, hp2, -, -⟩ := h
            -- Facts about every enumerated arrangement.
            have harrprops : ∀ sets ∈ ((calculatePermutations
                ((scienceExposures p).map (·.dither))).map
                fun perm => permutationSets (scienceExposures p) perm),
                ∀ ss ∈ sets, ∀ e ∈ ss.exposures, e ∈ scienceExposures p := by
              intro sets hsets ss hss e he
              rw [List.mem_map] at hsets
              obtain ⟨perm, hperm, rfl⟩ := hsets
              rw [permutationSets, List.mem_map] at hss
              obtain ⟨row, hrow, rfl⟩ := hss
              exact mem_rowExposures he
            -- The selected arrangement is one of the kept (repaired) ones.
            have hlens := keepLoop_lengths cfg p.plugged _ ([], []) acc hkl rfl
            have hnnacc : ∀ c ∈ acc.1, 0 ≤ c := by
              refine keepLoop_nonneg cfg p.plugged _ ([], []) acc hkl
                (by intro c hc; simp at hc) ?_
              intro sets hsets
              refine scoredCompletion_nonneg cfg p.plugged sets hb hr ?_
              intro ss hss e he
              exact hnn e (harrprops sets hsets ss hss e he)
            have hchmem : chosen ∈ acc.2 :=
              selectOpticalArrangement_mem cfg acc.2 acc.1 LST chosen
                hlens hnnacc hfac hsel
            rcases keepLoop_mem cfg p.plugged _ ([], []) acc hkl chosen hchmem
              with habs | ⟨sets, hsets, hfix⟩
            · simp at habs
            -- The source arrangement covers the science exposures exactly.
            · rw [List.mem_map] at hsets
              obtain ⟨perm, hperm, rfl⟩ := hsets
              have hcov := calculatePermutations_coverage _ perm hperm
              rw [List.length_map] at hcov
              have hsp : (setsExposures
                  (permutationSets (scienceExposures p) perm)).Perm
                  (scienceExposures p) :=
                permutationSets_exposures_perm _ _ hcov
              have hndsets : (setsExposures
                  (permutationSets (scienceExposures p) perm)).Nodup :=
                (hsp.nodup_iff).2 hnd
              -- Per-set preconditions for `fixBadSets`.
              have hprops : ∀ s ∈ permutationSets (scienceExposures p) perm,
                  s.override = none ∧ s.exposures.Nodup ∧
                  s.exposures.length ≤ 3 ∧
                  ∀ e ∈ s.exposures, e.valid = true := by
                intro s hs
                have hsnd := exposures_nodup_of_mem _ s hndsets hs
                rw [permutationSets, List.mem_map] at hs
                obtain ⟨row, hrow, rfl⟩ := hs
                refine ⟨rfl, hsnd, ?_, ?_⟩
                · have h1 : (rowExposures (scienceExposures p) row).length ≤
                      row.length := List.length_filterMap_le _ _
                  have h2 := calculatePermutations_row_length _ perm hperm
                    row hrow
                  have h3 : (distinctDithers
                      ((scienceExposures p).map (·.dither))).length ≤ 3 := by
                    refine distinctDithers_length_le _ ?_
                    intro d hd
                    rw [List.mem_map] at hd
                    obtain ⟨e, he, rfl⟩ := hd
                    exact hdith e he
                  simp only [fromExposures]
                  omega
                · intro e he
                  exact hval e (mem_rowExposures he)
              have hchperm := fixBadSets_exposures_perm cfg p.plugged _
                chosen (fun s hs => (hprops s hs).2.1) hfix
              have hchbad := fixBadSets_not_bad cfg p.plugged _ chosen
                hq hprops hfix
              -- The arrangement is written onto the plate.
              obtain ⟨hplug, -, hform⟩ := applyArrangement_sets db p chosen
                pdb.1 pdb.2 (fun s hs => (hchbad s hs).2.2) hov happ
              -- The new sets: non-Bad statuses and the same SN² total.
              have hafter : (∀ s' ∈ pdb.1.sets,
                    getStatus cfg pdb.1.plugged s' ≠ .Bad ∧
                    getStatus cfg pdb.1.plugged s' ≠ .OverrideBad) ∧
                  (pdb.1.sets.map getSN2Array).sum =
                    (chosen.map getSN2Array).sum := by
                rcases hform with hform | ⟨pks, hpklen, hform⟩
                · rw [hform, hplug]
                  exact ⟨fun s' hs' => ⟨(hchbad s' hs').1, (hchbad s' hs').2.1⟩,
                    rfl⟩
                · rw [hform, hplug]
                  constructor
                  · intro s' hs'
                    rw [List.mem_map] at hs'
                    obtain ⟨c, hc, rfl⟩ := hs'
                    have hc1 := (List.mem_zip hc).1
                    rw [getStatus_pk]
                    exact ⟨(hchbad c.1 hc1).1, (hchbad c.1 hc1).2.1⟩
                  · rw [List.map_map]
                    have hcongr : ((chosen.zip pks).map
                        (getSN2Array ∘ fun c => { c.1 with pk := some c.2 })) =
                        ((chosen.zip pks).map Prod.fst).map getSN2Array := by
                      rw [List.map_map]
                      exact List.map_congr_left fun c _ => rfl
                    rw [hcongr, List.map_fst_zip chosen pks (le_of_eq
                      hpklen.symm)]
              -- Completion after: the full SN² of the science exposures.
              have hsum : (pdb.1.sets.map getSN2Array).sum =
                  (((scienceExposures p)).map sn2Exp).sum := by
                rw [hafter.2, ← setsExposures_sn2_sum]
                exact ((hchperm.trans hsp).map sn2Exp).sum_eq
              have hfilts : pdb.1.sets.filter (fun ss =>
                  getStatus cfg pdb.1.plugged ss ≠ .Bad ∧
                  getStatus cfg pdb.1.plugged ss ≠ .OverrideBad) =
                  pdb.1.sets := by
                rw [List.filter_eq_self]
                intro s' hs'
                simp only [decide_eq_true_eq]
                exact ⟨(hafter.1 s' hs').1, (hafter.1 s' hs').2⟩
              have hafter_eq : plateCompletionSpec cfg pdb.1 =
                  completionScore cfg
                    (((scienceExposures p).map sn2Exp).sum) := by
                unfold plateCompletionSpec
                rw [hfilts, hsum]
              -- Completion before: a componentwise-smaller SN² sum.
              have hbefore_sub : (setsExposures (p.sets.filter fun ss =>
                  getStatus cfg p.plugged ss ≠ .Bad ∧
                  getStatus cfg p.plugged ss ≠ .OverrideBad)).Sublist
                  (scienceExposures p) := by
                refine List.Sublist.trans ?_ (List.sublist_append_left _ _)
                exact sublist_flatMap _ (List.filter_sublist _)
              have hcomp := sn2_sum_comp_le _ _ hbefore_sub hnn
              have hbefore_eq : plateCompletionSpec cfg p =
                  completionScore cfg (((setsExposures (p.sets.filter fun ss =>
                    getStatus cfg p.plugged ss ≠ .Bad ∧
                    getStatus cfg p.plugged ss ≠ .OverrideBad)).map
                      sn2Exp).sum) := by
                unfold plateCompletionSpec
                rw [setsExposures_sn2_sum]
              rw [hbefore_eq, ← hp2, hafter_eq]
              exact completionScore_mono cfg _ _ hb hr hcomp.1 hcomp.2.1
                hcomp.2.2.1 hcomp.2.2.2

/-- **C2, counterexample.**  On plate `C2plate` (completion 10, carried
entirely by the `Override Good` set), `rearrangeSets(mode=Optimal)` goes
through the mock-exposure branch of `applyArrangement`, which replaces
`plate.sets` by the override-filtered arrangement: the override set and its
SN² are dropped and the completion falls from 10 to 0.  The claimed
monotonicity therefore fails on plates with override sets or mock
exposures. -/
theorem C2_counterexample :
    rearrangeOptimal cfg1 [1, 2, 3] C2plate .all false 0 =
      .ok (true, C2res, [1, 2, 3], 1) ∧
    plateCompletionSpec cfg1 C2res < plateCompletionSpec cfg1 C2plate := by
  refine ⟨by with_unfolding_all decide, by with_unfolding_all decide⟩

/-- **C2 (amended).**  `rearrangeSets(mode=Optimal, scope=all)` never
decreases the spec-§4.2 plate completion *provided* the plate carries no
override-labelled sets and its science exposures are valid, have known
dithers, duplicate-free identities and non-negative SN², with positive plate
thresholds, a non-negative quality window and a rearrangement factor at most
1.  Without the override-free assumption the completion can drop
(`C2_counterexample`). -/
theorem C2_amended (cfg : Config) (db : DB) (p : Plate) (force : Bool)
    (LST : ℚ) (flag : Bool) (p' : Plate) (db' : DB) (n : Nat)
    (hb : 0 < cfg.plateBlue) (hr : 0 < cfg.plateRed)
    (hq : 0 ≤ cfg.qualityWindow) (hfac : cfg.setRearrangementFactor ≤ 1)
    (hov : ∀ s ∈ p.sets, s.override = none)
    (hval : ∀ e ∈ scienceExposures p, e.valid = true)
    (hdith : ∀ e ∈ scienceExposures p, (e.dither).isSome = true)
    (hnn : ∀ e ∈ scienceExposures p, expNonneg e)
    (hnd : (scienceExposures p).Nodup)
    (h : rearrangeSets cfg db p .optimalMode .all force LST =
      .ok (flag, p', db', n)) :
    plateCompletionSpec cfg p ≤ plateCompletionSpec cfg p' := by
  replace h : (if (validRearrangeExposures cfg p .all).isEmpty then
      Except.ok (ε := String) (true, p, db, 0)
    else rearrangeOptimal cfg db p .all force LST) =
      .ok (flag, p', db', n) := h
  split at h
  · rw [Except.ok.injEq, Prod.mk.injEq, Prod.mk.injEq, Prod.mk.injEq] at h
    obtain ⟨-, hp2, -, -⟩ := h
    rw [← hp2]
  · exact rearrangeOptimal_monotone cfg db p force LST flag p' db' n hb hr hq
      hfac hov hval hdith hnn hnd h

/-- Witness for `C2_amended` on the concrete plate `C2wPlate`. -/
theorem C2_amended_witness :
    rearrangeSets cfg1 [1, 2] C2wPlate .optimalMode .all false 0 =
      .ok (true, C2wRes, [1, 2, 3], 1) ∧
    plateCompletionSpec cfg1 C2wPlate ≤ plateCompletionSpec cfg1 C2wRes :=
  ⟨by with_unfolding_all decide,
    C2_amended cfg1 [1, 2] C2wPlate false 0 true C2wRes [1, 2, 3] 1
      (by with_unfolding_all decide) (by with_unfolding_all decide)
      (by with_unfolding_all decide) (by with_unfolding_all decide)
      (by with_unfolding_all decide) (by with_unfolding_all decide)
      (by with_unfolding_all decide)
      (by simp only [expNonneg]; with_unfolding_all decide)
      (by with_unfolding_all decide) (by with_unfolding_all decide)⟩

/-- **C3.**  When the permutation count exceeds the plate permutation limit,
`rearrangeSets(mode=optimal, scope=all)` with `force=false` returns `false`
with the plate, database and counter untouched; with `force=true` it runs the
full pipeline: the flag is `true`, the counter equals the full permutation
count `m!^(k−1)`, and the plate/database are the result of applying the
arrangement selected among the kept candidates. -/
theorem C3 (cfg : Config) (db : DB) (p : Plate) (LST : ℚ)
    (hlimit : cfg.permutationLimitPlate < getNumberPermutations
      ((validRearrangeExposures cfg p .all).map (fun e : Exposure => e.dither))) :
    rearrangeOptimal cfg db p .all false LST = .ok (false, p, db, 0) ∧
    ∀ flag p' db' n,
      rearrangeOptimal cfg db p .all true LST = .ok (flag, p', db', n) →
      flag = true ∧
      n = getNumberPermutations
        ((validRearrangeExposures cfg p .all).map (fun e : Exposure => e.dither)) ∧
      ∃ acc chosen,
        keepLoop cfg p.plugged
          ((calculatePermutations ((validRearrangeExposures cfg p .all).map
              (fun e : Exposure => e.dither))).map
            fun perm =>
              permutationSets (validRearrangeExposures cfg p .all) perm ++
                (p.sets.filter fun ss => ss.override.isSome)) ([], []) =
          .ok acc ∧
        selectOpticalArrangement cfg acc.2 acc.1 LST = some chosen ∧
        applyArrangement db p chosen = .ok (p', db') := by
  have hne : ¬ ((validRearrangeExposures cfg p .all).isEmpty = true) := by
    intro hemp
    rw [List.isEmpty_iff] at hemp
    rw [hemp] at hlimit
    simp [getNumberPermutations] at hlimit
  constructor
  · have hbody : rearrangeOptimal cfg db p .all false LST =
        (if (validRearrangeExposures cfg p .all).isEmpty then
          Except.ok (ε := String) (true, p, db, 0)
        else if cfg.permutationLimitPlate < getNumberPermutations
              ((validRearrangeExposures cfg p .all).map (·.dither)) ∧
            false = false then
          Except.ok (false, p, db, 0)
        else do
          let acc ← keepLoop cfg p.plugged
            ((calculatePermutations
                ((validRearrangeExposures cfg p .all).map (·.dither))).map
              fun perm =>
                permutationSets (validRearrangeExposures cfg p .all) perm ++
                  (p.sets.filter fun ss => ss.override.isSome))
            ([], [])
          match selectOpticalArrangement cfg acc.2 acc.1 LST with
          | none =>
            Except.error "selectOpticalArrangement received no arrangements"
          | some chosen => do
            let pdb ← applyArrangement db p chosen
            Except.ok (true, pdb.1, pdb.2,
              (calculatePermutations
                ((validRearrangeExposures cfg p .all).map (·.dither))).length)) :=
      rfl
    rw [hbody, if_neg hne, if_pos ⟨hlimit, rfl⟩]
  · intro flag p' db' n h
    replace h : (if (validRearrangeExposures cfg p .all).isEmpty then
          Except.ok (ε := String) (true, p, db, 0)
        else if cfg.permutationLimitPlate < getNumberPermutations
              ((validRearrangeExposures cfg p .all).map (·.dither)) ∧
            true = false then
          Except.ok (false, p, db, 0)
        else do
          let acc ← keepLoop cfg p.plugged
            ((calculatePermutations
                ((validRearrangeExposures cfg p .all).map (·.dither))).map
              fun perm =>
                permutationSets (validRearrangeExposures cfg p .all) perm ++
                  (p.sets.filter fun ss => ss.override.isSome))
            ([], [])
          match selectOpticalArrangement cfg acc.2 acc.1 LST with
          | none =>
            Except.error "selectOpticalArrangement received no arrangements"
          | some chosen => do
            let pdb ← applyArrangement db p chosen
            Except.ok (true, pdb.1, pdb.2,
              (calculatePermutations
                ((validRearrangeExposures cfg p .all).map (·.dither))).length)) =
        .ok (flag, p', db', n) := h
    rw [if_neg hne, if_neg (by rintro ⟨-, hc⟩; cases hc)] at h
    cases hkl : keepLoop cfg p.plugged
        ((calculatePermutations
            ((validRearrangeExposures cfg p .all).map (·.dither))).map
          fun perm =>
            permutationSets (validRearrangeExposures cfg p .all) perm ++
              (p.sets.filter fun ss => ss.override.isSome)) ([], []) with
    | error e =>
      rw [hkl] at h
      cases h
    | ok acc =>
      rw [hkl] at h
      replace h : (match selectOpticalArrangement cfg acc.2 acc.1 LST with
        | none =>
          Except.error "selectOpticalArrangement received no arrangements"
        | some chosen => do
          let pdb ← applyArrangement db p chosen
          Except.ok (ε := String) (true, pdb.1, pdb.2,
            (calculatePermutations
              ((validRearrangeExposures cfg p .all).map
                (fun e : Exposure => e.dither))).length)) =
          .ok (flag, p', db', n) := h
      cases hsel : selectOpticalArrangement cfg acc.2 acc.1 LST with
      | none =>
        rw [hsel] at h
        cases h
      | some chosen =>
        rw [hsel] at h
        replace h : (do
          let pdb ← applyArrangement db p chosen
          Except.ok (ε := String) (true, pdb.1, pdb.2,
            (calculatePermutations
              ((validRearrangeExposures cfg p .all).map
                (fun e : Exposure => e.dither))).length)) =
            .ok (flag, p', db', n) := h
        cases happ : applyArrangement db p chosen with
        | error e =>
          rw [happ] at h
          cases h
        | ok pdb =>
          rw [happ] at h
          replace h : Except.ok (ε := String) (true, pdb.1, pdb.2,
              (calculatePermutations
                ((validRearrangeExposures cfg p .all).map
                  (fun e : Exposure => e.dither))).length) =
              .ok (flag, p', db', n) := h
          rw [Except.ok.injEq, Prod.mk.injEq, Prod.mk.injEq,
            Prod.mk.injEq] at h
          obtain ⟨h1, h2, h3, h4⟩ := h
          have hds : ((validRearrangeExposures cfg p .all).map
              (fun e : Exposure => e.dither)) ≠ [] := by
            intro hc
            rw [List.map_eq_nil_iff] at hc
            rw [hc] at hne
            simp at hne
          refine ⟨h1.symm, ?_, acc, chosen, rfl, hsel, ?_⟩
          · rw [← h4, calculatePermutations_length _ hds]
          · rw [← h2, ← h3]
            exact happ

/-- Witness for `C3` on `C3plate` (2 permutations, limit 1). -/
theorem C3_witness :
    cfgC3.permutationLimitPlate < getNumberPermutations
      ((validRearrangeExposures cfgC3 C3plate .all).map
        (fun e : Exposure => e.dither)) ∧
    rearrangeOptimal cfgC3 [1, 2] C3plate .all false 0 =
      .ok (false, C3plate, [1, 2], 0) :=
  ⟨by with_unfolding_all decide,
    (C3 cfgC3 [1, 2] C3plate 0 (by with_unfolding_all decide)).1⟩

/-- **C4, counterexample.**  On `C3plate` under limit 1 with `force=false`
the engine enumerates nothing and returns counter 0, while
`min(m!^(k−1), permutationLimit) = min(2, 1) = 1`: the claimed count
`min(m!^(k−1), permutationLimit)` is wrong in the over-limit case. -/
theorem C4_counterexample :
    rearrangeOptimal cfgC3 [1, 2] C3plate .all false 0 =
      .ok (false, C3plate, [1, 2], 0) ∧
    min (getNumberPermutations ((validRearrangeExposures cfgC3 C3plate .all).map
      (fun e : Exposure => e.dither))) cfgC3.permutationLimitPlate ≠ 0 := by
  refine ⟨by with_unfolding_all decide, by with_unfolding_all decide⟩

/-- **C4 (amended).**  `getNumberPermutations` computes `m!^(k−1)` on any
non-empty dither list and `calculatePermutations` yields exactly that many
arrangements; but with `force=false` the counter returned by the optimal
rearrangement is `m!^(k−1)` when that is within the plate permutation limit
and `0` otherwise (nothing is enumerated over the limit), not
`min(m!^(k−1), permutationLimit)`. -/
theorem C4_amended (ds : List (Option Dither)) (cfg : Config) (db : DB)
    (p : Plate) (LST : ℚ) (flag : Bool) (p' : Plate) (db' : DB) (n : Nat)
    (hds : ds ≠ [])
    (h : rearrangeOptimal cfg db p .all false LST = .ok (flag, p', db', n)) :
    getNumberPermutations ds =
      (maxGroupSize ds).factorial ^ ((distinctDithers ds).length - 1) ∧
    (calculatePermutations ds).length = getNumberPermutations ds ∧
    n = if getNumberPermutations ((validRearrangeExposures cfg p .all).map
          (fun e : Exposure => e.dither)) ≤ cfg.permutationLimitPlate then
        getNumberPermutations ((validRearrangeExposures cfg p .all).map
          (fun e : Exposure => e.dither))
      else 0 := by
  refine ⟨?_, calculatePermutations_length ds hds, ?_⟩
  · unfold getNumberPermutations
    rw [if_neg (by simpa using hds)]
  · replace h : (if (validRearrangeExposures cfg p .all).isEmpty then
          Except.ok (ε := String) (true, p, db, 0)
        else if cfg.permutationLimitPlate < getNumberPermutations
              ((validRearrangeExposures cfg p .all).map (·.dither)) ∧
            false = false then
          Except.ok (false, p, db, 0)
        else do
          let acc ← keepLoop cfg p.plugged
            ((calculatePermutations
                ((validRearrangeExposures cfg p .all).map (·.dither))).map
              fun perm =>
                permutationSets (validRearrangeExposures cfg p .all) perm ++
                  (p.sets.filter fun ss => ss.override.isSome))
            ([], [])
          match selectOpticalArrangement cfg acc.2 acc.1 LST with
          | none =>
            Except.error "selectOpticalArrangement received no arrangements"
          | some chosen => do
            let pdb ← applyArrangement db p chosen
            Except.ok (true, pdb.1, pdb.2,
              (calculatePermutations
                ((validRearrangeExposures cfg p .all).map (·.dither))).length)) =
        .ok (flag, p', db', n) := h
    split at h
    · rename_i hemp
      rw [List.isEmpty_iff] at hemp
      rw [Except.ok.injEq, Prod.mk.injEq, Prod.mk.injEq, Prod.mk.injEq] at h
      obtain ⟨-, -, -, hn⟩ := h
      rw [← hn, hemp]
      simp [getNumberPermutations]
    · split at h
      · rename_i hcond
        rw [Except.ok.injEq, Prod.mk.injEq, Prod.mk.injEq, Prod.mk.injEq] at h
        obtain ⟨-, -, -, hn⟩ := h
        rw [← hn, if_neg (by omega)]
      · rename_i hemp hcond
        have hlim : getNumberPermutations ((validRearrangeExposures cfg p
            .all).map (fun e : Exposure => e.dither)) ≤
            cfg.permutationLimitPlate := by
          rcases Nat.lt_or_ge cfg.permutationLimitPlate
            (getNumberPermutations ((validRearrangeExposures cfg p .all).map
              (fun e : Exposure => e.dither))) with hlt | hge
          · exact absurd ⟨hlt, rfl⟩ hcond
          · exact hge
        have hds2 : ((validRearrangeExposures cfg p .all).map
            (fun e : Exposure => e.dither)) ≠ [] := by
          intro hc
          rw [List.map_eq_nil_iff] at hc
          rw [hc] at hemp
          simp at hemp
        rw [if_pos hlim]
        cases hkl : keepLoop cfg p.plugged
            ((calculatePermutations
                ((validRearrangeExposures cfg p .all).map (·.dither))).map
              fun perm =>
                permutationSets (validRearrangeExposures cfg p .all) perm ++
                  (p.sets.filter fun ss => ss.override.isSome)) ([], []) with
        | error e =>
          rw [hkl] at h
          cases h
        | ok acc =>
          rw [hkl] at h
          replace h : (match selectOpticalArrangement cfg acc.2 acc.1 LST with
            | none =>
              Except.error "selectOpticalArrangement received no arrangements"
            | some chosen => do
              let pdb ← applyArrangement db p chosen
              Except.ok (ε := String) (true, pdb.1, pdb.2,
                (calculatePermutations
                  ((validRearrangeExposures cfg p .all).map
                    (fun e : Exposure => e.dither))).length)) =
              .ok (flag, p', db', n) := h
          cases hsel : selectOpticalArrangement cfg acc.2 acc.1 LST with
          | none =>
            rw [hsel] at h
            cases h
          | some chosen =>
            rw [hsel] at h
            replace h : (do
              let pdb ← applyArrangement db p chosen
              Except.ok (ε := String) (true, pdb.1, pdb.2,
                (calculatePermutations
                  ((validRearrangeExposures cfg p .all).map
                    (fun e : Exposure => e.dither))).length)) =
                .ok (flag, p', db', n) := h
            cases happ : applyArrangement db p chosen with
            | error e =>
              rw [happ] at h
              cases h
            | ok pdb =>
              rw [happ] at h
              replace h : Except.ok (ε := String) (true, pdb.1, pdb.2,
                  (calculatePermutations
                    ((validRearrangeExposures cfg p .all).map
                      (fun e : Exposure => e.dither))).length) =
                  .ok (flag, p', db', n) := h
              rw [Except.ok.injEq, Prod.mk.injEq, Prod.mk.injEq,
                Prod.mk.injEq] at h
              obtain ⟨-, -, -, hn⟩ := h
              rw [← hn, calculatePermutations_length _ hds2]

/-- `repairAll` introduces no exposure that was not in its input sets. -/
theorem repairAll_exposures_sub (cfg : Config) (plugged : Bool) :
    ∀ (sets out : List SetT), repairAll cfg plugged sets = .ok out →
    ∀ s' ∈ out, ∀ e ∈ s'.exposures, e ∈ setsExposures sets := by
  intro sets
  induction sets with
  | nil =>
    intro out h
    rw [repairAll] at h
    rw [Except.ok.injEq] at h
    subst h
    intro s' hs'
    simp at hs'
  | cons s rest ih =>
    intro out h
    rw [repairAll] at h
    cases h1 : repairOne cfg plugged s with
    | error e =>
      rw [h1] at h
      cases h
    | ok pieces =>
      rw [h1] at h
      cases h2 : repairAll cfg plugged rest with
      | error e =>
        rw [h2] at h
        cases h
      | ok more =>
        rw [h2] at h
        replace h : Except.ok (ε := String) (pieces ++ more) = .ok out := h
        rw [Except.ok.injEq] at h
        subst h
        intro s' hs' e he
        rw [List.mem_append] at hs'
        have hcons : setsExposures (s :: rest) =
            s.exposures ++ setsExposures rest := rfl
        rw [hcons, List.mem_append]
        rcases hs' with hs' | hs'
        · exact Or.inl (repairOne_exposures_subset cfg plugged s pieces h1
            s' hs' e he)
        · exact Or.inr (ih more h2 s' hs' e he)

/-- `fixBadSets` introduces no exposure that was not on the arrangement. -/
theorem fixBadSets_exposures_sub (cfg : Config) (plugged : Bool)
    (sets out : List SetT) (h : fixBadSets cfg plugged sets = .ok out) :
    ∀ s' ∈ out, ∀ e ∈ s'.exposures, e ∈ setsExposures sets := by
  replace h : (do
      let toAdd ← repairAll cfg plugged
        (sets.filter fun ss => getStatus cfg plugged ss == SetStatus.Bad)
      Except.ok (((sets.filter fun ss =>
        getStatus cfg plugged ss == SetStatus.Bad).foldl
          (fun (acc : List SetT) s => acc.erase s) sets) ++ toAdd)) =
      .ok out := h
  cases h1 : repairAll cfg plugged
      (sets.filter fun ss => getStatus cfg plugged ss == .Bad) with
  | error e =>
    rw [h1] at h
    cases h
  | ok toAdd =>
    rw [h1] at h
    replace h : Except.ok (ε := String)
        (((sets.filter fun ss => getStatus cfg plugged ss == SetStatus.Bad).foldl
          (fun (acc : List SetT) s => acc.erase s) sets) ++ toAdd) =
        .ok out := h
    rw [Except.ok.injEq] at h
    subst h
    intro s' hs' e he
    rw [List.mem_append] at hs'
    rcases hs' with hs' | hs'
    · have hmem : s' ∈ sets := foldl_erase_subset _ sets hs'
      exact List.mem_flatMap.2 ⟨s', hmem, he⟩
    · have := repairAll_exposures_sub cfg plugged _ toAdd h1 s' hs' e he
      rw [setsExposures, List.mem_flatMap] at this
      obtain ⟨s, hs, hes⟩ := this
      exact List.mem_flatMap.2 ⟨s, (List.mem_filter.1 hs).1, hes⟩

/-- When the chosen arrangement holds no mock exposure, `applyArrangement`
goes through the database branch, which keeps every override-labelled set of
the plate. -/
theorem applyArrangement_override_preserved (db : DB) (p : Plate)
    (chosen : List SetT) (p' : Plate) (db' : DB)
    (hnm : (chosen.filter fun ss => ss.override.isNone).any
      (fun ss => ss.exposures.any (·.isMock)) = false)
    (h : applyArrangement db p chosen = .ok (p', db')) :
    ∀ s ∈ p.sets, s.override.isSome = true → s ∈ p'.sets := by
  replace h : (if (chosen.filter fun ss => ss.override.isNone).any
        (fun ss => ss.exposures.any (·.isMock)) then
      Except.ok (ε := String)
        ({ p with sets := chosen.filter fun ss => ss.override.isNone }, db)
    else do
      let pks ← getConsecutiveSets
        (db.filter fun pk =>
          !(((p.sets.filter fun ss => ss.override.isNone).filterMap
            (·.pk)).contains pk))
        (chosen.filter fun ss => ss.override.isNone).length
      Except.ok ({ p with sets :=
        (p.sets.filter fun ss => ss.override.isSome) ++
          (((chosen.filter fun ss => ss.override.isNone).zip pks).map
            fun c => { c.1 with pk := some c.2 }) },
        (db.filter fun pk =>
          !(((p.sets.filter fun ss => ss.override.isNone).filterMap
            (·.pk)).contains pk)) ++ pks)) = .ok (p', db') := h
  rw [hnm, if_neg Bool.false_ne_true] at h
  cases hpk : getConsecutiveSets
      (db.filter fun pk =>
        !(((p.sets.filter fun ss => ss.override.isNone).filterMap
          (·.pk)).contains pk))
      (chosen.filter fun ss => ss.override.isNone).length with
  | error e =>
    rw [hpk] at h
    cases h
  | ok pks =>
    rw [hpk] at h
    replace h : Except.ok (ε := String) (({ p with sets :=
        (p.sets.filter fun ss => ss.override.isSome) ++
          (((chosen.filter fun ss => ss.override.isNone).zip pks).map
            fun c => { c.1 with pk := some c.2 }) } : Plate),
        (db.filter fun pk =>
          !(((p.sets.filter fun ss => ss.override.isNone).filterMap
            (·.pk)).contains pk)) ++ pks) = .ok (p', db') := h
    rw [Except.ok.injEq, Prod.mk.injEq] at h
    obtain ⟨hp, -⟩ := h
    intro s hs hsome
    rw [← hp]
    exact List.mem_append_left _ (List.mem_filter.2 ⟨hs, hsome⟩)

/-- Witness for `C4_amended`: on `C3plate` the full count is 2 over limit 1,
and the `force=false` counter is 0. -/
theorem C4_amended_witness :
    C4ds ≠ [] ∧
    rearrangeOptimal cfgC3 [1, 2] C3plate .all false 0 =
      .ok (false, C3plate, [1, 2], 0) ∧
    (getNumberPermutations C4ds =
      (maxGroupSize C4ds).factorial ^ ((distinctDithers C4ds).length - 1) ∧
    (calculatePermutations C4ds).length = getNumberPermutations C4ds ∧
    0 = if getNumberPermutations
          ((validRearrangeExposures cfgC3 C3plate .all).map
            (fun e : Exposure => e.dither)) ≤ cfgC3.permutationLimitPlate then
        getNumberPermutations ((validRearrangeExposures cfgC3 C3plate .all).map
          (fun e : Exposure => e.dither))
      else 0) :=
  ⟨by with_unfolding_all decide, by with_unfolding_all decide,
    C4_amended C4ds cfgC3 [1, 2] C3plate 0 false C3plate [1, 2] 0
      (by with_unfolding_all decide) (by with_unfolding_all decide)⟩

/-- **C6, counterexample.**  `rearrangeSets(mode=sequential)` on `C6plate`
empties `plate.sets` before re-running `updatePlate`, which drops the
override-labelled set `C2oSet` from the plate: override sets are *not*
preserved on every rearrange path. -/
theorem C6_counterexample :
    rearrangeSets cfg1 [1, 2, 3] C6plate .sequentialMode .all false 0 =
      .ok (true, C6seqRes, [1, 3, 2], 0) ∧
    C2oSet ∈ C6plate.sets ∧ C2oSet.override.isSome = true ∧
    C2oSet ∉ C6seqRes.sets := by
  refine ⟨by with_unfolding_all decide, by with_unfolding_all decide,
    by with_unfolding_all decide, by with_unfolding_all decide⟩

/-- **C6 (amended).**  In the optimal mode with scope `all`, when the plate
holds no mock science exposure (so `applyArrangement` takes its database
branch) and the SN² values are non-negative (so a best arrangement is
selected among the candidates), every override-labelled set of the plate is
still a set of the plate after the call.  The sequential mode and the
mock-exposure path of `applyArrangement` violate the invariant
(`C6_counterexample`). -/
theorem C6_amended (cfg : Config) (db : DB) (p : Plate) (force : Bool)
    (LST : ℚ) (flag : Bool) (p' : Plate) (db' : DB) (n : Nat)
    (hb : 0 < cfg.plateBlue) (hr : 0 < cfg.plateRed)
    (hfac : cfg.setRearrangementFactor ≤ 1)
    (hnn : ∀ e ∈ scienceExposures p, expNonneg e)
    (hnm : ∀ e ∈ scienceExposures p, e.isMock = false)
    (h : rearrangeSets cfg db p .optimalMode .all force LST =
      .ok (flag, p', db', n)) :
    ∀ s ∈ p.sets, s.override.isSome = true → s ∈ p'.sets := by
  replace h : (if (validRearrangeExposures cfg p .all).isEmpty then
      Except.ok (ε := String) (true, p, db, 0)
    else rearrangeOptimal cfg db p .all force LST) =
      .ok (flag, p', db', n) := h
  rcases hsplit0 : (validRearrangeExposures cfg p .all).isEmpty with _ | _
  case true =>
    rw [hsplit0, if_pos rfl] at h
    rw [Except.ok.injEq, Prod.mk.injEq, Prod.mk.injEq, Prod.mk.injEq] at h
    obtain ⟨-, hp2, -, -⟩ := h
    rw [← hp2]
    intro s hs _
    exact hs
  case false =>
  rw [hsplit0, if_neg Bool.false_ne_true] at h
  replace h : (if (validRearrangeExposures cfg p .all).isEmpty then
        Except.ok (ε := String) (true, p, db, 0)
      else if cfg.permutationLimitPlate < getNumberPermutations
            ((validRearrangeExposures cfg p .all).map (·.dither)) ∧
          force = false then
        Except.ok (false, p, db, 0)
      else do
        let acc ← keepLoop cfg p.plugged
          ((calculatePermutations
              ((validRearrangeExposures cfg p .all).map (·.dither))).map
            fun perm =>
              permutationSets (validRearrangeExposures cfg p .all) perm ++
                (p.sets.filter fun ss => ss.override.isSome))
          ([], [])
        match selectOpticalArrangement cfg acc.2 acc.1 LST with
        | none => Except.error "selectOpticalArrangement received no arrangements"
        | some chosen => do
          let pdb ← applyArrangement db p chosen
          Except.ok (true, pdb.1, pdb.2,
            (calculatePermutations
              ((validRearrangeExposures cfg p .all).map (·.dither))).length)) =
      .ok (flag, p', db', n) := h
  have hval_sub : ∀ e ∈ validRearrangeExposures cfg p .all,
      e ∈ scienceExposures p := by
    intro e he
    exact (List.mem_filter.1 he).1
  have harr_sub : ∀ sets ∈ ((calculatePermutations
      ((validRearrangeExposures cfg p .all).map (·.dither))).map
      fun perm =>
        permutationSets (validRearrangeExposures cfg p .all) perm ++
          (p.sets.filter fun ss => ss.override.isSome)),
      ∀ ss ∈ sets, ∀ e ∈ ss.exposures, e ∈ scienceExposures p := by
    intro sets hsets ss hss e he
    rw [List.mem_map] at hsets
    obtain ⟨perm, hperm, rfl⟩ := hsets
    rw [List.mem_append] at hss
    rcases hss with hss | hss
    · rw [permutationSets, List.mem_map] at hss
      obtain ⟨row, hrow, rfl⟩ := hss
      exact hval_sub e (mem_rowExposures he)
    · have hmem : ss ∈ p.sets := (List.mem_filter.1 hss).1
      exact List.mem_append_left _ (List.mem_flatMap.2 ⟨ss, hmem, he⟩)
  split at h
  · rw [Except.ok.injEq, Prod.mk.injEq, Prod.mk.injEq, Prod.mk.injEq] at h
    obtain ⟨-, hp2, -, -⟩ := h
    rw [← hp2]
    intro s hs _
    exact hs
  · split at h
    · rw [Except.ok.injEq, Prod.mk.injEq, Prod.mk.injEq, Prod.mk.injEq] at h
      obtain ⟨-, hp2, -, -⟩ := h
      rw [← hp2]
      intro s hs _
      exact hs
    · cases hkl : keepLoop cfg p.plugged
          ((calculatePermutations
              ((validRearrangeExposures cfg p .all).map (·.dither))).map
            fun perm =>
              permutationSets (validRearrangeExposures cfg p .all) perm ++
                (p.sets.filter fun ss => ss.override.isSome)) ([], []) with
      | error e =>
        rw [hkl] at h
        cases h
      | ok acc =>
        rw [hkl] at h
        replace h : (match selectOpticalArrangement cfg acc.2 acc.1 LST with
          | none =>
            Except.error "selectOpticalArrangement received no arrangements"
          | some chosen => do
            let pdb ← applyArrangement db p chosen
            Except.ok (ε := String) (true, pdb.1, pdb.2,
              (calculatePermutations
                ((validRearrangeExposures cfg p .all).map
                  (fun e : Exposure => e.dither))).length)) =
            .ok (flag, p', db', n) := h
        cases hsel : selectOpticalArrangement cfg acc.2 acc.1 LST with
        | none =>
          rw [hsel] at h
          cases h
        | some chosen =>
          rw [hsel] at h
          replace h : (do
            let pdb ← applyArrangement db p chosen
            Except.ok (ε := String) (true, pdb.1, pdb.2,
              (calculatePermutations
                ((validRearrangeExposures cfg p .all).map
                  (fun e : Exposure => e.dither))).length)) =
              .ok (flag, p', db', n) := h
          cases happ : applyArrangement db p chosen with
          | error e =>
            rw [happ] at h
            cases h
          | ok pdb =>
            rw [happ] at h
            replace h : Except.ok (ε := String) (true, pdb.1, pdb.2,
                (calculatePermutations
                  ((validRearrangeExposures cfg p .all).map
                    (fun e : Exposure => e.dither))).length) =
                .ok (flag, p', db', n) := h
            rw [Except.ok.injEq, Prod.mk.injEq, Prod.mk.injEq,
              Prod.mk.injEq] at h
            obtain ⟨-, hp2, -, -⟩ := h
            have hlens := keepLoop_lengths cfg p.plugged _ ([], []) acc hkl rfl
            have hnnacc : ∀ c ∈ acc.1, 0 ≤ c := by
              refine keepLoop_nonneg cfg p.plugged _ ([], []) acc hkl
                (by intro c hc; simp at hc) ?_
              intro sets hsets
              refine scoredCompletion_nonneg cfg p.plugged sets hb hr ?_
              intro ss hss e he
              exact hnn e (harr_sub sets hsets ss hss e he)
            have hchmem : chosen ∈ acc.2 :=
              selectOpticalArrangement_mem cfg acc.2 acc.1 LST chosen
                hlens hnnacc hfac hsel
            rcases keepLoop_mem cfg p.plugged _ ([], []) acc hkl chosen hchmem
              with habs | ⟨sets, hsets, hfix⟩
            · simp at habs
            · have hch_sub : ∀ s' ∈ chosen, ∀ e ∈ s'.exposures,
                  e ∈ scienceExposures p := by
                intro s' hs' e he
                have := fixBadSets_exposures_sub cfg p.plugged sets chosen
                  hfix s' hs' e he
                rw [setsExposures, List.mem_flatMap] at this
                obtain ⟨ss, hss, hes⟩ := this
                exact harr_sub sets hsets ss hss e hes
              have hnomock : (chosen.filter fun ss =>
                  ss.override.isNone).any
                  (fun ss => ss.exposures.any (·.isMock)) = false := by
                rw [List.any_eq_false]
                intro ss hss
                have hssch : ss ∈ chosen := (List.mem_filter.1 hss).1
                intro hc
                rw [List.any_eq_true] at hc
                obtain ⟨e, he, hmock⟩ := hc
                rw [hnm e (hch_sub ss hssch e he)] at hmock
                cases hmock
              rw [← hp2]
              exact applyArrangement_override_preserved db p chosen pdb.1
                pdb.2 hnomock happ

/-- Witness for `C6_amended`: on `C6plate` the optimal rearrangement keeps
the override set (the plate is unchanged). -/
theorem C6_amended_witness :
    rearrangeSets cfg1 [1, 2, 3] C6plate .optimalMode .all false 0 =
      .ok (true, C6plate, [1, 3, 2], 1) ∧
    C2oSet ∈ C6plate.sets ∧ C2oSet.override.isSome = true :=
  ⟨by with_unfolding_all decide,
    C6_amended cfg1 [1, 2, 3] C6plate false 0 true C6plate [1, 3, 2] 1
      (by with_unfolding_all decide) (by with_unfolding_all decide)
      (by with_unfolding_all decide)
      (by simp only [expNonneg]; with_unfolding_all decide)
      (by with_unfolding_all decide) (by with_unfolding_all decide)
      C2oSet (by with_unfolding_all decide) (by with_unfolding_all decide),
    by with_unfolding_all decide⟩

/-- Without interleaved rearrangement, the assignment loop of `updatePlate`
always finishes with the flag `true`. -/
theorem updatePlateLoop_true (cfg : Config) (LST : ℚ) :
    ∀ (exps : List Exposure) (db : DB) (p : Plate) (out : Bool × Plate × DB),
    updatePlateLoop cfg false LST exps db p = .ok out → out.1 = true := by
  intro exps
  induction exps with
  | nil =>
    intro db p out h
    rw [updatePlateLoop] at h
    rw [Except.ok.injEq] at h
    rw [← h]
  | cons e rest ih =>
    intro db p out h
    rw [updatePlateLoop] at h
    cases hasg : assignExposureToOptimalSet cfg db p e with
    | error msg =>
      rw [hasg] at h
      cases h
    | ok pdb =>
      rw [hasg] at h
      replace h : updatePlateLoop cfg false LST rest pdb.2 pdb.1 = .ok out := h
      exact ih pdb.2 pdb.1 out h

/-- **C7, counterexample.**  On `C7plate` with `rearrangeIncomplete=true`
and incomplete-scope permutation limit 1, `updatePlate` assigns all three
valid unassigned exposures into sets (the result has two sets and an empty
unassigned list) yet returns `false`, because the third interleaved
`rearrange(mode=Optimal, scope=Incomplete)` exceeds the permutation limit
and its `false` is propagated.  "Returns true iff at least one exposure was
newly assigned" is therefore wrong. -/
theorem C7_counterexample :
    updatePlate cfgC7 [1, 2] C7plate true 0 =
      .ok (false, C7res, [1, 2, 3, 4]) ∧
    (∀ e ∈ C7plate.unassigned, e.valid = true) ∧
    C7plate.unassigned ≠ [] ∧ C7res.unassigned = [] ∧ C7res.sets ≠ [] := by
  refine ⟨by with_unfolding_all decide, by with_unfolding_all decide,
    by with_unfolding_all decide, by with_unfolding_all decide,
    by with_unfolding_all decide⟩

/-- **C7 (amended).**  `updatePlate` returns `false` exactly when the plate
has no valid unassigned exposure — *provided* `rearrangeIncomplete` is
false.  (With `rearrangeIncomplete=true` a failed interleaved rearrangement
makes it return `false` even though exposures were newly assigned,
`C7_counterexample`.) -/
theorem C7_amended (cfg : Config) (db : DB) (p : Plate) (LST : ℚ) :
    (((sortByNo p.unassigned).filter (·.valid)).isEmpty = true →
      ∀ ri, updatePlate cfg db p ri LST = .ok (false, p, db)) ∧
    (∀ flag p' db',
      updatePlate cfg db p false LST = .ok (flag, p', db') →
      (flag = true ↔
        ((sortByNo p.unassigned).filter (·.valid)).isEmpty = false)) := by
  constructor
  · intro hemp ri
    show (if ((sortByNo p.unassigned).filter (·.valid)).isEmpty then
        Except.ok (ε := String) (false, p, db)
      else updatePlateLoop cfg ri LST
        ((sortByNo p.unassigned).filter (·.valid)) db p) =
      .ok (false, p, db)
    rw [if_pos hemp]
  · intro flag p' db' h
    replace h : (if ((sortByNo p.unassigned).filter (·.valid)).isEmpty then
        Except.ok (ε := String) (false, p, db)
      else updatePlateLoop cfg false LST
        ((sortByNo p.unassigned).filter (·.valid)) db p) =
      .ok (flag, p', db') := h
    rcases hemp : ((sortByNo p.unassigned).filter (·.valid)).isEmpty
      with _ | _
    case true =>
      rw [hemp, if_pos rfl] at h
      rw [Except.ok.injEq, Prod.mk.injEq] at h
      obtain ⟨hf, -⟩ := h
      rw [← hf, hemp]
      simp
    case false =>
      rw [hemp, if_neg Bool.false_ne_true] at h
      have hflag : flag = true := updatePlateLoop_true cfg LST _ _ _ _ h
      rw [hflag, hemp]
      simp

/-- The value at `argmaxIdx` is the maximum of the list. -/
theorem argmaxIdx_getD (l : List ℚ) (h : l ≠ []) :
    l.getD (argmaxIdx l) 0 = listMax l := by
  have hmax := listMax_mem l h
  obtain ⟨i, hi, hval⟩ := List.getElem_of_mem hmax
  have hne : (List.range l.length).filter
      (fun i => l.getD i 0 == listMax l) ≠ [] := by
    intro hnil
    have hmem : i ∈ (List.range l.length).filter
        (fun i => l.getD i 0 == listMax l) := by
      rw [List.mem_filter]
      refine ⟨List.mem_range.2 hi, ?_⟩
      rw [List.getD_eq_getElem _ _ hi, hval]
      simp
    rw [hnil] at hmem
    simp at hmem
  have hmem := headD_mem _ 0 hne
  rw [List.mem_filter] at hmem
  have := hmem.2
  unfold argmaxIdx
  simpa using this

/-- `repairOne` succeeds exactly on sets of at least two exposures. -/
theorem repairOne_ok_iff (cfg : Config) (plugged : Bool) (ss : SetT) :
    (∃ ps, repairOne cfg plugged ss = .ok ps) ↔ 2 ≤ ss.exposures.length := by
  constructor
  · rintro ⟨ps, h⟩
    unfold repairOne at h
    rcases hexp : ss.exposures with _ | ⟨e1, _ | ⟨e2, rest⟩⟩ <;>
      rw [hexp] at h <;> dsimp only at h
    · cases h
    · cases h
    · simp
  · intro hlen
    unfold repairOne
    rcases hexp : ss.exposures with _ | ⟨e1, _ | ⟨e2, _ | ⟨e3, rest⟩⟩⟩
    · rw [hexp] at hlen
      simp at hlen
    · rw [hexp] at hlen
      simp at hlen
    · exact ⟨_, rfl⟩
    · dsimp only
      split
      · exact ⟨_, rfl⟩
      · exact ⟨_, rfl⟩

/-- `repairAll` succeeds exactly when `repairOne` succeeds on every set. -/
theorem repairAll_ok_iff (cfg : Config) (plugged : Bool) :
    ∀ sets : List SetT,
    (∃ out, repairAll cfg plugged sets = .ok out) ↔
    ∀ ss ∈ sets, ∃ ps, repairOne cfg plugged ss = .ok ps := by
  intro sets
  induction sets with
  | nil =>
    constructor
    · intro _ ss hss
      simp at hss
    · intro _
      exact ⟨[], rfl⟩
  | cons s rest ih =>
    constructor
    · rintro ⟨out, h⟩
      rw [repairAll] at h
      cases h1 : repairOne cfg plugged s with
      | error e =>
        rw [h1] at h
        cases h
      | ok pieces =>
        rw [h1] at h
        cases h2 : repairAll cfg plugged rest with
        | error e =>
          rw [h2] at h
          cases h
        | ok more =>
          intro ss hss
          rw [List.mem_cons] at hss
          rcases hss with rfl | hss
          · exact ⟨pieces, h1⟩
          · exact (ih.1 ⟨more, h2⟩) ss hss
    · intro hall
      obtain ⟨pieces, h1⟩ := hall s (by simp)
      obtain ⟨more, h2⟩ := ih.2 (fun ss hss => hall ss (by simp [hss]))
      exact ⟨pieces ++ more, by rw [repairAll, h1, h2]; rfl⟩

/-- **C5.**  The sets `fixBadSets` (`repairBadSet` of the specification)
builds: it succeeds exactly when every `Bad` set has at least two exposures
(a one-exposure `Bad` set raises); a two-exposure `Bad` set splits into two
singletons; a three-exposure `Bad` set keeps a non-`Bad` pair of maximal
summed SN² plus the remaining exposure, or splits into three singletons
when every pair is `Bad`; and non-`Bad` sets are carried over unchanged. -/
theorem C5 (cfg : Config) (plugged : Bool) (sets : List SetT) :
    ((∃ out, fixBadSets cfg plugged sets = .ok out) ↔
      ∀ ss ∈ sets, getStatus cfg plugged ss = .Bad →
        2 ≤ ss.exposures.length) ∧
    (∀ ss : SetT, ∀ e1 e2, ss.exposures = [e1, e2] →
      repairOne cfg plugged ss = .ok [fromExposures [e1], fromExposures [e2]]) ∧
    (∀ ss : SetT, ∀ e1 e2 e3, ss.exposures = [e1, e2, e3] →
      ((([fromExposures [e1, e2], fromExposures [e1, e3],
          fromExposures [e2, e3]].filter fun ts =>
            getStatus cfg plugged ts ≠ .Bad) = [] →
        repairOne cfg plugged ss = .ok [fromExposures [e1],
          fromExposures [e2], fromExposures [e3]]) ∧
       (([fromExposures [e1, e2], fromExposures [e1, e3],
          fromExposures [e2, e3]].filter fun ts =>
            getStatus cfg plugged ts ≠ .Bad) ≠ [] →
        ∃ best ∈ [fromExposures [e1, e2], fromExposures [e1, e3],
          fromExposures [e2, e3]].filter fun ts =>
            getStatus cfg plugged ts ≠ .Bad,
          (∀ other ∈ [fromExposures [e1, e2], fromExposures [e1, e3],
            fromExposures [e2, e3]].filter fun ts =>
              getStatus cfg plugged ts ≠ .Bad,
            sn2Total other ≤ sn2Total best) ∧
          repairOne cfg plugged ss = .ok [best,
            fromExposures (ss.exposures.filter fun e =>
              !(best.exposures.contains e))]))) ∧
    (∀ out, fixBadSets cfg plugged sets = .ok out →
      ∀ ss ∈ sets, getStatus cfg plugged ss ≠ .Bad → ss ∈ out) := by
  refine ⟨?_, ?_, ?_, ?_⟩
  · constructor
    · rintro ⟨out, h⟩ ss hss hbad
      replace h : (do
          let toAdd ← repairAll cfg plugged
            (sets.filter fun s => getStatus cfg plugged s == SetStatus.Bad)
          Except.ok (((sets.filter fun s =>
            getStatus cfg plugged s == SetStatus.Bad).foldl
              (fun (acc : List SetT) s => acc.erase s) sets) ++ toAdd)) =
          .ok out := h
      cases h1 : repairAll cfg plugged
          (sets.filter fun s => getStatus cfg plugged s == .Bad) with
      | error e =>
        rw [h1] at h
        cases h
      | ok toAdd =>
        have hmem : ss ∈ sets.filter fun s =>
            getStatus cfg plugged s == .Bad :=
          List.mem_filter.2 ⟨hss, by simp [hbad]⟩
        obtain ⟨ps, hps⟩ := (repairAll_ok_iff cfg plugged _).1 ⟨toAdd, h1⟩
          ss hmem
        exact (repairOne_ok_iff cfg plugged ss).1 ⟨ps, hps⟩
    · intro hall
      obtain ⟨toAdd, h1⟩ := (repairAll_ok_iff cfg plugged
          (sets.filter fun s => getStatus cfg plugged s == SetStatus.Bad)).2 (by
        intro ss hss
        have hmem := List.mem_filter.1 hss
        refine (repairOne_ok_iff cfg plugged ss).2 (hall ss hmem.1 ?_)
        have := hmem.2
        simpa using this)
      refine ⟨((sets.filter fun s =>
        getStatus cfg plugged s == SetStatus.Bad).foldl
          (fun (acc : List SetT) s => acc.erase s) sets) ++ toAdd, ?_⟩
      show (do
        let toAdd ← repairAll cfg plugged
          (sets.filter fun s => getStatus cfg plugged s == SetStatus.Bad)
        Except.ok (((sets.filter fun s =>
          getStatus cfg plugged s == SetStatus.Bad).foldl
            (fun (acc : List SetT) s => acc.erase s) sets) ++ toAdd)) = _
      rw [h1]
      rfl
  · intro ss e1 e2 hexp
    unfold repairOne
    rw [hexp]
  · intro ss e1 e2 e3 hexp
    constructor
    · intro hnil
      unfold repairOne
      rw [hexp]
      dsimp only
      rw [if_pos (by rw [hnil]; rfl)]
      rfl
    · intro hne
      refine ⟨([fromExposures [e1, e2], fromExposures [e1, e3],
        fromExposures [e2, e3]].filter fun ts =>
          getStatus cfg plugged ts ≠ .Bad).getD
        (argmaxIdx (([fromExposures [e1, e2], fromExposures [e1, e3],
          fromExposures [e2, e3]].filter fun ts =>
            getStatus cfg plugged ts ≠ .Bad).map sn2Total))
        (fromExposures []), ?_, ?_, ?_⟩
      · apply getD_mem
        have hmaps := argmaxIdx_lt (([fromExposures [e1, e2],
            fromExposures [e1, e3], fromExposures [e2, e3]].filter fun ts =>
              getStatus cfg plugged ts ≠ .Bad).map sn2Total) (by
          intro hc
          rw [List.map_eq_nil_iff] at hc
          exact hne hc)
        rw [List.length_map] at hmaps
        exact hmaps
      · intro other hother
        have hmaps_ne : (([fromExposures [e1, e2], fromExposures [e1, e3],
            fromExposures [e2, e3]].filter fun ts =>
              getStatus cfg plugged ts ≠ .Bad).map sn2Total) ≠ [] := by
          intro hc
          rw [List.map_eq_nil_iff] at hc
          exact hne hc
        have hidx := argmaxIdx_lt _ hmaps_ne
        rw [List.length_map] at hidx
        have hgetd : sn2Total (([fromExposures [e1, e2],
            fromExposures [e1, e3], fromExposures [e2, e3]].filter fun ts =>
              getStatus cfg plugged ts ≠ .Bad).getD
            (argmaxIdx (([fromExposures [e1, e2], fromExposures [e1, e3],
              fromExposures [e2, e3]].filter fun ts =>
                getStatus cfg plugged ts ≠ .Bad).map sn2Total))
            (fromExposures [])) =
            (([fromExposures [e1, e2], fromExposures [e1, e3],
              fromExposures [e2, e3]].filter fun ts =>
                getStatus cfg plugged ts ≠ .Bad).map sn2Total).getD
            (argmaxIdx (([fromExposures [e1, e2], fromExposures [e1, e3],
              fromExposures [e2, e3]].filter fun ts =>
                getStatus cfg plugged ts ≠ .Bad).map sn2Total)) 0 := by
          rw [List.getD_eq_getElem _ _ hidx,
            List.getD_eq_getElem _ _ (by rw [List.length_map]; exact hidx),
            List.getElem_map]
        rw [hgetd, argmaxIdx_getD _ hmaps_ne]
        exact le_listMax _ _ (List.mem_map_of_mem sn2Total hother)
      · unfold repairOne
        rw [hexp]
        dsimp only
        rw [if_neg (by
          intro hc
          exact hne (List.isEmpty_iff.1 hc))]
  · intro out h ss hss hstat
    replace h : (do
        let toAdd ← repairAll cfg plugged
          (sets.filter fun s => getStatus cfg plugged s == SetStatus.Bad)
        Except.ok (((sets.filter fun s =>
          getStatus cfg plugged s == SetStatus.Bad).foldl
            (fun (acc : List SetT) s => acc.erase s) sets) ++ toAdd)) =
        .ok out := h
    cases h1 : repairAll cfg plugged
        (sets.filter fun s => getStatus cfg plugged s == .Bad) with
    | error e =>
      rw [h1] at h
      cases h
    | ok toAdd =>
      rw [h1] at h
      replace h : Except.ok (ε := String)
          (((sets.filter fun s =>
            getStatus cfg plugged s == SetStatus.Bad).foldl
              (fun (acc : List SetT) s => acc.erase s) sets) ++ toAdd) =
          .ok out := h
      rw [Except.ok.injEq] at h
      subst h
      refine List.mem_append_left _ ?_
      refine (foldl_erase_filter_perm sets
        (fun s => getStatus cfg plugged s == .Bad)).mem_iff.2 ?_
      refine List.mem_filter.2 ⟨hss, ?_⟩
      simp [hstat]

/-- Witness for `C5`: the two-exposure `Bad` set `C5bad2` splits into two
singleton sets. -/
theorem C5_witness :
    getStatus cfg1 true C5bad2 = .Bad ∧
    C5bad2.exposures = [C5e1, C5e2] ∧
    repairOne cfg1 true C5bad2 =
      .ok [fromExposures [C5e1], fromExposures [C5e2]] :=
  ⟨by with_unfolding_all decide, by with_unfolding_all decide,
    (C5 cfg1 true [C5bad2]).2.1 C5bad2 C5e1 C5e2
      (by with_unfolding_all decide)⟩

/-- Scrubbing commutes with adding a `_tmp`-tagged exposure. -/
theorem cleanupLoser_addMock (cfg : Config) (p : Plate) (e : Exposure)
    (he : e.tmp = true) :
    cleanupLoser (addMockExposure cfg p e) = cleanupLoser p := by
  unfold addMockExposure
  cases hopt : getOptimalSet cfg p.plugged p.sets e with
  | none =>
    unfold cleanupLoser
    dsimp only
    rw [List.map_append, List.filter_append]
    have hscrub : ([fromExposures [e]].map scrubSet).filter
        (fun ss => 0 < ss.exposures.length) = [] := by
      simp [scrubSet, fromExposures, List.filter_cons, he]
    rw [hscrub, List.append_nil]
  | some oset =>
    unfold cleanupLoser
    dsimp only
    rw [List.map_map]
    have hcongr : ∀ ss ∈ p.sets, (scrubSet ∘ fun ss =>
        if ss = oset then { ss with exposures := ss.exposures ++ [e] }
        else ss) ss = scrubSet ss := by
      intro ss _
      simp only [Function.comp_apply]
      split
      · unfold scrubSet
        dsimp only
        rw [List.filter_append]
        have : ([e].filter fun x => !x.tmp) = [] := by
          simp [he]
        rw [this, List.append_nil]
      · rfl
    rw [List.map_congr_left hcongr]

/-- Scrubbing a clean plate is the identity. -/
theorem cleanupLoser_clean (p : Plate) (h : cleanPlate p) :
    cleanupLoser p = p := by
  unfold cleanupLoser
  have hmap : p.sets.map scrubSet = p.sets := by
    have hcongr : ∀ ss ∈ p.sets, scrubSet ss = id ss := by
      intro ss hss
      have hfil : ss.exposures.filter (fun e => !e.tmp) = ss.exposures := by
        rw [List.filter_eq_self]
        intro e he
        rw [(h ss hss).2 e he]
        rfl
      simp [scrubSet, hfil]
    rw [List.map_congr_left hcongr, List.map_id]
  rw [hmap]
  have hfil2 : p.sets.filter (fun ss => 0 < ss.exposures.length) = p.sets := by
    rw [List.filter_eq_self]
    intro ss hss
    have := (h ss hss).1
    simp only [decide_eq_true_eq]
    cases hexp : ss.exposures with
    | nil => exact absurd hexp this
    | cons a t => simp
  rw [hfil2]

/-- The simulated plate scrubs back to the original plate. -/
theorem cleanupLoser_simulateOne (cfg : Config)
    (observable tooLow : ℚ → Plate → Bool) (mkMock : ℚ → Option Exposure)
    (step : ℚ) :
    ∀ (fuel : Nat) (jd jd1 : ℚ) (p : Plate),
    cleanupLoser (simulateOne cfg observable tooLow mkMock step
      fuel jd jd1 p).1 = cleanupLoser p := by
  intro fuel
  induction fuel with
  | zero => intro jd jd1 p; rfl
  | succ n ih =>
    intro jd jd1 p
    rw [simulateOne]
    split
    · rfl
    · split
      · rfl
      · split
        · exact ih (jd + step) jd1 p
        · split
          · rfl
          · cases hmk : mkMock jd with
            | none => exact ih (jd + step) jd1 p
            | some e =>
              dsimp only
              rw [ih (jd + step) jd1 _]
              exact cleanupLoser_addMock cfg p _ rfl

/-- The index walk is the identity when no set is empty. -/
theorem pyRemoveEmptiesLoop_id :
    ∀ (fuel i : Nat) (l : List SetT),
    (∀ ss ∈ l, ss.exposures.isEmpty = false) →
    pyRemoveEmptiesLoop fuel i l = l := by
  intro fuel
  induction fuel with
  | zero => intro i l _; rfl
  | succ n ih =>
    intro i l h
    rw [pyRemoveEmptiesLoop]
    cases hget : l[i]? with
    | none => rfl
    | some x =>
      have hx : x ∈ l := List.getElem?_mem hget
      dsimp only
      rw [if_neg (by simp [h x hx])]
      exact ih (i + 1) l h

/-- On a winner with no empty set, the cleanup is exactly the tag-clearing
map. -/
theorem cleanupWinner_no_empty (p : Plate)
    (h : ∀ ss ∈ p.sets, ss.exposures ≠ []) :
    cleanupWinner p = { p with sets := p.sets.map clearTmpSet } := by
  unfold cleanupWinner pyRemoveEmpties
  rw [pyRemoveEmptiesLoop_id]
  intro ss hss
  rw [List.mem_map] at hss
  obtain ⟨ss0, hss0, rfl⟩ := hss
  have hne := h ss0 hss0
  unfold clearTmpSet
  dsimp only
  rw [Bool.eq_false_iff]
  intro hc
  rw [List.isEmpty_iff, List.map_eq_nil_iff] at hc
  exact hne hc

/-- **C8.**  After `simulatePlates` tags its mock exposures with `_tmp`,
`cleanupPlates(plates, winner)` restores every plate whose simulated state
is not the winner exactly to its pre-simulation state (position by
position), and maps the winner's position to the cleaned winner; the
cleaned winner keeps every set and every exposure, with the `_tmp` tag of
its valid exposures cleared.  Requires the pre-simulation plates to be
clean: no empty sets and no stray `_tmp` tags, the state in which the
simulator receives them. -/
theorem C8 (cfg : Config) (observable tooLow : ℚ → Plate → Bool)
    (mkMock : ℚ → Option Exposure) (step : ℚ) (fuel : Nat) (jd0 jd1 : ℚ)
    (plates : List Plate) (winner : Plate)
    (hclean : ∀ p ∈ plates, cleanPlate p) :
    (∀ i, i < plates.length →
      (((simulatePlates cfg observable tooLow mkMock step fuel jd0 jd1
          plates).1[i]? ≠ some winner →
        (cleanupPlates (simulatePlates cfg observable tooLow mkMock step fuel
          jd0 jd1 plates).1 winner)[i]? = plates[i]?) ∧
       ((simulatePlates cfg observable tooLow mkMock step fuel jd0 jd1
          plates).1[i]? = some winner →
        (cleanupPlates (simulatePlates cfg observable tooLow mkMock step fuel
          jd0 jd1 plates).1 winner)[i]? = some (cleanupWinner winner)))) ∧
    ((∀ ss ∈ winner.sets, ss.exposures ≠ []) →
      (cleanupWinner winner).sets = winner.sets.map clearTmpSet) := by
  constructor
  · intro i hi
    unfold simulatePlates cleanupPlates
    rw [List.map_map, List.getElem?_map, List.getElem?_map,
      List.getElem?_eq_getElem hi, Option.map_some', Option.map_some']
    constructor
    · intro hne
      have hfp : (simulateOne cfg observable tooLow mkMock step fuel jd0 jd1
          plates[i]).1 ≠ winner := by
        intro hc
        exact hne (by rw [hc])
      simp only [Function.comp_apply]
      rw [if_neg hfp, cleanupLoser_simulateOne,
        cleanupLoser_clean plates[i] (hclean plates[i] (List.getElem_mem hi))]
    · intro heq
      have hfp : (simulateOne cfg observable tooLow mkMock step fuel jd0 jd1
          plates[i]).1 = winner := by
        rw [Option.some_inj] at heq
        exact heq
      simp only [Function.comp_apply]
      rw [if_pos hfp, hfp]
  · intro h
    rw [cleanupWinner_no_empty winner h]

/-- Witness for `C8`: one simulated step really adds `_tmp` mocks to both
plates (the observed flag is set and the simulated loser differs from its
original), the loser's position is restored exactly, the winner's position
holds the cleaned winner, and the cleaned winner keeps its sets with the
tags cleared. -/
theorem C8_witness :
    (∀ p ∈ C8plates, cleanPlate p) ∧
    C8sims.2 = true ∧
    C8sims.1[1]? ≠ C8plates[1]? ∧
    C8sims.1[0]? = some C8winner ∧
    C8sims.1[1]? ≠ some C8winner ∧
    (cleanupPlates C8sims.1 C8winner)[1]? = C8plates[1]? ∧
    (cleanupPlates C8sims.1 C8winner)[0]? = some (cleanupWinner C8winner) ∧
    (cleanupWinner C8winner).sets = C8winner.sets.map clearTmpSet :=
  ⟨by simp only [cleanPlate]; with_unfolding_all decide,
    by with_unfolding_all decide,
    by with_unfolding_all decide,
    by with_unfolding_all decide,
    by with_unfolding_all decide,
    ((C8 cfgC7 C8obs C8low C8mk 1 1 0 1 C8plates C8winner
      (by simp only [cleanPlate]; with_unfolding_all decide)).1 1
      (by with_unfolding_all decide)).1 (by with_unfolding_all decide),
    ((C8 cfgC7 C8obs C8low C8mk 1 1 0 1 C8plates C8winner
      (by simp only [cleanPlate]; with_unfolding_all decide)).1 0
      (by with_unfolding_all decide)).2 (by with_unfolding_all decide),
    (C8 cfgC7 C8obs C8low C8mk 1 1 0 1 C8plates C8winner
      (by simp only [cleanPlate]; with_unfolding_all decide)).2
      (by with_unfolding_all decide)⟩

/-- **C10.**  `Timeline.schedule` answers `true` exactly when the
timeline's remaining unallocated exposure time is zero at the moment it
returns — whether the loop ran dry of time, ran out of candidate plates, or
found no optimal plate. -/
theorem C10 (chooser : List TPlate → List (ℚ × ℚ) → Option TPlate)
    (tl : Timeline) (plates : List TPlate) (force : Bool) (b : Bool)
    (tl' : Timeline)
    (h : schedule chooser tl plates force = .ok (b, tl')) :
    b = true ↔ remainingTime tl' = 0 := by
  replace h : (do
      let r ← scheduleLoop chooser
        (if force then plates else plates.filter (fun pl => !pl.isComplete))
        plates.length plates { tl with scheduled := [] }
      Except.ok (ε := String)
        (decide (remainingTime (if 0 < r.2.length ∧ force = true then
            { allocateJDs r.1 (if force then plates
                else plates.filter (fun pl => !pl.isComplete)) with
              scheduled := r.1.scheduled ++ (if force then plates
                else plates.filter (fun pl => !pl.isComplete)) }
          else r.1) = 0),
        (if 0 < r.2.length ∧ force = true then
            { allocateJDs r.1 (if force then plates
                else plates.filter (fun pl => !pl.isComplete)) with
              scheduled := r.1.scheduled ++ (if force then plates
                else plates.filter (fun pl => !pl.isComplete)) }
          else r.1))) = .ok (b, tl') := h
  cases hr : scheduleLoop chooser
      (if force then plates else plates.filter (fun pl => !pl.isComplete))
      plates.length plates { tl with scheduled := [] } with
  | error e =>
    rw [hr] at h
    cases h
  | ok r =>
    rw [hr] at h
    replace h : Except.ok (ε := String)
        (decide (remainingTime (if 0 < r.2.length ∧ force = true then
            { allocateJDs r.1 (if force then plates
                else plates.filter (fun pl => !pl.isComplete)) with
              scheduled := r.1.scheduled ++ (if force then plates
                else plates.filter (fun pl => !pl.isComplete)) }
          else r.1) = 0),
        (if 0 < r.2.length ∧ force = true then
            { allocateJDs r.1 (if force then plates
                else plates.filter (fun pl => !pl.isComplete)) with
              scheduled := r.1.scheduled ++ (if force then plates
                else plates.filter (fun pl => !pl.isComplete)) }
          else r.1)) = .ok (b, tl') := h
    rw [Except.ok.injEq, Prod.mk.injEq] at h
    obtain ⟨hb, htl⟩ := h
    rw [← hb, ← htl]
    simp

/-- Witness for `C10`: scheduling the covering plate empties the
unallocated time and the call returns `true`. -/
theorem C10_witness :
    schedule C10chooser C10tl [C10plate] false = .ok (true, C10res) ∧
    (true = true ↔ remainingTime C10res = 0) :=
  ⟨by with_unfolding_all decide,
    C10 C10chooser C10tl [C10plate] false true C10res
      (by with_unfolding_all decide)⟩

/-- Witness for `C7_amended`: a plate with no unassigned exposures makes
`updatePlate` return `false` untouched. -/
theorem C7_amended_witness :
    ((sortByNo C2plate.unassigned).filter (·.valid)).isEmpty = true ∧
    updatePlate cfg1 [1, 2] C2plate true 0 = .ok (false, C2plate, [1, 2]) :=
  ⟨by with_unfolding_all decide,
    (C7_amended cfg1 [1, 2] C2plate 0).1 (by with_unfolding_all decide) true⟩

end Totoro



